import Mathlib

/-! Layer filter pipeline of libpag (`src/rendering/renderers/FilterRenderer.cpp`).

A shallow embedding of the filter-list builder, the bounds propagation, the
filter-node sequencer and the buffer-reusing compositor, followed by the
properties established about them.

Coordinates are `float` in the source; here they are exact rationals, so the
development speaks about the arithmetic the code intends (no NaN, no rounding
of products).  Mutable locals of the C++ functions are threaded explicitly, and
the calls a function makes on its collaborators are recorded in a call list.
-/

namespace pag

/-! ## Geometry -/

/-- Modelled from the spec: `tgfx::Point`, declared outside the rendered sources. -/
structure Point where
  x : ℚ
  y : ℚ
deriving DecidableEq, Repr

/-- Modelled from the spec: `tgfx::Rect` (left, top, right, bottom), declared
outside the rendered sources. -/
structure Rect where
  left : ℚ
  top : ℚ
  right : ℚ
  bottom : ℚ
deriving DecidableEq, Repr

/-- Modelled from the spec: `Rect::MakeXYWH`. -/
def Rect.MakeXYWH (x y w h : ℚ) : Rect := ⟨x, y, x + w, y + h⟩

/-- Modelled from the spec: `Rect::width`. -/
def Rect.width (r : Rect) : ℚ := r.right - r.left

/-- Modelled from the spec: `Rect::height`. -/
def Rect.height (r : Rect) : ℚ := r.bottom - r.top

/-- Modelled from the spec: `Rect::roundOut`, "rounds its output outward to
integer pixels": floor of left and top, ceiling of right and bottom. -/
def Rect.roundOut (r : Rect) : Rect :=
  ⟨(⌊r.left⌋ : ℤ), (⌊r.top⌋ : ℤ), (⌈r.right⌉ : ℤ), (⌈r.bottom⌉ : ℤ)⟩

/-- Modelled from the spec: `Rect::intersect`.  `some r` stands for the C++
result `true` with the receiver replaced by the intersection `r`; `none` stands
for `false` (the intersection is empty) with the receiver left unchanged. -/
def Rect.intersect (a b : Rect) : Option Rect :=
  let L := if a.left > b.left then a.left else b.left
  let R := if a.right < b.right then a.right else b.right
  let T := if a.top > b.top then a.top else b.top
  let B := if a.bottom < b.bottom then a.bottom else b.bottom
  if L < R ∧ T < B then some ⟨L, T, R, B⟩ else none

/-- A rectangle whose four edges are integers. -/
def Rect.IsIntegral (r : Rect) : Prop :=
  (∃ n : ℤ, r.left = n) ∧ (∃ n : ℤ, r.top = n) ∧ (∃ n : ℤ, r.right = n) ∧ (∃ n : ℤ, r.bottom = n)

/-- Modelled from the spec: `tgfx::Matrix` as its six affine entries. -/
structure Matrix where
  scaleX : ℚ
  skewX : ℚ
  transX : ℚ
  skewY : ℚ
  scaleY : ℚ
  transY : ℚ
deriving DecidableEq, Repr

/-! ## Layers, effects and layer styles -/

abbrev Frame := Int

/-- The layer types the renderer tells apart (the cases of the `switch` in
`GetParentBounds`); `Unknown` stands for every other type. -/
inductive LayerType where
  | Unknown | Solid | Text | Shape | Image | PreCompose
deriving DecidableEq, Repr

/-- The effect types the renderer tells apart; `Unknown` stands for every
other type. -/
inductive EffectType where
  | Unknown | FastBlur | DisplacementMap
deriving DecidableEq, Repr

/-- The composition referenced by a pre-compose layer (only its size is read). -/
structure Composition where
  width : Int
  height : Int
deriving DecidableEq, Repr

/-- The layer a displacement-map effect points to (`displacementMapLayer`),
read by `GetDisplacementMapGraphic` as a pre-compose layer. -/
structure MapLayer where
  composition : Composition
  startTime : Frame
deriving DecidableEq, Repr

/-- The interface of `Effect` that the renderer consumes. -/
structure Effect where
  uid : Nat
  type : EffectType
  visibleAt : Frame → Bool
  processVisibleAreaOnly : Bool
  transformBounds : Rect → Point → Frame → Rect
  displacementMapLayer : MapLayer
  blurrinessAnimatable : Bool

/-- The interface of `LayerStyle` that the renderer consumes. -/
structure LayerStyle where
  uid : Nat
  visibleAt : Frame → Bool
  transformBounds : Rect → Point → Frame → Rect

/-- The part of `Layer` that the renderer reads; `getTransform` stands for
`LayerCache::Get(layer)->getTransform(contentFrame)->matrix`. -/
structure Layer where
  type : LayerType
  startTime : Frame
  motionBlur : Bool
  effects : List Effect
  layerStyles : List LayerStyle
  getTransform : Frame → Matrix

structure FilterModifier where
  layer : Layer
  layerFrame : Frame

structure FilterList where
  layer : Layer
  layerFrame : Frame
  layerMatrix : Matrix
  scaleFactorLimit : ℚ
  processVisibleAreaOnly : Bool
  useParentSizeInput : Bool
  effects : List Effect
  layerStyles : List LayerStyle
  effectScale : Point
  layerStyleScale : Point

/-- Bounds helpers called by the renderer whose bodies live in other files:
`GetScaleFactor(matrix, 1.0f, true)`, `MotionBlurFilter::TransformBounds` and
`LayerStylesFilter::TransformBounds`. -/
structure Externals where
  GetScaleFactor : Matrix → Point
  MotionBlurTransformBounds : Rect → Point → Layer → Frame → Rect
  LayerStylesTransformBounds : Rect → FilterList → Rect

/-! ## MakeFilterList -/

/-- The value of `FLT_MAX`. -/
def FLT_MAX : ℚ := 340282346638528859811704183484516925440

def GetScaleFactorLimit (layer : Layer) : ℚ :=
  if layer.type = LayerType.Image then 1 else FLT_MAX

/-- The loop of `DoesProcessVisibleAreaOnly` over `layer->effects`. -/
def DoesProcessVisibleAreaOnly.loop : List Effect → Bool
  | [] => true
  | effect :: rest =>
    if !effect.processVisibleAreaOnly then false else DoesProcessVisibleAreaOnly.loop rest

def DoesProcessVisibleAreaOnly (layer : Layer) : Bool :=
  DoesProcessVisibleAreaOnly.loop layer.effects

/-- The loop `for (auto& effect : layer->effects) if (effect->visibleAt(layerFrame))
filterList->effects.push_back(effect)`: `acc` is the vector built so far. -/
def pushVisibleEffects (layerFrame : Frame) : List Effect → List Effect → List Effect
  | [], acc => acc
  | effect :: rest, acc =>
    if effect.visibleAt layerFrame then pushVisibleEffects layerFrame rest (acc ++ [effect])
    else pushVisibleEffects layerFrame rest acc

/-- The same loop over `layer->layerStyles`. -/
def pushVisibleLayerStyles (layerFrame : Frame) : List LayerStyle → List LayerStyle → List LayerStyle
  | [], acc => acc
  | layerStyle :: rest, acc =>
    if layerStyle.visibleAt layerFrame then
      pushVisibleLayerStyles layerFrame rest (acc ++ [layerStyle])
    else pushVisibleLayerStyles layerFrame rest acc

/-- Modelled from the spec: the scale members of a freshly constructed
`FilterList` (its header is outside the rendered sources): both scales start as
the identity scale. -/
def defaultScale : Point := ⟨1, 1⟩

def MakeFilterList (ext : Externals) (modifier : FilterModifier) : FilterList :=
  let layer := modifier.layer
  let layerFrame := modifier.layerFrame
  let contentFrame := layerFrame - layer.startTime
  let layerMatrix := layer.getTransform contentFrame
  let scaleFactorLimit := GetScaleFactorLimit layer
  let processVisibleAreaOnly := DoesProcessVisibleAreaOnly layer
  let effects := pushVisibleEffects layerFrame layer.effects []
  let layerStyles := pushVisibleLayerStyles layerFrame layer.layerStyles []
  let needParentSizeInput :=
    !layer.effects.isEmpty && (layer.type == LayerType.Shape || layer.type == LayerType.Text)
  let useParentSizeInput := !processVisibleAreaOnly && needParentSizeInput
  let layerStyleScale :=
    if !useParentSizeInput then ext.GetScaleFactor layerMatrix else defaultScale
  let effectScale :=
    if !useParentSizeInput && needParentSizeInput then layerStyleScale else defaultScale
  { layer := layer
    layerFrame := layerFrame
    layerMatrix := layerMatrix
    scaleFactorLimit := scaleFactorLimit
    processVisibleAreaOnly := processVisibleAreaOnly
    useParentSizeInput := useParentSizeInput
    effects := effects
    layerStyles := layerStyles
    effectScale := effectScale
    layerStyleScale := layerStyleScale }

/-! ## TransformFilterBounds -/

/-- The effect loop of `TransformFilterBounds`: transform, then `roundOut`. -/
def TransformFilterBounds.effectLoop (effectScale : Point) (layerFrame : Frame) :
    List Effect → Rect → Rect
  | [], filterBounds => filterBounds
  | effect :: rest, filterBounds =>
    TransformFilterBounds.effectLoop effectScale layerFrame rest
      (effect.transformBounds filterBounds effectScale layerFrame).roundOut

def TransformFilterBounds (ext : Externals) (filterBounds : Rect) (filterList : FilterList) : Rect :=
  let filterBounds :=
    TransformFilterBounds.effectLoop filterList.effectScale filterList.layerFrame
      filterList.effects filterBounds
  let filterBounds :=
    if filterList.layer.motionBlur then
      ext.MotionBlurTransformBounds filterBounds filterList.effectScale filterList.layer
        filterList.layerFrame
    else filterBounds
  if !filterList.layerStyles.isEmpty then ext.LayerStylesTransformBounds filterBounds filterList
  else filterBounds

/-! ## Render cache, filter nodes and the node sequencer -/

/-- A resolved filter object: its identity and its `needsMSAA()` answer. -/
structure Filter where
  uid : Nat
  needsMSAA : Bool
deriving DecidableEq, Repr

/-- The interface of `RenderCache` consumed by the sequencer; `updateLayer` is
`MotionBlurFilter::updateLayer` of the filter the cache returned. -/
structure RenderCache where
  getFilterCache : Effect → Option Filter
  getMotionBlurFilter : Option Filter
  updateLayer : Filter → Layer → Frame → Bool
  getLayerStylesFilter : Layer → Option Filter

structure FilterNode where
  filter : Filter
  bounds : Rect
deriving DecidableEq, Repr

/-- The calls recorded while nodes are built, in program order.  `intersect b c`
records `b.intersect(c)`: the receiver before the call and the clip argument. -/
inductive Call where
  | update (filter : Filter) (oldBounds newBounds : Rect) (scale : Point)
  | updateMapTexture (filter : Filter) (mapBounds : Rect)
  | updateLayer (filter : Filter)
  | intersect (bounds clip : Rect)
deriving DecidableEq, Repr

/-- The locals that the three node makers mutate through references. -/
structure NodeState where
  filterNodes : List FilterNode
  filterBounds : Rect
  calls : List Call
deriving DecidableEq, Repr

/-- The bounds `GetDisplacementMapGraphic` writes into `mapBounds`. -/
def GetDisplacementMapBounds (mapLayer : MapLayer) : Rect :=
  Rect.MakeXYWH 0 0 (mapLayer.composition.width : ℚ) (mapLayer.composition.height : ℚ)

/-- The loop of `FilterRenderer::MakeEffectNode`; the Boolean is its return value. -/
def MakeEffectNode.loop (cache : RenderCache) (clipBounds : Rect) (layerFrame : Frame)
    (effectScale : Point) (clipIndex : Int) : List Effect → Int → NodeState → Bool × NodeState
  | [], _, st => (true, st)
  | effect :: rest, effectIndex, st =>
    match cache.getFilterCache effect with
    | some filter =>
      let oldBounds := st.filterBounds
      let filterBounds := (effect.transformBounds oldBounds effectScale layerFrame).roundOut
      let calls := st.calls ++ [Call.update filter oldBounds filterBounds effectScale]
      let calls :=
        if effect.type = EffectType.DisplacementMap then
          calls ++ [Call.updateMapTexture filter
            (GetDisplacementMapBounds effect.displacementMapLayer).roundOut]
        else calls
      if effectIndex ≥ clipIndex then
        match filterBounds.intersect clipBounds with
        | none =>
          (false, { filterNodes := st.filterNodes, filterBounds := filterBounds,
                    calls := calls ++ [Call.intersect filterBounds clipBounds] })
        | some clipped =>
          MakeEffectNode.loop cache clipBounds layerFrame effectScale clipIndex rest
            (effectIndex + 1)
            { filterNodes := st.filterNodes ++ [⟨filter, clipped⟩], filterBounds := clipped,
              calls := calls ++ [Call.intersect filterBounds clipBounds] }
      else
        MakeEffectNode.loop cache clipBounds layerFrame effectScale clipIndex rest
          (effectIndex + 1)
          { filterNodes := st.filterNodes ++ [⟨filter, filterBounds⟩],
            filterBounds := filterBounds, calls := calls }
    | none =>
      MakeEffectNode.loop cache clipBounds layerFrame effectScale clipIndex rest
        (effectIndex + 1) st

def MakeEffectNode (cache : RenderCache) (clipBounds : Rect) (filterList : FilterList)
    (effectScale : Point) (clipIndex : Int) (st : NodeState) : Bool × NodeState :=
  MakeEffectNode.loop cache clipBounds filterList.layerFrame effectScale clipIndex
    filterList.effects 0 st

def MakeMotionBlurNode (ext : Externals) (cache : RenderCache) (clipBounds : Rect)
    (filterList : FilterList) (effectScale : Point) (st : NodeState) : Bool × NodeState :=
  if filterList.layer.motionBlur then
    match cache.getMotionBlurFilter with
    | some filter =>
      if cache.updateLayer filter filterList.layer filterList.layerFrame then
        let oldBounds := st.filterBounds
        let filterBounds :=
          (ext.MotionBlurTransformBounds oldBounds effectScale filterList.layer
            filterList.layerFrame).roundOut
        let calls := st.calls ++ [Call.updateLayer filter,
          Call.update filter oldBounds filterBounds effectScale,
          Call.intersect filterBounds clipBounds]
        match filterBounds.intersect clipBounds with
        | none =>
          (false, { filterNodes := st.filterNodes, filterBounds := filterBounds, calls := calls })
        | some clipped =>
          (true, { filterNodes := st.filterNodes ++ [⟨filter, clipped⟩],
                   filterBounds := clipped, calls := calls })
      else (true, { st with calls := st.calls ++ [Call.updateLayer filter] })
    | none => (true, st)
  else (true, st)

def MakeLayerStyleNode (ext : Externals) (cache : RenderCache) (clipBounds : Rect)
    (filterList : FilterList) (st : NodeState) : Bool × NodeState :=
  if !filterList.layerStyles.isEmpty then
    match cache.getLayerStylesFilter filterList.layer with
    | none => (false, st)
    | some filter =>
      let layerStyleScale := filterList.layerStyleScale
      let oldBounds := st.filterBounds
      let filterBounds := (ext.LayerStylesTransformBounds oldBounds filterList).roundOut
      let calls := st.calls ++ [Call.update filter oldBounds filterBounds layerStyleScale,
        Call.intersect filterBounds clipBounds]
      match filterBounds.intersect clipBounds with
      | none =>
        (false, { filterNodes := st.filterNodes, filterBounds := filterBounds, calls := calls })
      | some clipped =>
        (true, { filterNodes := st.filterNodes ++ [⟨filter, clipped⟩],
                 filterBounds := clipped, calls := calls })
  else (true, st)

/-- The backward scan of `MakeFilterNodes` for `clipIndex`: `findClipIndex effects n`
runs the loop `for (i = n - 1; i >= 0; i--)`. -/
def findClipIndex (effects : List Effect) : Nat → Int
  | 0 => -1
  | i + 1 =>
    match effects[i]? with
    | some effect =>
      if !effect.processVisibleAreaOnly then (i : Int) else findClipIndex effects i
    | none => findClipIndex effects i

/-- What `MakeFilterNodes` leaves behind: the returned vector, the final value of
the in/out parameter `*contentBounds`, and the calls it made. -/
structure FilterNodesResult where
  nodes : List FilterNode
  contentBounds : Rect
  calls : List Call
deriving DecidableEq, Repr

/-- Lines 288 to 301 of `MakeFilterNodes`: the three makers in sequence, each
`false` turning the result into the empty vector. -/
def MakeFilterNodes.build (ext : Externals) (cache : RenderCache) (filterList : FilterList)
    (clipBounds : Rect) (effectScale : Point) (clipIndex : Int) (contentBounds : Rect)
    (st : NodeState) : FilterNodesResult :=
  match MakeEffectNode cache clipBounds filterList effectScale clipIndex st with
  | (false, st1) => { nodes := [], contentBounds := contentBounds, calls := st1.calls }
  | (true, st1) =>
    match MakeMotionBlurNode ext cache clipBounds filterList effectScale st1 with
    | (false, st2) => { nodes := [], contentBounds := contentBounds, calls := st2.calls }
    | (true, st2) =>
      match MakeLayerStyleNode ext cache clipBounds filterList st2 with
      | (false, st3) => { nodes := [], contentBounds := contentBounds, calls := st3.calls }
      | (true, st3) =>
        { nodes := st3.filterNodes, contentBounds := contentBounds, calls := st3.calls }

/-- The clip rectangle `MakeFilterNodes` works with: `clipRect`, pre-expanded by
the motion-blur bounds transform and rounded out when the layer has motion blur. -/
def MakeFilterNodes.clipBounds (ext : Externals) (filterList : FilterList) (clipRect : Rect) :
    Rect :=
  if filterList.layer.motionBlur then
    (ext.MotionBlurTransformBounds clipRect filterList.effectScale filterList.layer
      filterList.layerFrame).roundOut
  else clipRect

def MakeFilterNodes (ext : Externals) (filterList : FilterList) (cache : RenderCache)
    (contentBounds : Rect) (clipRect : Rect) : FilterNodesResult :=
  let clipIndex := findClipIndex filterList.effects filterList.effects.length
  let clipBounds := MakeFilterNodes.clipBounds ext filterList clipRect
  let filterBounds := contentBounds
  let effectScale := filterList.effectScale
  if clipIndex = -1 then
    match contentBounds.intersect clipBounds with
    | none =>
      { nodes := [], contentBounds := contentBounds,
        calls := [Call.intersect contentBounds clipBounds] }
    | some clipped =>
      MakeFilterNodes.build ext cache filterList clipBounds effectScale clipIndex clipped
        { filterNodes := [], filterBounds := filterBounds,
          calls := [Call.intersect contentBounds clipBounds] }
  else
    MakeFilterNodes.build ext cache filterList clipBounds effectScale clipIndex contentBounds
      { filterNodes := [], filterBounds := filterBounds, calls := [] }

/-- A recorded call that is not an empty clip intersection. -/
def Call.clipOk : Call → Bool
  | Call.intersect bounds clip => (bounds.intersect clip).isSome
  | _ => true

/-- No recorded clip intersection is empty. -/
def NoEmptyClip (calls : List Call) : Prop := ∀ c ∈ calls, c.clipOk = true

instance (calls : List Call) : Decidable (NoEmptyClip calls) := by
  unfold NoEmptyClip; infer_instance

/-- Every filter the list needs is resolved by the render cache. -/
def AllResolved (cache : RenderCache) (filterList : FilterList) : Prop :=
  (∀ e ∈ filterList.effects, (cache.getFilterCache e).isSome = true) ∧
  (filterList.layer.motionBlur = true → cache.getMotionBlurFilter.isSome = true) ∧
  (filterList.layerStyles.isEmpty = false →
    (cache.getLayerStylesFilter filterList.layer).isSome = true)

instance (cache : RenderCache) (filterList : FilterList) :
    Decidable (AllResolved cache filterList) := by
  unfold AllResolved; infer_instance

/-- The motion-blur filter, when the layer has motion blur, the cache resolves
the filter and its `updateLayer` succeeds. -/
def motionBlurFilters (cache : RenderCache) (filterList : FilterList) : List Filter :=
  if filterList.layer.motionBlur then
    match cache.getMotionBlurFilter with
    | some filter =>
      if cache.updateLayer filter filterList.layer filterList.layerFrame then [filter] else []
    | none => []
  else []

/-- The filters `MakeFilterNodes` is expected to return, in the fixed order:
effects, motion blur, layer styles. -/
def expectedFilters (cache : RenderCache) (filterList : FilterList) : List Filter :=
  filterList.effects.filterMap cache.getFilterCache ++
  motionBlurFilters cache filterList ++
  (if filterList.layerStyles.isEmpty then []
   else (cache.getLayerStylesFilter filterList.layer).toList)

/-- The bounds node `i` of a node list starts from: the content bounds for the
first node, the bounds of node `i - 1` otherwise. -/
def boundsBefore (contentBounds : Rect) (nodes : List FilterNode) : Nat → Rect
  | 0 => contentBounds
  | i + 1 => match nodes[i]? with
    | some node => node.bounds
    | none => contentBounds

/-! ### A sample input -/

/-- A bounds transform that grows a rectangle by `d` on every side. -/
def outsetBounds (d : ℚ) (r : Rect) : Rect :=
  ⟨r.left - d, r.top - d, r.right + d, r.bottom + d⟩

/-- A bounds transform that moves a rectangle by `(dx, dy)`. -/
def offsetBounds (dx dy : ℚ) (r : Rect) : Rect :=
  ⟨r.left + dx, r.top + dy, r.right + dx, r.bottom + dy⟩

def sampleEffect (uid : Nat) (visibleAreaOnly : Bool) (f : Rect → Rect) : Effect :=
  { uid := uid
    type := EffectType.Unknown
    visibleAt := fun _ => true
    processVisibleAreaOnly := visibleAreaOnly
    transformBounds := fun r _ _ => f r
    displacementMapLayer := ⟨⟨0, 0⟩, 0⟩
    blurrinessAnimatable := false }

def sampleStyle (uid : Nat) : LayerStyle :=
  { uid := uid, visibleAt := fun _ => true, transformBounds := fun r _ _ => r }

def identityMatrix : Matrix := ⟨1, 0, 0, 0, 1, 0⟩

def sampleLayer (type : LayerType) (motionBlur : Bool) (effects : List Effect)
    (layerStyles : List LayerStyle) : Layer :=
  { type := type, startTime := 0, motionBlur := motionBlur, effects := effects,
    layerStyles := layerStyles, getTransform := fun _ => identityMatrix }

/-- Externals whose motion-blur transform enlarges a rectangle by a fifth about
its centre and whose layer-styles transform grows it by two on every side. -/
def sampleExternals : Externals :=
  { GetScaleFactor := fun _ => ⟨1, 1⟩
    MotionBlurTransformBounds := fun r _ _ _ =>
      Rect.MakeXYWH (r.left + (r.width - r.width * (6 / 5)) * (1 / 2))
        (r.top + (r.height - r.height * (6 / 5)) * (1 / 2)) (r.width * (6 / 5))
        (r.height * (6 / 5))
    LayerStylesTransformBounds := fun r _ => outsetBounds 2 r }

/-- A cache resolving effect `e` to filter `e.uid`, motion blur to filter 100
and the layer styles to filter 200. -/
def sampleCache : RenderCache :=
  { getFilterCache := fun e => some ⟨e.uid, false⟩
    getMotionBlurFilter := some ⟨100, false⟩
    updateLayer := fun _ _ _ => true
    getLayerStylesFilter := fun _ => some ⟨200, false⟩ }

def sampleList (layer : Layer) : FilterList :=
  MakeFilterList sampleExternals ⟨layer, 0⟩

/-- The sample cache with the layer-styles filter unresolved. -/
def sampleCacheNoStyles : RenderCache :=
  { sampleCache with getLayerStylesFilter := fun _ => none }

/-- The input of the C1 example: effects E1 and E2, motion blur, one layer style. -/
def orderExample : FilterList :=
  sampleList (sampleLayer LayerType.Solid true
    [sampleEffect 1 true (outsetBounds 10), sampleEffect 2 false (outsetBounds 1)]
    [sampleStyle 1])

/-- Two effects that are not visible-area-only; the second moves the bounds far
outside any clip near the origin. -/
def abortExample : FilterList :=
  sampleList (sampleLayer LayerType.Solid false
    [sampleEffect 1 false (outsetBounds 10), sampleEffect 2 false (offsetBounds 200 200)] [])

/-- One resolved effect followed by one visible layer style. -/
def styleExample : FilterList :=
  sampleList (sampleLayer LayerType.Solid false [sampleEffect 1 true (outsetBounds 10)]
    [sampleStyle 1])

/-- The input of the C5 example: one effect growing the bounds by ten pixels
on every side, no motion blur, no layer styles. -/
def clipExample (visibleAreaOnly : Bool) : FilterList :=
  sampleList (sampleLayer LayerType.Solid false
    [sampleEffect 1 visibleAreaOnly (outsetBounds 10)] [])

/-- An effect that is not visible at any frame. -/
def hiddenEffect (uid : Nat) (visibleAreaOnly : Bool) : Effect :=
  { sampleEffect uid visibleAreaOnly (outsetBounds 10) with visibleAt := fun _ => false }

/-- A solid layer whose only effect is hidden and not visible-area-only. -/
def hiddenEffectSolid : FilterModifier :=
  ⟨sampleLayer LayerType.Solid false [hiddenEffect 1 false] [], 0⟩

/-- A shape layer whose only effect is hidden and not visible-area-only. -/
def hiddenEffectShape : FilterModifier :=
  ⟨sampleLayer LayerType.Shape false [hiddenEffect 1 false] [], 0⟩

/-! ## ApplyFilters -/

/-- Modelled from the spec: `FilterBuffer` (its header is outside the rendered
sources): an intermediate buffer with "the dimensions and MSAA the buffer was
created with"; `uid` is the ordinal of the `FilterBuffer::Make` call that
created it. -/
structure FilterBuffer where
  uid : Nat
  width : Int
  height : Int
  usesMSAA : Bool
deriving DecidableEq, Repr

/-- What a filter draw reads: the caller's `filterSource`, or the source made
from a buffer by `toFilterSource(scale)`. -/
inductive FilterSource where
  | content
  | ofBuffer (buffer : FilterBuffer) (scale : Point)
deriving DecidableEq, Repr

/-- What a filter draw writes: the caller's `filterTarget`, or the target made
from a buffer by `toFilterTarget(Matrix::MakeTrans(offsetX, offsetY))`. -/
inductive FilterTarget where
  | final
  | ofBuffer (buffer : FilterBuffer) (offsetX offsetY : ℚ)
deriving DecidableEq, Repr

/-- The GPU-facing calls of `ApplyFilters`, in program order.  `make` records a
`FilterBuffer::Make` call with its arguments and whether it returned a buffer. -/
inductive DrawCall where
  | make (width height : Int) (usesMSAA : Bool) (ok : Bool)
  | clearColor (buffer : FilterBuffer)
  | draw (filter : Filter) (source : FilterSource) (target : FilterTarget)
  | resolve (buffer : FilterBuffer)
deriving DecidableEq, Repr

/-- The locals of `ApplyFilters`, with the number of `FilterBuffer::Make` calls
made so far and the calls recorded so far. -/
structure ApplyState where
  freeBuffer : Option FilterBuffer
  lastBuffer : Option FilterBuffer
  lastSource : Option FilterSource
  lastBounds : Rect
  lastUsesMSAA : Bool
  makeCount : Nat
  calls : List DrawCall
deriving DecidableEq, Repr

/-- The buffer the loop body of `ApplyFilters` picks for a node that is not the
last one: the free buffer when one exists and the node's width, height and
MSAA need equal `lastBounds` and `lastUsesMSAA`; otherwise the outcome of
`FilterBuffer::Make` (`none` for a null buffer).  The Boolean tells whether
`Make` was called.  `makeOk k` is whether the `k`-th `Make` call succeeds. -/
def ApplyFilters.pickBuffer (makeOk : Nat → Bool) (scale : Point) (node : FilterNode)
    (st : ApplyState) : Bool × Option FilterBuffer :=
  match st.freeBuffer with
  | some freeBuffer =>
    if node.bounds.width = st.lastBounds.width ∧ node.bounds.height = st.lastBounds.height ∧
        node.filter.needsMSAA = st.lastUsesMSAA then
      (false, some freeBuffer)
    else
      (true,
        if makeOk st.makeCount then
          some ⟨st.makeCount, ⌈node.bounds.width * scale.x⌉, ⌈node.bounds.height * scale.y⌉,
            node.filter.needsMSAA⟩
        else none)
  | none =>
    (true,
      if makeOk st.makeCount then
        some ⟨st.makeCount, ⌈node.bounds.width * scale.x⌉, ⌈node.bounds.height * scale.y⌉,
          node.filter.needsMSAA⟩
      else none)

/-- The loop of `ApplyFilters` over the remaining nodes; a single remaining
node is the case `i == size - 1`. -/
def ApplyFilters.loop (makeOk : Nat → Bool) (scale : Point) :
    List FilterNode → ApplyState → ApplyState
  | [], st => st
  | [node], st =>
    { st with calls := st.calls ++
        [DrawCall.draw node.filter (st.lastSource.getD FilterSource.content) FilterTarget.final] }
  | node :: next :: rest, st =>
    let source := st.lastSource.getD FilterSource.content
    let picked := ApplyFilters.pickBuffer makeOk scale node st
    let makeCalls :=
      if picked.1 then
        [DrawCall.make ⌈node.bounds.width * scale.x⌉ ⌈node.bounds.height * scale.y⌉
          node.filter.needsMSAA picked.2.isSome]
      else []
    let makeCount := if picked.1 then st.makeCount + 1 else st.makeCount
    match picked.2 with
    | none => { st with makeCount := makeCount, calls := st.calls ++ makeCalls }
    | some currentBuffer =>
      let currentTarget := FilterTarget.ofBuffer currentBuffer
        ((st.lastBounds.left - node.bounds.left) * scale.x)
        ((st.lastBounds.top - node.bounds.top) * scale.y)
      ApplyFilters.loop makeOk scale (next :: rest)
        { freeBuffer := st.lastBuffer
          lastBuffer := some currentBuffer
          lastSource := some (FilterSource.ofBuffer currentBuffer scale)
          lastBounds := node.bounds
          lastUsesMSAA := currentBuffer.usesMSAA
          makeCount := makeCount
          calls := st.calls ++ makeCalls ++
            [DrawCall.clearColor currentBuffer,
             DrawCall.draw node.filter source currentTarget,
             DrawCall.resolve currentBuffer] }

/-- The function `ApplyFilters`: `scale` is `filterSource->scale`; the result is
the final state of its locals with every call it made. -/
def ApplyFilters (makeOk : Nat → Bool) (filterNodes : List FilterNode) (contentBounds : Rect)
    (scale : Point) : ApplyState :=
  ApplyFilters.loop makeOk scale filterNodes
    { freeBuffer := none, lastBuffer := none, lastSource := none, lastBounds := contentBounds,
      lastUsesMSAA := false, makeCount := 0, calls := [] }

/-- Four nodes: the first is 10 by 10, the other three are 20 by 20; no filter
needs MSAA. -/
def reuseExample : List FilterNode :=
  [⟨⟨1, false⟩, ⟨0, 0, 10, 10⟩⟩, ⟨⟨2, false⟩, ⟨0, 0, 20, 20⟩⟩, ⟨⟨3, false⟩, ⟨0, 0, 20, 20⟩⟩,
   ⟨⟨4, false⟩, ⟨0, 0, 20, 20⟩⟩]

/-- A layer with motion blur, no effect and no layer style. -/
def motionBlurOnly : FilterList :=
  sampleList (sampleLayer LayerType.Solid true [] [])

/-- The bounds rule along the effect nodes.  An effect the cache does not
resolve emits no node and leaves the bounds as they are, yet it counts for the
effect index.  The node of a resolved effect with index `k` carries the
effect's filter, and its bounds are the rounded-out transform of the bounds
before it, intersected with the clip when `clipIndex ≤ k` and left as they are
when `k < clipIndex`. -/
def EffectChain (cache : RenderCache) (clipBounds : Rect) (layerFrame : Frame)
    (effectScale : Point) (clipIndex : Int) : Int → Rect → List Effect → List FilterNode → Prop
  | _, _, [], nodes => nodes = []
  | k, prev, e :: es, nodes =>
    match cache.getFilterCache e with
    | none => EffectChain cache clipBounds layerFrame effectScale clipIndex (k + 1) prev es nodes
    | some f =>
      ∃ b rest, nodes = ⟨f, b⟩ :: rest ∧
        (clipIndex ≤ k →
          (e.transformBounds prev effectScale layerFrame).roundOut.intersect clipBounds = some b) ∧
        (k < clipIndex → b = (e.transformBounds prev effectScale layerFrame).roundOut) ∧
        EffectChain cache clipBounds layerFrame effectScale clipIndex (k + 1) b es rest

/-- The position, among the returned nodes, of the node of the effect with
index `i`: the number of effects before it that the cache resolves. -/
def effectNodeIndex (cache : RenderCache) (effects : List Effect) (i : Nat) : Nat :=
  ((effects.take i).filterMap cache.getFilterCache).length

/-- The sample cache with effect 1 unresolved. -/
def sampleCacheSkip : RenderCache :=
  { sampleCache with
    getFilterCache := fun e => if e.uid = 1 then none else some ⟨e.uid, false⟩ }

/-- Four effects: S (visible-area-only), A (visible-area-only), B (not
visible-area-only), C (visible-area-only), each growing the bounds by ten. -/
def skippedExample : FilterList :=
  sampleList (sampleLayer LayerType.Solid false
    [sampleEffect 1 true (outsetBounds 10), sampleEffect 2 true (outsetBounds 10),
     sampleEffect 3 false (outsetBounds 10), sampleEffect 4 true (outsetBounds 10)] [])

/-- The input of the C2 example: effects A (visible-area-only), B (not
visible-area-only), C (visible-area-only), each growing the bounds by ten. -/
def clipIndexExample : FilterList :=
  sampleList (sampleLayer LayerType.Solid false
    [sampleEffect 1 true (outsetBounds 10), sampleEffect 2 false (outsetBounds 10),
     sampleEffect 3 true (outsetBounds 10)] [])

/-! ## Matrix helpers -/

/-- Modelled from the spec: `Matrix::I`. -/
def Matrix.I : Matrix := ⟨1, 0, 0, 0, 1, 0⟩

/-- Modelled from the spec: `Matrix::MakeTrans`. -/
def Matrix.MakeTrans (dx dy : ℚ) : Matrix := ⟨1, 0, dx, 0, 1, dy⟩

/-- Modelled from the spec: `Matrix::preConcat`, the product `this * other` of
the two affine maps (`other` is applied first). -/
def Matrix.preConcat (m other : Matrix) : Matrix :=
  ⟨m.scaleX * other.scaleX + m.skewX * other.skewY,
   m.scaleX * other.skewX + m.skewX * other.scaleY,
   m.scaleX * other.transX + m.skewX * other.transY + m.transX,
   m.skewY * other.scaleX + m.scaleY * other.skewY,
   m.skewY * other.skewX + m.scaleY * other.scaleY,
   m.skewY * other.transX + m.scaleY * other.transY + m.transY⟩

/-- Modelled from the spec: `Matrix::preTranslate`. -/
def Matrix.preTranslate (m : Matrix) (dx dy : ℚ) : Matrix :=
  m.preConcat (Matrix.MakeTrans dx dy)

/-- Modelled from the spec: `Matrix::preScale`. -/
def Matrix.preScale (m : Matrix) (sx sy : ℚ) : Matrix :=
  m.preConcat ⟨sx, 0, 0, 0, sy, 0⟩

/-- Modelled from the spec: `Matrix::invert`; `none` stands for the result
`false` (the matrix is not invertible), which leaves the output untouched. -/
def Matrix.invert (m : Matrix) : Option Matrix :=
  let det := m.scaleX * m.scaleY - m.skewX * m.skewY
  if det = 0 then none
  else some
    ⟨m.scaleY / det, -m.skewX / det, (m.skewX * m.transY - m.scaleY * m.transX) / det,
     -m.skewY / det, m.scaleX / det, (m.skewY * m.transX - m.scaleX * m.transY) / det⟩

/-! ## Target selection, fast blur and the orchestrator -/

/-- Modelled from the spec: the answer of `hasComplexPaint`; the renderer only
tests it against `None`. -/
inductive PaintKind where
  | None | Blend | Shader
deriving DecidableEq, Repr

/-- The surface handed back by `makeContentSurface`: its identity and the
matrix of its canvas. -/
structure Surface where
  uid : Nat
  canvasMatrix : Matrix
deriving DecidableEq, Repr

/-- The interface of `Canvas` consumed by the renderer.  `globalClipBounds m` is
`getGlobalClip()` transformed by `m`, then `getBounds()`. -/
structure Canvas where
  surface : Nat
  matrix : Matrix
  hasComplexPaint : Rect → PaintKind
  globalClipBounds : Matrix → Rect
  makeContentSurface : Rect → ℚ → Bool → Option Surface

/-- A filter target: the surface drawn to and the matrix handed to
`ToFilterTarget`. -/
structure TargetInfo where
  surface : Nat
  matrix : Matrix
deriving DecidableEq, Repr

/-- Modelled from the spec: `ToFilterTarget(surface, matrix)` (its body is
outside the rendered sources) always yields "a target on the destination
surface". -/
def ToFilterTarget (surface : Nat) (matrix : Matrix) : Option TargetInfo :=
  some ⟨surface, matrix⟩

/-- The bounds `secondToLastBounds` of the two target functions. -/
def secondToLastBounds (filterNodes : List FilterNode) (contentBounds : Rect) : Rect :=
  if filterNodes.length > 1 then
    match filterNodes[filterNodes.length - 2]? with
    | some node => node.bounds
    | none => contentBounds
  else contentBounds

/-- The part of `GetDirectFilterTarget` after the fast-blur test. -/
def GetDirectFilterTarget.afterBlur (ext : Externals) (parentCanvas : Canvas)
    (filterList : FilterList) (filterNodes : List FilterNode) (contentBounds : Rect)
    (sourceScale : Point) : Option TargetInfo :=
  match filterNodes.getLast? with
  | none => none
  | some last =>
    if last.filter.needsMSAA then none
    else
      let transformBounds := TransformFilterBounds ext contentBounds filterList
      if parentCanvas.hasComplexPaint transformBounds ≠ PaintKind.None then none
      else
        let surface := parentCanvas.surface
        let totalMatrix := parentCanvas.matrix
        if totalMatrix.skewX ≠ 0 ∨ totalMatrix.skewY ≠ 0 then none
        else
          let stl := secondToLastBounds filterNodes contentBounds
          let totalMatrix := totalMatrix.preTranslate stl.left stl.top
          let totalMatrix := totalMatrix.preScale (1 / sourceScale.x) (1 / sourceScale.y)
          ToFilterTarget surface totalMatrix

/-- The function `GetDirectFilterTarget`; `none` is the null result.  It is
only called with a non-empty `filterNodes` (it reads `filterNodes.back()`). -/
def GetDirectFilterTarget (ext : Externals) (parentCanvas : Canvas) (filterList : FilterList)
    (filterNodes : List FilterNode) (contentBounds : Rect) (sourceScale : Point) :
    Option TargetInfo :=
  match filterList.effects.getLast? with
  | some effect =>
    if effect.type = EffectType.FastBlur then none
    else
      GetDirectFilterTarget.afterBlur ext parentCanvas filterList filterNodes contentBounds
        sourceScale
  | none =>
    GetDirectFilterTarget.afterBlur ext parentCanvas filterList filterNodes contentBounds
      sourceScale

/-- The function `GetOffscreenFilterTarget`, called with a non-empty
`filterNodes`. -/
def GetOffscreenFilterTarget (surface : Nat) (filterNodes : List FilterNode)
    (contentBounds : Rect) (sourceScale : Point) : Option TargetInfo :=
  match filterNodes.getLast? with
  | none => none
  | some last =>
    let finalBounds := last.bounds
    let stl := secondToLastBounds filterNodes contentBounds
    ToFilterTarget surface
      (Matrix.MakeTrans ((stl.left - finalBounds.left) * sourceScale.x)
        ((stl.top - finalBounds.top) * sourceScale.y))

/-- The constant `FAST_BLUR_MAX_SCALE_FACTOR` (0.1f). -/
def FAST_BLUR_MAX_SCALE_FACTOR : ℚ := 1 / 10

/-- The loop of `ProcessFastBlur`: the first FastBlur effect decides, then the
loop breaks. -/
def ProcessFastBlur.loop (scaleFactorLimit : ℚ) : List Effect → ℚ
  | [] => scaleFactorLimit
  | effect :: rest =>
    if effect.type = EffectType.FastBlur then
      if !effect.blurrinessAnimatable then FAST_BLUR_MAX_SCALE_FACTOR else scaleFactorLimit
    else ProcessFastBlur.loop scaleFactorLimit rest

def ProcessFastBlur (filterList : FilterList) : FilterList :=
  { filterList with
    scaleFactorLimit := ProcessFastBlur.loop filterList.scaleFactorLimit filterList.effects }

/-- The sizes `GetParentBounds` reads from the layer's subtype. -/
structure LayerSizes where
  containingCompositionWidth : ℚ
  containingCompositionHeight : ℚ
  solidWidth : ℚ
  solidHeight : ℚ
  imageWidth : ℚ
  imageHeight : ℚ
  compositionWidth : ℚ
  compositionHeight : ℚ

def GetParentBounds (sizes : LayerSizes) (filterList : FilterList) : Rect :=
  match filterList.layer.type with
  | LayerType.Shape =>
    Rect.MakeXYWH 0 0 sizes.containingCompositionWidth sizes.containingCompositionHeight
  | LayerType.Text =>
    Rect.MakeXYWH 0 0 sizes.containingCompositionWidth sizes.containingCompositionHeight
  | LayerType.Solid => Rect.MakeXYWH 0 0 sizes.solidWidth sizes.solidHeight
  | LayerType.Image => Rect.MakeXYWH 0 0 sizes.imageWidth sizes.imageHeight
  | LayerType.PreCompose => Rect.MakeXYWH 0 0 sizes.compositionWidth sizes.compositionHeight
  | LayerType.Unknown => Rect.MakeXYWH 0 0 0 0

/-- The content graphic: its identity and what `measureBounds` reports. -/
structure Graphic where
  uid : Nat
  measureBounds : Rect

def GetContentBounds (sizes : LayerSizes) (filterList : FilterList) (content : Graphic) : Rect :=
  if filterList.processVisibleAreaOnly then content.measureBounds.roundOut
  else GetParentBounds sizes filterList

def GetClipBounds (canvas : Canvas) (filterList : FilterList) : Rect :=
  let matrix := canvas.matrix
  let matrix :=
    if filterList.useParentSizeInput then
      matrix.preConcat (filterList.layerMatrix.invert.getD Matrix.I)
    else matrix
  canvas.globalClipBounds (matrix.invert.getD Matrix.I)

/-- What `DrawWithFilter` does to its collaborators, in program order.
`drawContent` is `content->draw(canvas, cache)` with the surface and the matrix
of the canvas drawn to. -/
inductive RenderAction where
  | drawContent (content : Nat) (surface : Nat) (matrix : Matrix)
  | makeContentSurface (bounds : Rect) (scaleFactorLimit : ℚ) (usesMSAA : Bool) (ok : Bool)
  | flush
  | applyFilters (target : TargetInfo) (scale : Point) (calls : List DrawCall)
  | drawTexture (surface : Nat) (matrix : Matrix)
deriving DecidableEq, Repr

/-- The outcome of `DrawWithFilter`: its actions and the matrix of the parent
canvas when it returns. -/
structure DrawResult where
  actions : List RenderAction
  parentMatrix : Matrix
deriving DecidableEq, Repr

/-- The collaborators of `DrawWithFilter` besides the canvas and the cache:
the external bounds helpers, the layer sizes, `GetMaxScaleFactor` and the
outcome of each `FilterBuffer::Make` call. -/
structure RenderEnv where
  ext : Externals
  sizes : LayerSizes
  GetMaxScaleFactor : Matrix → ℚ
  makeOk : Nat → Bool

/-- The part of `DrawWithFilter` after the content has been drawn into the
content surface: target selection, flush, compositor and final blit. -/
def DrawWithFilter.compose (env : RenderEnv) (parentCanvas : Canvas) (filterList : FilterList)
    (filterNodes : List FilterNode) (contentBounds : Rect) (sourceScale : Point)
    (actions : List RenderAction) : DrawResult :=
  match GetDirectFilterTarget env.ext parentCanvas filterList filterNodes contentBounds
      sourceScale with
  | some filterTarget =>
    { actions := actions ++ [RenderAction.flush,
        RenderAction.applyFilters filterTarget sourceScale
          (ApplyFilters env.makeOk filterNodes contentBounds sourceScale).calls]
      parentMatrix := parentCanvas.matrix }
  | none =>
    match filterNodes.getLast? with
    | none => { actions := actions, parentMatrix := parentCanvas.matrix }
    | some last =>
      match parentCanvas.makeContentSurface last.bounds filterList.scaleFactorLimit
          last.filter.needsMSAA with
      | none =>
        { actions := actions ++ [RenderAction.makeContentSurface last.bounds
            filterList.scaleFactorLimit last.filter.needsMSAA false]
          parentMatrix := parentCanvas.matrix }
      | some targetSurface =>
        match GetOffscreenFilterTarget targetSurface.uid filterNodes contentBounds
            sourceScale with
        | none => { actions := actions, parentMatrix := parentCanvas.matrix }
        | some filterTarget =>
          { actions := actions ++ [RenderAction.makeContentSurface last.bounds
                filterList.scaleFactorLimit last.filter.needsMSAA true,
              RenderAction.flush,
              RenderAction.applyFilters filterTarget sourceScale
                (ApplyFilters env.makeOk filterNodes contentBounds sourceScale).calls,
              RenderAction.drawTexture targetSurface.uid
                (targetSurface.canvasMatrix.invert.getD Matrix.I)]
            parentMatrix := parentCanvas.matrix }

/-- The function `FilterRenderer::DrawWithFilter`. -/
def DrawWithFilter (env : RenderEnv) (parentCanvas : Canvas) (cache : RenderCache)
    (modifier : FilterModifier) (content : Graphic) : DrawResult :=
  let filterList := MakeFilterList env.ext modifier
  let contentBounds := GetContentBounds env.sizes filterList content
  let clipBounds := GetClipBounds parentCanvas filterList
  let made := MakeFilterNodes env.ext filterList cache contentBounds clipBounds
  let contentBounds := made.contentBounds
  let filterNodes := made.nodes
  if filterNodes.isEmpty then
    { actions := [RenderAction.drawContent content.uid parentCanvas.surface parentCanvas.matrix]
      parentMatrix := parentCanvas.matrix }
  else
    let parentCanvas :=
      if filterList.useParentSizeInput then
        { parentCanvas with
          matrix := parentCanvas.matrix.preConcat (filterList.layerMatrix.invert.getD Matrix.I) }
      else parentCanvas
    let filterList := ProcessFastBlur filterList
    match parentCanvas.makeContentSurface contentBounds filterList.scaleFactorLimit false with
    | none =>
      { actions := [RenderAction.makeContentSurface contentBounds filterList.scaleFactorLimit
          false false]
        parentMatrix := parentCanvas.matrix }
    | some contentSurface =>
      let contentMatrix :=
        if filterList.useParentSizeInput then
          contentSurface.canvasMatrix.preConcat filterList.layerMatrix
        else contentSurface.canvasMatrix
      let scale := env.GetMaxScaleFactor contentMatrix
      DrawWithFilter.compose env parentCanvas filterList filterNodes contentBounds ⟨scale, scale⟩
        [RenderAction.makeContentSurface contentBounds filterList.scaleFactorLimit false true,
         RenderAction.drawContent content.uid contentSurface.uid contentMatrix]

/-! ### Sample inputs for the target selection and the fast blur -/

/-- A canvas with the identity matrix, no complex paint, the clip (0,0,500,500)
and surfaces that are always created. -/
def sampleCanvas : Canvas :=
  { surface := 7
    matrix := Matrix.I
    hasComplexPaint := fun _ => PaintKind.None
    globalClipBounds := fun _ => ⟨0, 0, 500, 500⟩
    makeContentSurface := fun _ _ _ => some ⟨8, Matrix.I⟩ }

/-- A FastBlur effect with the given animatable flag of its blurriness. -/
def fastBlurEffect (uid : Nat) (animatable : Bool) : Effect :=
  { sampleEffect uid true (outsetBounds 10) with
    type := EffectType.FastBlur, blurrinessAnimatable := animatable }

/-- An animated FastBlur effect followed by a FastBlur effect that is not
animated. -/
def twoBlursExample : FilterList :=
  sampleList (sampleLayer LayerType.Solid false [fastBlurEffect 1 true, fastBlurEffect 2 false] [])

/-- A clip rectangle with fractional edges. -/
def fractionalClip : Rect := ⟨1 / 2, 1 / 2, 101 / 2, 101 / 2⟩

/-! ## Observations on an `ApplyFilters` run -/

def DrawCall.isMake : DrawCall → Bool
  | DrawCall.make _ _ _ _ => true
  | _ => false

/-- The number of `FilterBuffer::Make` calls among recorded calls. -/
def makeCallCount (calls : List DrawCall) : Nat := calls.countP DrawCall.isMake

/-- Spec-side description of the calls of an `ApplyFilters` run whose
allocations all succeed, following the words of the spec: every node but the
last draws, from the current source, into a buffer that was cleared just
before (after at most one successful `Make`), with the offset of the previous
bounds against the node's bounds at render scale; the buffer is resolved and
becomes the next source at the same scale; the last node draws into the final
target. -/
def ComposeTrace (scale : Point) : FilterSource → Rect → List FilterNode → List DrawCall → Prop
  | _, _, [], calls => calls = []
  | source, _, [node], calls => calls = [DrawCall.draw node.filter source FilterTarget.final]
  | source, prev, node :: next :: rest, calls =>
    ∃ buffer makes tail,
      calls = makes ++
        [DrawCall.clearColor buffer,
         DrawCall.draw node.filter source
           (FilterTarget.ofBuffer buffer ((prev.left - node.bounds.left) * scale.x)
             ((prev.top - node.bounds.top) * scale.y)),
         DrawCall.resolve buffer] ++ tail ∧
      (makes = [] ∨ ∃ w h m, makes = [DrawCall.make w h m true]) ∧
      ComposeTrace scale (FilterSource.ofBuffer buffer scale) node.bounds (next :: rest) tail

/-- The filter draws among recorded calls, in order. -/
def drawsOf : List DrawCall → List (Filter × FilterSource × FilterTarget)
  | [] => []
  | DrawCall.draw filter source target :: rest => (filter, source, target) :: drawsOf rest
  | _ :: rest => drawsOf rest

/-- The locals of `ApplyFilters` at the end of a loop iteration that drew `node`
into `currentBuffer` (lines 334 to 344); `madeNew` tells whether the buffer came
from `FilterBuffer::Make`. -/
def ApplyFilters.advance (scale : Point) (node : FilterNode) (st : ApplyState) (madeNew : Bool)
    (currentBuffer : FilterBuffer) : ApplyState :=
  { freeBuffer := st.lastBuffer
    lastBuffer := some currentBuffer
    lastSource := some (FilterSource.ofBuffer currentBuffer scale)
    lastBounds := node.bounds
    lastUsesMSAA := currentBuffer.usesMSAA
    makeCount := if madeNew then st.makeCount + 1 else st.makeCount
    calls := st.calls ++
      (if madeNew then
        [DrawCall.make ⌈node.bounds.width * scale.x⌉ ⌈node.bounds.height * scale.y⌉
          node.filter.needsMSAA true]
       else []) ++
      [DrawCall.clearColor currentBuffer,
       DrawCall.draw node.filter (st.lastSource.getD FilterSource.content)
         (FilterTarget.ofBuffer currentBuffer ((st.lastBounds.left - node.bounds.left) * scale.x)
           ((st.lastBounds.top - node.bounds.top) * scale.y)),
       DrawCall.resolve currentBuffer] }

/-- The shared pointers to buffers at a point of the run. -/
structure LivePoint where
  freeBuffer : Option FilterBuffer
  lastBuffer : Option FilterBuffer
  currentBuffer : Option FilterBuffer
  madeNew : Bool
deriving DecidableEq, Repr

/-- The distinct buffers kept alive at a point. -/
def LivePoint.alive (p : LivePoint) : List FilterBuffer :=
  (p.freeBuffer.toList ++ p.lastBuffer.toList ++ p.currentBuffer.toList).dedup

/-- The points of an `ApplyFilters` run: the start of every loop iteration
(`currentBuffer` not yet declared) and, in every iteration of a node that is not
the last, the moment `currentBuffer` has been chosen, before the slot rotation.
The rotation itself only drops the old `freeBuffer`. -/
def ApplyFilters.livePoints (makeOk : Nat → Bool) (scale : Point) :
    List FilterNode → ApplyState → List LivePoint
  | [], _ => []
  | [_], st => [⟨st.freeBuffer, st.lastBuffer, none, false⟩]
  | node :: next :: rest, st =>
    match ApplyFilters.pickBuffer makeOk scale node st with
    | (madeNew, none) => [⟨st.freeBuffer, st.lastBuffer, none, false⟩,
        ⟨st.freeBuffer, st.lastBuffer, none, madeNew⟩]
    | (madeNew, some currentBuffer) =>
      ⟨st.freeBuffer, st.lastBuffer, none, false⟩ ::
      ⟨st.freeBuffer, st.lastBuffer, some currentBuffer, madeNew⟩ ::
      ApplyFilters.livePoints makeOk scale (next :: rest)
        (ApplyFilters.advance scale node st madeNew currentBuffer)

/-- The initial locals of `ApplyFilters`. -/
def ApplyFilters.init (contentBounds : Rect) : ApplyState :=
  { freeBuffer := none, lastBuffer := none, lastSource := none, lastBounds := contentBounds,
    lastUsesMSAA := false, makeCount := 0, calls := [] }

/-- Three nodes of the same size 10 by 10, none needing MSAA. -/
def threeEqualNodes : List FilterNode :=
  [⟨⟨1, false⟩, ⟨0, 0, 10, 10⟩⟩, ⟨⟨2, false⟩, ⟨0, 0, 10, 10⟩⟩, ⟨⟨3, false⟩, ⟨0, 0, 10, 10⟩⟩]

/-- Four nodes of sizes 10, 20, 30 and 30. -/
def growingNodes : List FilterNode :=
  [⟨⟨1, false⟩, ⟨0, 0, 10, 10⟩⟩, ⟨⟨2, false⟩, ⟨0, 0, 20, 20⟩⟩, ⟨⟨3, false⟩, ⟨0, 0, 30, 30⟩⟩,
   ⟨⟨4, false⟩, ⟨0, 0, 30, 30⟩⟩]

/-- The point of the run over `growingNodes` right after the buffer of the third
node has been allocated: buffers 0, 1 and 2 are referenced. -/
def threeAlivePoint : LivePoint :=
  ⟨some ⟨0, 10, 10, false⟩, some ⟨1, 20, 20, false⟩, some ⟨2, 30, 30, false⟩, true⟩

/-- An allocator whose second `FilterBuffer::Make` call fails. -/
def secondMakeFails : Nat → Bool := fun k => decide (k ≠ 1)

/-- Sample collaborators of `DrawWithFilter`. -/
def sampleEnv : RenderEnv :=
  { ext := sampleExternals
    sizes := ⟨300, 200, 100, 100, 64, 64, 300, 200⟩
    GetMaxScaleFactor := fun _ => 1
    makeOk := fun _ => true }

/-- A content graphic measuring (0,0,100,100). -/
def sampleContent : Graphic := ⟨42, ⟨0, 0, 100, 100⟩⟩

/-! ## Observations on the updates made by `MakeFilterNodes` -/

/-- The arguments of a recorded `update` call that concern bounds. -/
structure UpdateRecord where
  filter : Filter
  oldBounds : Rect
  newBounds : Rect
deriving DecidableEq, Repr

def Call.asUpdate : Call → Option UpdateRecord
  | Call.update filter oldBounds newBounds _ => some ⟨filter, oldBounds, newBounds⟩
  | _ => none

/-- The `update` calls among recorded calls, in order. -/
def updatesOf (calls : List Call) : List UpdateRecord := calls.filterMap Call.asUpdate

/-- The new bounds of a recorded update are the rounded-out bounds transform of
its stage (an effect of the list, the motion blur or the layer styles) applied
to its old bounds. -/
def StageOutput (ext : Externals) (cache : RenderCache) (filterList : FilterList)
    (u : UpdateRecord) : Prop :=
  (∃ e ∈ filterList.effects, cache.getFilterCache e = some u.filter ∧
    u.newBounds =
      (e.transformBounds u.oldBounds filterList.effectScale filterList.layerFrame).roundOut) ∨
  (cache.getMotionBlurFilter = some u.filter ∧
    u.newBounds =
      (ext.MotionBlurTransformBounds u.oldBounds filterList.effectScale filterList.layer
        filterList.layerFrame).roundOut) ∨
  (cache.getLayerStylesFilter filterList.layer = some u.filter ∧
    u.newBounds = (ext.LayerStylesTransformBounds u.oldBounds filterList).roundOut)

/-- Updates paired with the nodes emitted for them: each update is made on the
node's filter, its old bounds are the bounds before the node, and the node's
bounds are the update's new bounds, clipped or not. -/
def UpdateChain (clip : Rect) : Rect → List UpdateRecord → List FilterNode → Prop
  | _, [], [] => True
  | prev, u :: us, node :: ns =>
    u.filter = node.filter ∧ u.oldBounds = prev ∧
      (node.bounds = u.newBounds ∨ u.newBounds.intersect clip = some node.bounds) ∧
      UpdateChain clip node.bounds us ns
  | _, [], _ :: _ => False
  | _, _ :: _, [] => False

/-- Updates linked through their bounds: the first starts from `prev`, each
later one starts from the new bounds of the one before, clipped or not. -/
def UpdateLinked (clip : Rect) : Rect → List UpdateRecord → Prop
  | _, [] => True
  | prev, u :: us =>
    u.oldBounds = prev ∧
      ∃ b, (b = u.newBounds ∨ u.newBounds.intersect clip = some b) ∧ UpdateLinked clip b us

/-- The state invariant of the three node makers, for the content bounds at
entry `contentBounds` and the working clip `clip`. -/
def NodeState.Chained (ext : Externals) (cache : RenderCache) (filterList : FilterList)
    (contentBounds clip : Rect) (st : NodeState) : Prop :=
  UpdateChain clip contentBounds (updatesOf st.calls) st.filterNodes ∧
  st.filterBounds = boundsBefore contentBounds st.filterNodes st.filterNodes.length ∧
  ∀ u ∈ updatesOf st.calls, StageOutput ext cache filterList u

/-- What holds of the calls recorded when a maker stops, successfully or not. -/
def CallsLinked (ext : Externals) (cache : RenderCache) (filterList : FilterList)
    (contentBounds clip : Rect) (calls : List Call) : Prop :=
  UpdateLinked clip contentBounds (updatesOf calls) ∧
  ∀ u ∈ updatesOf calls, StageOutput ext cache filterList u

/-! ## Buffers of the first two nodes and distinctness -/

/-- The slots of `ApplyFilters` hold buffers made by earlier `Make` calls, the
two slots hold different buffers, and the last source reads the last buffer. -/
def ApplyState.Fresh (st : ApplyState) : Prop :=
  (∀ b, st.freeBuffer = some b → b.uid < st.makeCount) ∧
  (∀ b, st.lastBuffer = some b → b.uid < st.makeCount) ∧
  (∀ fb lb, st.freeBuffer = some fb → st.lastBuffer = some lb → fb.uid ≠ lb.uid) ∧
  (∀ b s, st.lastSource = some (FilterSource.ofBuffer b s) → st.lastBuffer = some b)

/-! ## Lemmas on the call list -/

theorem NoEmptyClip.append_iff (a b : List Call) :
    NoEmptyClip (a ++ b) ↔ NoEmptyClip a ∧ NoEmptyClip b := by
  unfold NoEmptyClip
  constructor
  · intro h
    exact ⟨fun c hc => h c (List.mem_append_left b hc), fun c hc => h c (List.mem_append_right a hc)⟩
  · rintro ⟨ha, hb⟩ c hc
    rcases List.mem_append.mp hc with h | h
    · exact ha c h
    · exact hb c h

theorem NoEmptyClip.nil : NoEmptyClip [] := by
  intro c hc; cases hc

theorem NoEmptyClip.snoc_iff (a : List Call) (c : Call) :
    NoEmptyClip (a ++ [c]) ↔ NoEmptyClip a ∧ c.clipOk = true := by
  rw [NoEmptyClip.append_iff]
  constructor
  · rintro ⟨ha, hc⟩
    exact ⟨ha, hc c (List.mem_singleton.mpr rfl)⟩
  · rintro ⟨ha, hc⟩
    refine ⟨ha, ?_⟩
    intro d hd
    rw [List.mem_singleton.mp hd]; exact hc

/-! ## Lemmas on the three node makers -/

theorem MakeEffectNode.loop_true (cache : RenderCache) (clipBounds : Rect) (layerFrame : Frame)
    (effectScale : Point) (clipIndex : Int) :
    ∀ (effects : List Effect) (k : Int) (st st' : NodeState),
      MakeEffectNode.loop cache clipBounds layerFrame effectScale clipIndex effects k st
        = (true, st') →
      (NoEmptyClip st.calls → NoEmptyClip st'.calls) ∧
      st'.filterNodes.map (fun n => n.filter) =
        st.filterNodes.map (fun n => n.filter) ++ effects.filterMap cache.getFilterCache := by
  intro effects
  induction effects with
  | nil =>
    intro k st st' h
    simp only [MakeEffectNode.loop, Prod.mk.injEq, true_and] at h
    subst h
    simp
  | cons e rest ih =>
    intro k st st' h
    unfold MakeEffectNode.loop at h
    split at h
    · rename_i filter hf
      simp only at h
      split at h
      · split at h
        · simp at h
        · rename_i clipped hc
          obtain ⟨h1, h2⟩ := ih _ _ _ h
          refine ⟨fun hst => h1 ?_, ?_⟩
          · rw [NoEmptyClip.snoc_iff]
            refine ⟨?_, by simp [Call.clipOk, hc]⟩
            split
            · rw [NoEmptyClip.snoc_iff, NoEmptyClip.snoc_iff]; exact ⟨⟨hst, rfl⟩, rfl⟩
            · rw [NoEmptyClip.snoc_iff]; exact ⟨hst, rfl⟩
          · rw [h2]; simp [List.filterMap_cons, hf]
      · obtain ⟨h1, h2⟩ := ih _ _ _ h
        refine ⟨fun hst => h1 ?_, ?_⟩
        · show NoEmptyClip (if _ then _ else _)
          split
          · rw [NoEmptyClip.snoc_iff, NoEmptyClip.snoc_iff]; exact ⟨⟨hst, rfl⟩, rfl⟩
          · rw [NoEmptyClip.snoc_iff]; exact ⟨hst, rfl⟩
        · rw [h2]; simp [List.filterMap_cons, hf]
    · rename_i hf
      obtain ⟨h1, h2⟩ := ih _ _ _ h
      exact ⟨h1, by rw [h2]; simp [List.filterMap_cons, hf]⟩

theorem MakeEffectNode.loop_false (cache : RenderCache) (clipBounds : Rect) (layerFrame : Frame)
    (effectScale : Point) (clipIndex : Int) :
    ∀ (effects : List Effect) (k : Int) (st st' : NodeState),
      MakeEffectNode.loop cache clipBounds layerFrame effectScale clipIndex effects k st
        = (false, st') → ¬ NoEmptyClip st'.calls := by
  intro effects
  induction effects with
  | nil =>
    intro k st st' h
    simp [MakeEffectNode.loop] at h
  | cons e rest ih =>
    intro k st st' h
    unfold MakeEffectNode.loop at h
    split at h
    · simp only at h
      split at h
      · split at h
        · rename_i hc
          simp only [Prod.mk.injEq, true_and] at h
          subst h
          intro hn
          have := ((NoEmptyClip.snoc_iff _ _).mp hn).2
          simp [Call.clipOk, hc] at this
        · exact ih _ _ _ h
      · exact ih _ _ _ h
    · exact ih _ _ _ h

theorem MakeMotionBlurNode_true (ext : Externals) (cache : RenderCache) (clipBounds : Rect)
    (filterList : FilterList) (effectScale : Point) (st st' : NodeState)
    (h : MakeMotionBlurNode ext cache clipBounds filterList effectScale st = (true, st')) :
    (NoEmptyClip st.calls → NoEmptyClip st'.calls) ∧
    st'.filterNodes.map (fun n => n.filter) =
      st.filterNodes.map (fun n => n.filter) ++ motionBlurFilters cache filterList := by
  unfold MakeMotionBlurNode at h
  unfold motionBlurFilters
  split at h
  · rename_i hmb
    simp only [hmb, if_true]
    split at h
    · rename_i filter hf
      split at h
      · rename_i hu
        simp only at h
        split at h
        · simp at h
        · rename_i clipped hc
          simp only [Prod.mk.injEq, true_and] at h
          subst h
          simp only [hu, if_true, List.map_append, List.map_cons, List.map_nil, and_true]
          intro hst
          unfold NoEmptyClip
          intro c hc'
          simp only [List.mem_append, List.mem_cons, List.mem_singleton, List.not_mem_nil,
            or_false] at hc'
          rcases hc' with hc' | hc' | hc' | hc'
          · exact hst c hc'
          · subst hc'; rfl
          · subst hc'; rfl
          · subst hc'; simp [Call.clipOk, hc]
      · rename_i hu
        simp only [Prod.mk.injEq, true_and] at h
        subst h
        refine ⟨fun hst => ?_, by simp [hu]⟩
        rw [NoEmptyClip.snoc_iff]; exact ⟨hst, rfl⟩
    · simp only [Prod.mk.injEq, true_and] at h
      subst h
      simp
  · rename_i hmb
    simp only [Prod.mk.injEq, true_and] at h
    subst h
    simp [hmb]

theorem MakeMotionBlurNode_false (ext : Externals) (cache : RenderCache) (clipBounds : Rect)
    (filterList : FilterList) (effectScale : Point) (st st' : NodeState)
    (h : MakeMotionBlurNode ext cache clipBounds filterList effectScale st = (false, st')) :
    ¬ NoEmptyClip st'.calls := by
  unfold MakeMotionBlurNode at h
  split at h
  · split at h
    · split at h
      · simp only at h
        split at h
        · rename_i hc
          simp only [Prod.mk.injEq, true_and] at h
          subst h
          intro hn
          have := ((NoEmptyClip.append_iff _ _).mp hn).2 _
            (List.mem_cons_of_mem _ (List.mem_cons_of_mem _ (List.mem_singleton.mpr rfl)))
          simp [Call.clipOk, hc] at this
        · simp at h
      · simp at h
    · simp at h
  · simp at h

theorem MakeLayerStyleNode_true (ext : Externals) (cache : RenderCache) (clipBounds : Rect)
    (filterList : FilterList) (st st' : NodeState)
    (h : MakeLayerStyleNode ext cache clipBounds filterList st = (true, st')) :
    (NoEmptyClip st.calls → NoEmptyClip st'.calls) ∧
    st'.filterNodes.map (fun n => n.filter) =
      st.filterNodes.map (fun n => n.filter) ++
        (if filterList.layerStyles.isEmpty then []
         else (cache.getLayerStylesFilter filterList.layer).toList) := by
  unfold MakeLayerStyleNode at h
  split at h
  · rename_i hls
    simp only [Bool.not_eq_true', ] at hls
    simp only [hls, Bool.false_eq_true, if_false]
    split at h
    · simp at h
    · rename_i filter hf
      simp only at h
      split at h
      · simp at h
      · rename_i clipped hc
        simp only [Prod.mk.injEq, true_and] at h
        subst h
        simp only [hf, Option.toList, List.map_append, List.map_cons, List.map_nil, and_true]
        intro hst
        unfold NoEmptyClip
        intro c hc'
        simp only [List.mem_append, List.mem_cons, List.mem_singleton, List.not_mem_nil,
          or_false] at hc'
        rcases hc' with hc' | hc' | hc'
        · exact hst c hc'
        · subst hc'; rfl
        · subst hc'; simp [Call.clipOk, hc]
  · rename_i hls
    simp only [Bool.not_eq_true', Bool.not_eq_false] at hls
    simp only [Prod.mk.injEq, true_and] at h
    subst h
    simp [hls]

theorem MakeLayerStyleNode_false (ext : Externals) (cache : RenderCache) (clipBounds : Rect)
    (filterList : FilterList) (st st' : NodeState)
    (hres : filterList.layerStyles.isEmpty = false →
      (cache.getLayerStylesFilter filterList.layer).isSome = true)
    (h : MakeLayerStyleNode ext cache clipBounds filterList st = (false, st')) :
    ¬ NoEmptyClip st'.calls := by
  unfold MakeLayerStyleNode at h
  split at h
  · rename_i hls
    simp only [Bool.not_eq_true'] at hls
    split at h
    · rename_i hf
      have := hres hls
      simp [hf] at this
    · simp only at h
      split at h
      · rename_i hc
        simp only [Prod.mk.injEq, true_and] at h
        subst h
        intro hn
        have := ((NoEmptyClip.append_iff _ _).mp hn).2 _
          (List.mem_cons_of_mem _ (List.mem_singleton.mpr rfl))
        simp [Call.clipOk, hc] at this
      · simp at h
  · simp at h

theorem MakeFilterNodes.build_cases (ext : Externals) (cache : RenderCache)
    (filterList : FilterList) (clipBounds : Rect) (effectScale : Point) (clipIndex : Int)
    (contentBounds : Rect) (st : NodeState) :
    (∃ st1, MakeEffectNode cache clipBounds filterList effectScale clipIndex st = (false, st1) ∧
      MakeFilterNodes.build ext cache filterList clipBounds effectScale clipIndex contentBounds st
        = ⟨[], contentBounds, st1.calls⟩) ∨
    (∃ st1 st2,
      MakeEffectNode cache clipBounds filterList effectScale clipIndex st = (true, st1) ∧
      MakeMotionBlurNode ext cache clipBounds filterList effectScale st1 = (false, st2) ∧
      MakeFilterNodes.build ext cache filterList clipBounds effectScale clipIndex contentBounds st
        = ⟨[], contentBounds, st2.calls⟩) ∨
    (∃ st1 st2 st3,
      MakeEffectNode cache clipBounds filterList effectScale clipIndex st = (true, st1) ∧
      MakeMotionBlurNode ext cache clipBounds filterList effectScale st1 = (true, st2) ∧
      MakeLayerStyleNode ext cache clipBounds filterList st2 = (false, st3) ∧
      MakeFilterNodes.build ext cache filterList clipBounds effectScale clipIndex contentBounds st
        = ⟨[], contentBounds, st3.calls⟩) ∨
    (∃ st1 st2 st3,
      MakeEffectNode cache clipBounds filterList effectScale clipIndex st = (true, st1) ∧
      MakeMotionBlurNode ext cache clipBounds filterList effectScale st1 = (true, st2) ∧
      MakeLayerStyleNode ext cache clipBounds filterList st2 = (true, st3) ∧
      MakeFilterNodes.build ext cache filterList clipBounds effectScale clipIndex contentBounds st
        = ⟨st3.filterNodes, contentBounds, st3.calls⟩) := by
  unfold MakeFilterNodes.build
  rcases h1 : MakeEffectNode cache clipBounds filterList effectScale clipIndex st with ⟨b1, st1⟩
  cases b1
  · exact Or.inl ⟨st1, rfl, rfl⟩
  · rcases h2 : MakeMotionBlurNode ext cache clipBounds filterList effectScale st1 with ⟨b2, st2⟩
    cases b2
    · exact Or.inr (Or.inl ⟨st1, st2, rfl, h2, by simp [h2]⟩)
    · rcases h3 : MakeLayerStyleNode ext cache clipBounds filterList st2 with ⟨b3, st3⟩
      cases b3
      · exact Or.inr (Or.inr (Or.inl ⟨st1, st2, st3, rfl, h2, h3, by simp [h2, h3]⟩))
      · exact Or.inr (Or.inr (Or.inr ⟨st1, st2, st3, rfl, h2, h3, by simp [h2, h3]⟩))

/-- A run of the three makers that returns nodes recorded no empty clip. -/
theorem MakeFilterNodes.build_noEmptyClip (ext : Externals) (cache : RenderCache)
    (filterList : FilterList) (clipBounds : Rect) (effectScale : Point) (clipIndex : Int)
    (contentBounds : Rect) (st : NodeState) (hst : NoEmptyClip st.calls)
    (hne : (MakeFilterNodes.build ext cache filterList clipBounds effectScale clipIndex
      contentBounds st).nodes ≠ []) :
    NoEmptyClip (MakeFilterNodes.build ext cache filterList clipBounds effectScale clipIndex
      contentBounds st).calls := by
  rcases MakeFilterNodes.build_cases ext cache filterList clipBounds effectScale clipIndex
    contentBounds st with ⟨st1, _, hb⟩ | ⟨st1, st2, _, _, hb⟩ | ⟨st1, st2, st3, _, _, _, hb⟩ |
    ⟨st1, st2, st3, h1, h2, h3, hb⟩
  · rw [hb] at hne; exact absurd rfl hne
  · rw [hb] at hne; exact absurd rfl hne
  · rw [hb] at hne; exact absurd rfl hne
  · rw [hb]
    exact (MakeLayerStyleNode_true _ _ _ _ _ _ h3).1
      ((MakeMotionBlurNode_true _ _ _ _ _ _ _ h2).1
        ((MakeEffectNode.loop_true _ _ _ _ _ _ _ _ _ h1).1 hst))

/-- With every filter resolved and no empty clip recorded, the three makers
return the expected filters after the nodes they started from. -/
theorem MakeFilterNodes.build_filters (ext : Externals) (cache : RenderCache)
    (filterList : FilterList) (clipBounds : Rect) (effectScale : Point) (clipIndex : Int)
    (contentBounds : Rect) (st : NodeState) (hres : AllResolved cache filterList)
    (hst : st.filterNodes = [])
    (hclip : NoEmptyClip (MakeFilterNodes.build ext cache filterList clipBounds effectScale
      clipIndex contentBounds st).calls) :
    (MakeFilterNodes.build ext cache filterList clipBounds effectScale clipIndex
      contentBounds st).nodes.map (fun n => n.filter) = expectedFilters cache filterList := by
  rcases MakeFilterNodes.build_cases ext cache filterList clipBounds effectScale clipIndex
    contentBounds st with ⟨st1, h1, hb⟩ | ⟨st1, st2, _, h2, hb⟩ | ⟨st1, st2, st3, _, _, h3, hb⟩ |
    ⟨st1, st2, st3, h1, h2, h3, hb⟩
  · rw [hb] at hclip
    exact absurd hclip (MakeEffectNode.loop_false _ _ _ _ _ _ _ _ _ h1)
  · rw [hb] at hclip
    exact absurd hclip (MakeMotionBlurNode_false _ _ _ _ _ _ _ h2)
  · rw [hb] at hclip
    exact absurd hclip (MakeLayerStyleNode_false _ _ _ _ _ _ hres.2.2 h3)
  · rw [hb]
    show st3.filterNodes.map (fun n => n.filter) = _
    rw [(MakeLayerStyleNode_true _ _ _ _ _ _ h3).2, (MakeMotionBlurNode_true _ _ _ _ _ _ _ h2).2,
      (MakeEffectNode.loop_true _ _ _ _ _ _ _ _ _ h1).2, hst]
    simp [expectedFilters]

/-- The three ways `MakeFilterNodes` proceeds: it returns at once because the
content bounds miss the clip, or it runs the makers after clipping the content
bounds (`clipIndex = -1`), or it runs the makers on untouched content bounds. -/
theorem MakeFilterNodes_cases (ext : Externals) (filterList : FilterList) (cache : RenderCache)
    (contentBounds clipRect : Rect) :
    (findClipIndex filterList.effects filterList.effects.length = -1 ∧
      contentBounds.intersect (MakeFilterNodes.clipBounds ext filterList clipRect) = none ∧
      MakeFilterNodes ext filterList cache contentBounds clipRect =
        ⟨[], contentBounds,
          [Call.intersect contentBounds (MakeFilterNodes.clipBounds ext filterList clipRect)]⟩) ∨
    (findClipIndex filterList.effects filterList.effects.length = -1 ∧
      ∃ clipped,
        contentBounds.intersect (MakeFilterNodes.clipBounds ext filterList clipRect)
          = some clipped ∧
        MakeFilterNodes ext filterList cache contentBounds clipRect =
          MakeFilterNodes.build ext cache filterList
            (MakeFilterNodes.clipBounds ext filterList clipRect) filterList.effectScale
            (findClipIndex filterList.effects filterList.effects.length) clipped
            ⟨[], contentBounds,
              [Call.intersect contentBounds
                (MakeFilterNodes.clipBounds ext filterList clipRect)]⟩) ∨
    (findClipIndex filterList.effects filterList.effects.length ≠ -1 ∧
      MakeFilterNodes ext filterList cache contentBounds clipRect =
        MakeFilterNodes.build ext cache filterList
          (MakeFilterNodes.clipBounds ext filterList clipRect) filterList.effectScale
          (findClipIndex filterList.effects filterList.effects.length) contentBounds
          ⟨[], contentBounds, []⟩) := by
  unfold MakeFilterNodes
  by_cases hci : findClipIndex filterList.effects filterList.effects.length = -1
  · rcases hc : contentBounds.intersect (MakeFilterNodes.clipBounds ext filterList clipRect)
      with _ | clipped
    · exact Or.inl ⟨hci, rfl, by simp only [hci, if_true, hc]⟩
    · exact Or.inr (Or.inl ⟨hci, clipped, rfl, by simp only [hci, if_true, hc]⟩)
  · exact Or.inr (Or.inr ⟨hci, by simp only [hci, if_false]⟩)

/-! ## Lemmas on the filter-list builder -/

theorem DoesProcessVisibleAreaOnly.loop_eq_true (effects : List Effect) :
    DoesProcessVisibleAreaOnly.loop effects = true ↔
      ∀ e ∈ effects, e.processVisibleAreaOnly = true := by
  induction effects with
  | nil => simp [DoesProcessVisibleAreaOnly.loop]
  | cons e rest ih =>
    unfold DoesProcessVisibleAreaOnly.loop
    cases hp : e.processVisibleAreaOnly
    · simp [hp]
    · simp [hp, ih]

theorem pushVisibleEffects_eq (layerFrame : Frame) (effects acc : List Effect) :
    pushVisibleEffects layerFrame effects acc =
      acc ++ effects.filter (fun e => e.visibleAt layerFrame) := by
  induction effects generalizing acc with
  | nil => simp [pushVisibleEffects]
  | cons e rest ih =>
    unfold pushVisibleEffects
    cases hv : e.visibleAt layerFrame
    · simp [hv, ih]
    · simp [hv, ih]

theorem pushVisibleLayerStyles_eq (layerFrame : Frame) (layerStyles acc : List LayerStyle) :
    pushVisibleLayerStyles layerFrame layerStyles acc =
      acc ++ layerStyles.filter (fun s => s.visibleAt layerFrame) := by
  induction layerStyles generalizing acc with
  | nil => simp [pushVisibleLayerStyles]
  | cons s rest ih =>
    unfold pushVisibleLayerStyles
    cases hv : s.visibleAt layerFrame
    · simp [hv, ih]
    · simp [hv, ih]

/-! ## Lemmas on the bounds along the node list -/

theorem boundsBefore_cons (prev : Rect) (n : FilterNode) (rest : List FilterNode) (j : Nat)
    (hj : j ≤ rest.length) :
    boundsBefore prev (n :: rest) (j + 1) = boundsBefore n.bounds rest j := by
  cases j with
  | zero => simp [boundsBefore]
  | succ m =>
    have hm : m < rest.length := hj
    simp [boundsBefore, List.getElem?_eq_getElem hm]

theorem boundsBefore_append (prev : Rect) (ns t : List FilterNode) (j : Nat)
    (hj : j ≤ ns.length) :
    boundsBefore prev (ns ++ t) j = boundsBefore prev ns j := by
  cases j with
  | zero => rfl
  | succ m =>
    have hm : m < ns.length := hj
    simp [boundsBefore, List.getElem?_append_left hm]

theorem boundsBefore_snoc (prev : Rect) (ns : List FilterNode) (n : FilterNode) :
    boundsBefore prev (ns ++ [n]) (ns.length + 1) = n.bounds := by
  simp [boundsBefore]

theorem MakeEffectNode.loop_chain (cache : RenderCache) (clipBounds : Rect) (layerFrame : Frame)
    (effectScale : Point) (clipIndex : Int) :
    ∀ (effects : List Effect) (k : Int) (st st' : NodeState),
      MakeEffectNode.loop cache clipBounds layerFrame effectScale clipIndex effects k st
        = (true, st') →
      ∃ ns, st'.filterNodes = st.filterNodes ++ ns ∧
        EffectChain cache clipBounds layerFrame effectScale clipIndex k st.filterBounds effects ns ∧
        st'.filterBounds = boundsBefore st.filterBounds ns ns.length := by
  intro effects
  induction effects with
  | nil =>
    intro k st st' h
    simp only [MakeEffectNode.loop, Prod.mk.injEq, true_and] at h
    subst h
    exact ⟨[], by simp, rfl, rfl⟩
  | cons e rest ih =>
    intro k st st' h
    unfold MakeEffectNode.loop at h
    rcases hf : cache.getFilterCache e with _ | f
    · rw [hf] at h
      simp only at h
      obtain ⟨ns, hns, hchain, hb⟩ := ih _ _ _ h
      refine ⟨ns, hns, ?_, hb⟩
      unfold EffectChain
      rw [hf]
      exact hchain
    · rw [hf] at h
      simp only at h
      split at h
      · rename_i hk
        split at h
        · simp at h
        · rename_i clipped hc
          obtain ⟨ns, hns, hchain, hb⟩ := ih _ _ _ h
          refine ⟨⟨f, clipped⟩ :: ns, by simpa using hns, ?_, ?_⟩
          · unfold EffectChain
            rw [hf]
            exact ⟨clipped, ns, rfl, fun _ => hc, fun hlt => absurd hk (not_le.mpr hlt),
              hchain⟩
          · rw [hb, List.length_cons, boundsBefore_cons _ _ _ _ (le_refl _)]
      · rename_i hk
        obtain ⟨ns, hns, hchain, hb⟩ := ih _ _ _ h
        refine ⟨⟨f, (e.transformBounds st.filterBounds effectScale layerFrame).roundOut⟩ :: ns,
          by simpa using hns, ?_, ?_⟩
        · unfold EffectChain
          rw [hf]
          exact ⟨_, ns, rfl, fun hle => absurd hle hk, fun _ => rfl, hchain⟩
        · rw [hb, List.length_cons, boundsBefore_cons _ _ _ _ (le_refl _)]

theorem effectNodeIndex_cons_none (cache : RenderCache) (e : Effect) (es : List Effect) (i : Nat)
    (h : cache.getFilterCache e = none) :
    effectNodeIndex cache (e :: es) (i + 1) = effectNodeIndex cache es i := by
  simp [effectNodeIndex, List.filterMap_cons, h]

theorem effectNodeIndex_cons_some (cache : RenderCache) (e : Effect) (es : List Effect) (i : Nat)
    (f : Filter) (h : cache.getFilterCache e = some f) :
    effectNodeIndex cache (e :: es) (i + 1) = effectNodeIndex cache es i + 1 := by
  simp [effectNodeIndex, List.filterMap_cons, h]

/-- The node of every resolved effect along an `EffectChain`, found at the
position given by the number of resolved effects before it. -/
theorem EffectChain.index (cache : RenderCache) (clipBounds : Rect) (layerFrame : Frame)
    (effectScale : Point) (clipIndex : Int) :
    ∀ (es : List Effect) (k : Int) (prev : Rect) (ns : List FilterNode),
      EffectChain cache clipBounds layerFrame effectScale clipIndex k prev es ns →
      ns.length = (es.filterMap cache.getFilterCache).length ∧
      ∀ (i : Nat) (e : Effect) (f : Filter), es[i]? = some e → cache.getFilterCache e = some f →
        ∃ b, ns[effectNodeIndex cache es i]? = some ⟨f, b⟩ ∧
          (clipIndex ≤ k + i →
            (e.transformBounds (boundsBefore prev ns (effectNodeIndex cache es i)) effectScale
              layerFrame).roundOut.intersect clipBounds = some b) ∧
          (k + i < clipIndex →
            b = (e.transformBounds (boundsBefore prev ns (effectNodeIndex cache es i))
              effectScale layerFrame).roundOut) := by
  intro es
  induction es with
  | nil =>
    intro k prev ns h
    simp only [EffectChain] at h
    subst h
    exact ⟨rfl, fun i e f he => by simp at he⟩
  | cons e0 rest ih =>
    intro k prev ns h
    unfold EffectChain at h
    rcases hf0 : cache.getFilterCache e0 with _ | f0
    · rw [hf0] at h
      simp only at h
      obtain ⟨hlen, hidx⟩ := ih _ _ _ h
      refine ⟨by simp [List.filterMap_cons, hf0, hlen], ?_⟩
      intro i e f he hf
      cases i with
      | zero =>
        simp only [List.getElem?_cons_zero, Option.some.injEq] at he
        subst he
        rw [hf0] at hf
        cases hf
      | succ m =>
        simp only [List.getElem?_cons_succ] at he
        obtain ⟨b, hn, hc, hno⟩ := hidx m e f he hf
        rw [effectNodeIndex_cons_none _ _ _ _ hf0]
        refine ⟨b, hn, ?_, ?_⟩
        · intro hle; exact hc (by push_cast at hle ⊢; omega)
        · intro hlt; exact hno (by push_cast at hlt ⊢; omega)
    · rw [hf0] at h
      simp only at h
      obtain ⟨b0, ns', rfl, hclip, hno0, hchain⟩ := h
      obtain ⟨hlen, hidx⟩ := ih _ _ _ hchain
      refine ⟨by simp [List.filterMap_cons, hf0, hlen], ?_⟩
      intro i e f he hf
      cases i with
      | zero =>
        simp only [List.getElem?_cons_zero, Option.some.injEq] at he
        subst he
        rw [hf0] at hf
        cases hf
        refine ⟨b0, by simp [effectNodeIndex], ?_, ?_⟩
        · intro hle
          simpa [effectNodeIndex, boundsBefore] using hclip (by simpa using hle)
        · intro hlt
          simpa [effectNodeIndex, boundsBefore] using hno0 (by simpa using hlt)
      | succ m =>
        simp only [List.getElem?_cons_succ] at he
        obtain ⟨b, hn, hc, hno⟩ := hidx m e f he hf
        have hm : effectNodeIndex cache rest m ≤ ns'.length :=
          Nat.le_of_lt (List.getElem?_eq_some_iff.mp hn).1
        rw [effectNodeIndex_cons_some _ _ _ _ f0 hf0]
        refine ⟨b, by simpa using hn, ?_, ?_⟩
        · intro hle
          rw [boundsBefore_cons _ _ _ _ hm]
          exact hc (by push_cast at hle ⊢; omega)
        · intro hlt
          rw [boundsBefore_cons _ _ _ _ hm]
          exact hno (by push_cast at hlt ⊢; omega)

theorem findClipIndex_spec (effects : List Effect) :
    ∀ n : Nat, n ≤ effects.length →
      (findClipIndex effects n = -1 ∧
        ∀ (j : Nat) (e : Effect), j < n → effects[j]? = some e →
          e.processVisibleAreaOnly = true) ∨
      (∃ i : Nat, i < n ∧ findClipIndex effects n = (i : Int) ∧
        (∃ e, effects[i]? = some e ∧ e.processVisibleAreaOnly = false) ∧
        ∀ (j : Nat) (e : Effect), i < j → j < n → effects[j]? = some e →
          e.processVisibleAreaOnly = true) := by
  intro n
  induction n with
  | zero =>
    intro _
    exact Or.inl ⟨rfl, fun j e hj => absurd hj (Nat.not_lt_zero _)⟩
  | succ i ih =>
    intro hn
    have hi : i < effects.length := hn
    unfold findClipIndex
    rw [List.getElem?_eq_getElem hi]
    simp only
    cases hp : effects[i].processVisibleAreaOnly
    · simp only [Bool.not_false, if_true]
      exact Or.inr ⟨i, Nat.lt_succ_self i, rfl, ⟨effects[i], List.getElem?_eq_getElem hi, hp⟩,
        fun j e hij hj => absurd hj (by omega)⟩
    · simp only [Bool.not_true, Bool.false_eq_true, if_false]
      rcases ih (Nat.le_of_lt hi) with ⟨h1, h2⟩ | ⟨i0, hi0, h1, h2, h3⟩
      · refine Or.inl ⟨h1, ?_⟩
        intro j e hj he
        rcases Nat.lt_succ_iff_lt_or_eq.mp hj with hlt | heq
        · exact h2 j e hlt he
        · subst heq
          rw [List.getElem?_eq_getElem hi] at he
          cases he
          exact hp
      · refine Or.inr ⟨i0, Nat.lt_succ_of_lt hi0, h1, h2, ?_⟩
        intro j e hij hj he
        rcases Nat.lt_succ_iff_lt_or_eq.mp hj with hlt | heq
        · exact h3 j e hij hlt he
        · subst heq
          rw [List.getElem?_eq_getElem hi] at he
          cases he
          exact hp

theorem MakeMotionBlurNode_nodes (ext : Externals) (cache : RenderCache) (clipBounds : Rect)
    (filterList : FilterList) (effectScale : Point) (st st' : NodeState)
    (h : MakeMotionBlurNode ext cache clipBounds filterList effectScale st = (true, st')) :
    (st'.filterNodes = st.filterNodes ∧ st'.filterBounds = st.filterBounds) ∨
    (∃ f b, st'.filterNodes = st.filterNodes ++ [⟨f, b⟩] ∧ st'.filterBounds = b ∧
      (ext.MotionBlurTransformBounds st.filterBounds effectScale filterList.layer
        filterList.layerFrame).roundOut.intersect clipBounds = some b) := by
  unfold MakeMotionBlurNode at h
  split at h
  · split at h
    · rename_i filter _
      split at h
      · simp only at h
        split at h
        · simp at h
        · rename_i clipped hc
          simp only [Prod.mk.injEq, true_and] at h
          subst h
          exact Or.inr ⟨filter, clipped, rfl, rfl, hc⟩
      · simp only [Prod.mk.injEq, true_and] at h
        subst h
        exact Or.inl ⟨rfl, rfl⟩
    · simp only [Prod.mk.injEq, true_and] at h
      subst h
      exact Or.inl ⟨rfl, rfl⟩
  · simp only [Prod.mk.injEq, true_and] at h
    subst h
    exact Or.inl ⟨rfl, rfl⟩

theorem MakeLayerStyleNode_nodes (ext : Externals) (cache : RenderCache) (clipBounds : Rect)
    (filterList : FilterList) (st st' : NodeState)
    (h : MakeLayerStyleNode ext cache clipBounds filterList st = (true, st')) :
    (st'.filterNodes = st.filterNodes ∧ st'.filterBounds = st.filterBounds) ∨
    (∃ f b, st'.filterNodes = st.filterNodes ++ [⟨f, b⟩] ∧ st'.filterBounds = b ∧
      (ext.LayerStylesTransformBounds st.filterBounds filterList).roundOut.intersect clipBounds
        = some b) := by
  unfold MakeLayerStyleNode at h
  split at h
  · split at h
    · simp at h
    · rename_i filter _
      simp only at h
      split at h
      · simp at h
      · rename_i clipped hc
        simp only [Prod.mk.injEq, true_and] at h
        subst h
        exact Or.inr ⟨filter, clipped, rfl, rfl, hc⟩
  · simp only [Prod.mk.injEq, true_and] at h
    subst h
    exact Or.inl ⟨rfl, rfl⟩

/-- A call of `MakeFilterNodes` that returns nodes ran the three makers to
completion, starting from no node and the content bounds as passed in. -/
theorem MakeFilterNodes_run (ext : Externals) (filterList : FilterList) (cache : RenderCache)
    (contentBounds clipRect : Rect)
    (hne : (MakeFilterNodes ext filterList cache contentBounds clipRect).nodes ≠ []) :
    ∃ calls0 st1 st2 st3,
      MakeEffectNode cache (MakeFilterNodes.clipBounds ext filterList clipRect) filterList
        filterList.effectScale (findClipIndex filterList.effects filterList.effects.length)
        ⟨[], contentBounds, calls0⟩ = (true, st1) ∧
      MakeMotionBlurNode ext cache (MakeFilterNodes.clipBounds ext filterList clipRect)
        filterList filterList.effectScale st1 = (true, st2) ∧
      MakeLayerStyleNode ext cache (MakeFilterNodes.clipBounds ext filterList clipRect)
        filterList st2 = (true, st3) ∧
      (MakeFilterNodes ext filterList cache contentBounds clipRect).nodes = st3.filterNodes := by
  have key : ∀ (cb : Rect) (calls0 : List Call),
      MakeFilterNodes ext filterList cache contentBounds clipRect =
        MakeFilterNodes.build ext cache filterList
          (MakeFilterNodes.clipBounds ext filterList clipRect) filterList.effectScale
          (findClipIndex filterList.effects filterList.effects.length) cb
          ⟨[], contentBounds, calls0⟩ →
      ∃ calls0 st1 st2 st3,
        MakeEffectNode cache (MakeFilterNodes.clipBounds ext filterList clipRect) filterList
          filterList.effectScale (findClipIndex filterList.effects filterList.effects.length)
          ⟨[], contentBounds, calls0⟩ = (true, st1) ∧
        MakeMotionBlurNode ext cache (MakeFilterNodes.clipBounds ext filterList clipRect)
          filterList filterList.effectScale st1 = (true, st2) ∧
        MakeLayerStyleNode ext cache (MakeFilterNodes.clipBounds ext filterList clipRect)
          filterList st2 = (true, st3) ∧
        (MakeFilterNodes ext filterList cache contentBounds clipRect).nodes
          = st3.filterNodes := by
    intro cb calls0 hm
    rw [hm] at hne ⊢
    rcases MakeFilterNodes.build_cases ext cache filterList
      (MakeFilterNodes.clipBounds ext filterList clipRect) filterList.effectScale
      (findClipIndex filterList.effects filterList.effects.length) cb
      ⟨[], contentBounds, calls0⟩ with
      ⟨st1, _, hb⟩ | ⟨st1, st2, _, _, hb⟩ | ⟨st1, st2, st3, _, _, _, hb⟩ |
      ⟨st1, st2, st3, h1, h2, h3, hb⟩
    · rw [hb] at hne; exact absurd rfl hne
    · rw [hb] at hne; exact absurd rfl hne
    · rw [hb] at hne; exact absurd rfl hne
    · exact ⟨calls0, st1, st2, st3, h1, h2, h3, by rw [hb]⟩
  rcases MakeFilterNodes_cases ext filterList cache contentBounds clipRect with
    ⟨_, _, hm⟩ | ⟨_, clipped, _, hm⟩ | ⟨_, hm⟩
  · rw [hm] at hne; exact absurd rfl hne
  · exact key _ _ hm
  · exact key _ _ hm

/-- The shape of the list a successful run returns: the effect nodes obeying
the bounds rule, then at most one motion-blur node, then at most one
layer-styles node, each of the latter two clipped. -/
theorem MakeFilterNodes_shape (ext : Externals) (filterList : FilterList) (cache : RenderCache)
    (contentBounds clipRect : Rect)
    (hne : (MakeFilterNodes ext filterList cache contentBounds clipRect).nodes ≠ []) :
    ∃ ns mb ls,
      (MakeFilterNodes ext filterList cache contentBounds clipRect).nodes = ns ++ mb ++ ls ∧
      EffectChain cache (MakeFilterNodes.clipBounds ext filterList clipRect) filterList.layerFrame
        filterList.effectScale (findClipIndex filterList.effects filterList.effects.length)
        0 contentBounds filterList.effects ns ∧
      (mb = [] ∨ ∃ f b, mb = [⟨f, b⟩] ∧
        (ext.MotionBlurTransformBounds (boundsBefore contentBounds ns ns.length)
          filterList.effectScale filterList.layer filterList.layerFrame).roundOut.intersect
            (MakeFilterNodes.clipBounds ext filterList clipRect) = some b) ∧
      (ls = [] ∨ ∃ f b, ls = [⟨f, b⟩] ∧
        (ext.LayerStylesTransformBounds
          (boundsBefore contentBounds (ns ++ mb) (ns ++ mb).length)
          filterList).roundOut.intersect
            (MakeFilterNodes.clipBounds ext filterList clipRect) = some b) := by
  obtain ⟨calls0, st1, st2, st3, h1, h2, h3, hn⟩ :=
    MakeFilterNodes_run ext filterList cache contentBounds clipRect hne
  obtain ⟨ns, hns, hchain, hb1⟩ := MakeEffectNode.loop_chain _ _ _ _ _ _ _ _ _ h1
  simp only [List.nil_append] at hns
  simp only at hchain hb1
  have hmb : ∃ mb, st2.filterNodes = ns ++ mb ∧
      st2.filterBounds = boundsBefore contentBounds (ns ++ mb) (ns ++ mb).length ∧
      (mb = [] ∨ ∃ f b, mb = [⟨f, b⟩] ∧
        (ext.MotionBlurTransformBounds (boundsBefore contentBounds ns ns.length)
          filterList.effectScale filterList.layer filterList.layerFrame).roundOut.intersect
            (MakeFilterNodes.clipBounds ext filterList clipRect) = some b) := by
    rcases MakeMotionBlurNode_nodes _ _ _ _ _ _ _ h2 with ⟨hn2, hb2⟩ | ⟨f, b, hn2, hb2, hc2⟩
    · exact ⟨[], by simp [hn2, hns], by simp [hb2, hb1], Or.inl rfl⟩
    · refine ⟨[⟨f, b⟩], by simp [hn2, hns], ?_, Or.inr ⟨f, b, rfl, ?_⟩⟩
      · rw [hb2, List.length_append, List.length_singleton, boundsBefore_snoc]
      · rw [← hb1]; exact hc2
  obtain ⟨mb, hn2, hb2, hmb'⟩ := hmb
  rcases MakeLayerStyleNode_nodes _ _ _ _ _ _ h3 with ⟨hn3, _⟩ | ⟨f, b, hn3, _, hc3⟩
  · exact ⟨ns, mb, [], by rw [hn, hn3, hn2]; simp, hchain, hmb', Or.inl rfl⟩
  · refine ⟨ns, mb, [⟨f, b⟩], by rw [hn, hn3, hn2], hchain, hmb', Or.inr ⟨f, b, rfl, ?_⟩⟩
    rw [← hb2]; exact hc3

/-! ## Lemmas on the bounds propagation -/

theorem Rect.roundOut_isIntegral (r : Rect) : r.roundOut.IsIntegral :=
  ⟨⟨_, rfl⟩, ⟨_, rfl⟩, ⟨_, rfl⟩, ⟨_, rfl⟩⟩

theorem TransformFilterBounds.effectLoop_isIntegral (effectScale : Point) (layerFrame : Frame) :
    ∀ (effects : List Effect) (filterBounds : Rect), filterBounds.IsIntegral →
      (TransformFilterBounds.effectLoop effectScale layerFrame effects filterBounds).IsIntegral := by
  intro effects
  induction effects with
  | nil => intro b hb; exact hb
  | cons e rest ih =>
    intro b _
    exact ih _ (Rect.roundOut_isIntegral _)

/-- The effect stages of `TransformFilterBounds` do round: with at least one
effect, no motion blur and no layer style, the result has integer edges. -/
theorem TransformFilterBounds_effects_isIntegral (ext : Externals) (filterBounds : Rect)
    (filterList : FilterList) (hmb : filterList.layer.motionBlur = false)
    (hls : filterList.layerStyles = []) (hne : filterList.effects ≠ []) :
    (TransformFilterBounds ext filterBounds filterList).IsIntegral := by
  unfold TransformFilterBounds
  simp only [hmb, hls, Bool.false_eq_true, if_false, List.isEmpty_nil, Bool.not_true]
  cases he : filterList.effects with
  | nil => exact absurd he hne
  | cons e rest =>
    exact TransformFilterBounds.effectLoop_isIntegral _ _ rest _ (Rect.roundOut_isIntegral _)

/-! ## Lemmas on the content bounds left by `MakeFilterNodes` -/

theorem ProcessFastBlur.loop_eq (scaleFactorLimit : ℚ) (effects : List Effect) :
    ProcessFastBlur.loop scaleFactorLimit effects =
      match effects.find? (fun e => decide (e.type = EffectType.FastBlur)) with
      | some e => if e.blurrinessAnimatable then scaleFactorLimit else FAST_BLUR_MAX_SCALE_FACTOR
      | none => scaleFactorLimit := by
  induction effects with
  | nil => rfl
  | cons e rest ih =>
    unfold ProcessFastBlur.loop
    by_cases ht : e.type = EffectType.FastBlur
    · cases ha : e.blurrinessAnimatable <;> simp [List.find?, ht, ha]
    · simp [List.find?, ht, ih]

/-! ## Lemmas on integer-aligned bounds -/

theorem Rect.intersect_isIntegral (a b c : Rect) (ha : a.IsIntegral) (hb : b.IsIntegral)
    (h : a.intersect b = some c) : c.IsIntegral := by
  unfold Rect.intersect at h
  dsimp only at h
  by_cases hcond :
      (if a.left > b.left then a.left else b.left) <
          (if a.right < b.right then a.right else b.right) ∧
        (if a.top > b.top then a.top else b.top) <
          (if a.bottom < b.bottom then a.bottom else b.bottom)
  · rw [if_pos hcond] at h
    injection h with h
    subst h
    obtain ⟨ha1, ha2, ha3, ha4⟩ := ha
    obtain ⟨hb1, hb2, hb3, hb4⟩ := hb
    refine ⟨?_, ?_, ?_, ?_⟩
    · show ∃ n : ℤ, (if a.left > b.left then a.left else b.left) = n
      split
      · exact ha1
      · exact hb1
    · show ∃ n : ℤ, (if a.top > b.top then a.top else b.top) = n
      split
      · exact ha2
      · exact hb2
    · show ∃ n : ℤ, (if a.right < b.right then a.right else b.right) = n
      split
      · exact ha3
      · exact hb3
    · show ∃ n : ℤ, (if a.bottom < b.bottom then a.bottom else b.bottom) = n
      split
      · exact ha4
      · exact hb4
  · rw [if_neg hcond] at h
    cases h

theorem MakeEffectNode.loop_isIntegral (cache : RenderCache) (clipBounds : Rect)
    (layerFrame : Frame) (effectScale : Point) (clipIndex : Int)
    (hclip : clipBounds.IsIntegral) :
    ∀ (effects : List Effect) (k : Int) (st st' : NodeState),
      (∀ n ∈ st.filterNodes, n.bounds.IsIntegral) →
      MakeEffectNode.loop cache clipBounds layerFrame effectScale clipIndex effects k st
        = (true, st') →
      ∀ n ∈ st'.filterNodes, n.bounds.IsIntegral := by
  intro effects
  induction effects with
  | nil =>
    intro k st st' hst h
    simp only [MakeEffectNode.loop, Prod.mk.injEq, true_and] at h
    subst h
    exact hst
  | cons e rest ih =>
    intro k st st' hst h
    unfold MakeEffectNode.loop at h
    split at h
    · simp only at h
      split at h
      · split at h
        · simp at h
        · rename_i clipped hc
          refine ih _ _ _ ?_ h
          intro n hn
          rcases List.mem_append.mp hn with hn | hn
          · exact hst n hn
          · rw [List.mem_singleton.mp hn]
            exact Rect.intersect_isIntegral _ _ _ (Rect.roundOut_isIntegral _) hclip hc
      · refine ih _ _ _ ?_ h
        intro n hn
        rcases List.mem_append.mp hn with hn | hn
        · exact hst n hn
        · rw [List.mem_singleton.mp hn]
          exact Rect.roundOut_isIntegral _
    · exact ih _ _ _ hst h

theorem MakeFilterNodes.clipBounds_isIntegral (ext : Externals) (filterList : FilterList)
    (clipRect : Rect) (h : filterList.layer.motionBlur = true ∨ clipRect.IsIntegral) :
    (MakeFilterNodes.clipBounds ext filterList clipRect).IsIntegral := by
  unfold MakeFilterNodes.clipBounds
  split
  · exact Rect.roundOut_isIntegral _
  · rename_i hmb
    rcases h with h | h
    · exact absurd h hmb
    · exact h

/-! ## Lemmas on the compositor loop -/

/-- One iteration of the loop of `ApplyFilters` on a node that is not the last. -/
theorem ApplyFilters.loop_cons_cons (makeOk : Nat → Bool) (scale : Point)
    (node next : FilterNode) (rest : List FilterNode) (st : ApplyState) :
    ApplyFilters.loop makeOk scale (node :: next :: rest) st =
      match ApplyFilters.pickBuffer makeOk scale node st with
      | (madeNew, none) =>
        { st with
          makeCount := if madeNew then st.makeCount + 1 else st.makeCount
          calls := st.calls ++
            (if madeNew then
              [DrawCall.make ⌈node.bounds.width * scale.x⌉ ⌈node.bounds.height * scale.y⌉
                node.filter.needsMSAA false]
             else []) }
      | (madeNew, some currentBuffer) =>
        ApplyFilters.loop makeOk scale (next :: rest)
          (ApplyFilters.advance scale node st madeNew currentBuffer) := by
  rw [ApplyFilters.loop]
  rcases hp : ApplyFilters.pickBuffer makeOk scale node st with ⟨madeNew, _ | cur⟩
  · cases madeNew <;> simp
  · cases madeNew <;> simp [ApplyFilters.advance]

/-- What `pickBuffer` can answer: the free buffer without a `Make` call, or the
outcome of a `Make` call. -/
theorem ApplyFilters.pickBuffer_cases (makeOk : Nat → Bool) (scale : Point) (node : FilterNode)
    (st : ApplyState) :
    (∃ fb, st.freeBuffer = some fb ∧
      node.bounds.width = st.lastBounds.width ∧ node.bounds.height = st.lastBounds.height ∧
      node.filter.needsMSAA = st.lastUsesMSAA ∧
      ApplyFilters.pickBuffer makeOk scale node st = (false, some fb)) ∨
    ((st.freeBuffer = none ∨ ¬ (node.bounds.width = st.lastBounds.width ∧
        node.bounds.height = st.lastBounds.height ∧
        node.filter.needsMSAA = st.lastUsesMSAA)) ∧
      ((makeOk st.makeCount = true ∧
        ApplyFilters.pickBuffer makeOk scale node st =
          (true, some ⟨st.makeCount, ⌈node.bounds.width * scale.x⌉,
            ⌈node.bounds.height * scale.y⌉, node.filter.needsMSAA⟩)) ∨
       (makeOk st.makeCount = false ∧
        ApplyFilters.pickBuffer makeOk scale node st = (true, none)))) := by
  unfold ApplyFilters.pickBuffer
  rcases hf : st.freeBuffer with _ | fb
  · right
    refine ⟨Or.inl rfl, ?_⟩
    cases hm : makeOk st.makeCount <;> simp
  · by_cases hc : node.bounds.width = st.lastBounds.width ∧
        node.bounds.height = st.lastBounds.height ∧ node.filter.needsMSAA = st.lastUsesMSAA
    · left
      exact ⟨fb, rfl, hc.1, hc.2.1, hc.2.2, by simp [hc]⟩
    · right
      refine ⟨Or.inr hc, ?_⟩
      cases hm : makeOk st.makeCount <;> simp [hc]

/-- The calls a run of the loop adds: either they follow the description
`ComposeTrace`, or they stop with a failed `Make` before which nothing was drawn
into the final target. -/
theorem ApplyFilters.loop_trace (makeOk : Nat → Bool) (scale : Point) :
    ∀ (nodes : List FilterNode) (st : ApplyState),
      ∃ extra, (ApplyFilters.loop makeOk scale nodes st).calls = st.calls ++ extra ∧
        (ComposeTrace scale (st.lastSource.getD FilterSource.content) st.lastBounds nodes extra ∨
          ∃ pre w h m, extra = pre ++ [DrawCall.make w h m false] ∧
            (∀ w' h' m', DrawCall.make w' h' m' false ∉ pre) ∧
            (∀ f s, DrawCall.draw f s FilterTarget.final ∉ pre)) := by
  intro nodes
  induction nodes with
  | nil =>
    intro st
    exact ⟨[], by simp [ApplyFilters.loop], Or.inl (by simp [ComposeTrace])⟩
  | cons node tl ih =>
    intro st
    cases tl with
    | nil =>
      exact ⟨[DrawCall.draw node.filter (st.lastSource.getD FilterSource.content)
        FilterTarget.final], by simp [ApplyFilters.loop], Or.inl (by simp [ComposeTrace])⟩
    | cons next rest =>
      rw [ApplyFilters.loop_cons_cons]
      have hstep : ∀ (madeNew : Bool) (cur : FilterBuffer),
          ∃ extra, (ApplyFilters.loop makeOk scale (next :: rest)
              (ApplyFilters.advance scale node st madeNew cur)).calls = st.calls ++ extra ∧
            (ComposeTrace scale (st.lastSource.getD FilterSource.content) st.lastBounds
                (node :: next :: rest) extra ∨
              ∃ pre w h m, extra = pre ++ [DrawCall.make w h m false] ∧
                (∀ w' h' m', DrawCall.make w' h' m' false ∉ pre) ∧
                (∀ f s, DrawCall.draw f s FilterTarget.final ∉ pre)) := by
        intro madeNew cur
        obtain ⟨extra', hcalls, hrest⟩ := ih (ApplyFilters.advance scale node st madeNew cur)
        refine ⟨(if madeNew then
            [DrawCall.make ⌈node.bounds.width * scale.x⌉ ⌈node.bounds.height * scale.y⌉
              node.filter.needsMSAA true]
           else []) ++
          [DrawCall.clearColor cur,
           DrawCall.draw node.filter (st.lastSource.getD FilterSource.content)
             (FilterTarget.ofBuffer cur ((st.lastBounds.left - node.bounds.left) * scale.x)
               ((st.lastBounds.top - node.bounds.top) * scale.y)),
           DrawCall.resolve cur] ++ extra', ?_, ?_⟩
        · rw [hcalls]
          simp [ApplyFilters.advance, List.append_assoc]
        · rcases hrest with htrace | ⟨pre, w, h, m, hpre, hnomake, hnofinal⟩
          · left
            refine ⟨cur, _, extra', rfl, ?_, htrace⟩
            cases madeNew
            · exact Or.inl rfl
            · exact Or.inr ⟨_, _, _, rfl⟩
          · right
            refine ⟨(if madeNew then
                [DrawCall.make ⌈node.bounds.width * scale.x⌉ ⌈node.bounds.height * scale.y⌉
                  node.filter.needsMSAA true]
               else []) ++
              [DrawCall.clearColor cur,
               DrawCall.draw node.filter (st.lastSource.getD FilterSource.content)
                 (FilterTarget.ofBuffer cur ((st.lastBounds.left - node.bounds.left) * scale.x)
                   ((st.lastBounds.top - node.bounds.top) * scale.y)),
               DrawCall.resolve cur] ++ pre, w, h, m, ?_, ?_, ?_⟩
            · rw [hpre]; simp [List.append_assoc]
            · intro w' h' m' hmem
              cases madeNew <;> simp at hmem <;> exact hnomake _ _ _ hmem
            · intro f s hmem
              cases madeNew <;> simp at hmem <;> exact hnofinal _ _ hmem
      rcases ApplyFilters.pickBuffer_cases makeOk scale node st with
        ⟨fb, _, _, _, _, hp⟩ | ⟨_, ⟨_, hp⟩ | ⟨_, hp⟩⟩
      · rw [hp]; exact hstep false fb
      · rw [hp]; exact hstep true _
      · rw [hp]
        exact ⟨[DrawCall.make ⌈node.bounds.width * scale.x⌉ ⌈node.bounds.height * scale.y⌉
          node.filter.needsMSAA false], by simp,
          Or.inr ⟨[], _, _, _, rfl, fun _ _ _ h => (by cases h), fun _ _ h => (by cases h)⟩⟩

/-- A run described by `ComposeTrace` has no failed `Make`. -/
theorem ComposeTrace.no_failed_make (scale : Point) :
    ∀ (nodes : List FilterNode) (source : FilterSource) (prev : Rect) (calls : List DrawCall),
      ComposeTrace scale source prev nodes calls →
      ∀ w h m, DrawCall.make w h m false ∉ calls := by
  intro nodes
  induction nodes with
  | nil =>
    intro source prev calls h w h' m hmem
    simp only [ComposeTrace] at h
    subst h
    cases hmem
  | cons node tl ih =>
    intro source prev calls h w h' m hmem
    cases tl with
    | nil =>
      simp only [ComposeTrace] at h
      subst h
      simp at hmem
    | cons next rest =>
      obtain ⟨buffer, makes, tail, hcalls, hmakes, htail⟩ := h
      subst hcalls
      rcases hmakes with hm | ⟨w0, h0, m0, hm⟩
      · subst hm
        simp at hmem
        exact ih _ _ _ htail _ _ _ hmem
      · subst hm
        simp at hmem
        exact ih _ _ _ htail _ _ _ hmem

/-- The draws of a run described by `ComposeTrace` are one per node, in node
order. -/
theorem ComposeTrace.draw_filters (scale : Point) :
    ∀ (nodes : List FilterNode) (source : FilterSource) (prev : Rect) (calls : List DrawCall),
      ComposeTrace scale source prev nodes calls →
      (drawsOf calls).map (fun d => d.1) = nodes.map (fun n => n.filter) := by
  intro nodes
  induction nodes with
  | nil =>
    intro source prev calls h
    simp only [ComposeTrace] at h
    subst h
    rfl
  | cons node tl ih =>
    intro source prev calls h
    cases tl with
    | nil =>
      simp only [ComposeTrace] at h
      subst h
      rfl
    | cons next rest =>
      obtain ⟨buffer, makes, tail, hcalls, hmakes, htail⟩ := h
      subst hcalls
      have := ih _ _ _ htail
      rcases hmakes with hm | ⟨w0, h0, m0, hm⟩
      · subst hm
        simpa [drawsOf] using this
      · subst hm
        simpa [drawsOf] using this

/-- The draw of each node in a run described by `ComposeTrace`: its source, its
target and the offset of its target. -/
theorem ComposeTrace.draw_index (scale : Point) :
    ∀ (nodes : List FilterNode) (source : FilterSource) (prev : Rect) (calls : List DrawCall),
      ComposeTrace scale source prev nodes calls →
      ∀ (k : Nat) (node : FilterNode), nodes[k]? = some node →
        ∃ src tgt, (drawsOf calls)[k]? = some (node.filter, src, tgt) ∧
          (k = 0 → src = source) ∧
          (∀ j, k = j + 1 → ∃ f' s' b x y,
            (drawsOf calls)[j]? = some (f', s', FilterTarget.ofBuffer b x y) ∧
            src = FilterSource.ofBuffer b scale) ∧
          (k + 1 = nodes.length → tgt = FilterTarget.final) ∧
          (k + 1 < nodes.length → ∃ b,
            tgt = FilterTarget.ofBuffer b
              (((boundsBefore prev nodes k).left - node.bounds.left) * scale.x)
              (((boundsBefore prev nodes k).top - node.bounds.top) * scale.y)) := by
  intro nodes
  induction nodes with
  | nil =>
    intro source prev calls _ k node hk
    simp at hk
  | cons n0 tl ih =>
    intro source prev calls h k node hk
    cases tl with
    | nil =>
      simp only [ComposeTrace] at h
      subst h
      cases k with
      | zero =>
        simp only [List.getElem?_cons_zero, Option.some.injEq] at hk
        subst hk
        exact ⟨source, FilterTarget.final, by simp [drawsOf], fun _ => rfl,
          fun j hj => by omega, fun _ => rfl, fun hlt => by simp at hlt⟩
      | succ j => simp at hk
    | cons next rest =>
      obtain ⟨buffer, makes, tail, hcalls, hmakes, htail⟩ := h
      have hdraws : drawsOf calls =
          (n0.filter, source,
            FilterTarget.ofBuffer buffer ((prev.left - n0.bounds.left) * scale.x)
              ((prev.top - n0.bounds.top) * scale.y)) :: drawsOf tail := by
        subst hcalls
        rcases hmakes with hm | ⟨w0, h0, m0, hm⟩
        · subst hm
          simp [drawsOf]
        · subst hm
          simp [drawsOf]
      rw [hdraws]
      cases k with
      | zero =>
        simp only [List.getElem?_cons_zero, Option.some.injEq] at hk
        subst hk
        refine ⟨source, _, List.getElem?_cons_zero, fun _ => rfl, fun j hj => by omega, ?_, ?_⟩
        · intro hlen; simp at hlen
        · intro _
          exact ⟨buffer, by simp [boundsBefore]⟩
      | succ j =>
        simp only [List.getElem?_cons_succ] at hk
        obtain ⟨src, tgt, hd, h0, hj, hfin, hoff⟩ := ih _ _ _ htail j node hk
        have hjlen : j < (next :: rest).length := (List.getElem?_eq_some_iff.mp hk).1
        refine ⟨src, tgt, by simpa using hd, fun h => by omega, ?_, ?_, ?_⟩
        · intro j' hj'
          have hjj : j' = j := by omega
          subst hjj
          cases j' with
          | zero =>
            exact ⟨n0.filter, source, buffer, _, _, List.getElem?_cons_zero, h0 rfl⟩
          | succ i =>
            obtain ⟨f', s', b, x, y, hprev, hsrc⟩ := hj i rfl
            exact ⟨f', s', b, x, y, by simpa using hprev, hsrc⟩
        · intro hlen
          exact hfin (by simpa using hlen)
        · intro hlen
          obtain ⟨b, hb⟩ := hoff (by simpa using hlen)
          refine ⟨b, ?_⟩
          rw [boundsBefore_cons _ _ _ _ (Nat.le_of_lt hjlen)]
          exact hb

/-! ## Lemmas on the number of `Make` calls -/

theorem makeCallCount_append (a b : List DrawCall) :
    makeCallCount (a ++ b) = makeCallCount a + makeCallCount b := by
  unfold makeCallCount
  exact List.countP_append _ _ _

/-- At every point of a run, either no current buffer is chosen yet, or the
current buffer is the free buffer taken without a `Make` call, or it comes from
a `Make` call. -/
theorem ApplyFilters.livePoints_kind (makeOk : Nat → Bool) (scale : Point) :
    ∀ (nodes : List FilterNode) (st : ApplyState),
      ∀ p ∈ ApplyFilters.livePoints makeOk scale nodes st,
        p.currentBuffer = none ∨
        (p.madeNew = false ∧ p.currentBuffer = p.freeBuffer) ∨
        (p.madeNew = true ∧ p.currentBuffer ≠ none) := by
  intro nodes
  induction nodes with
  | nil => intro st p hp; simp [ApplyFilters.livePoints] at hp
  | cons node tl ih =>
    intro st p hp
    cases tl with
    | nil =>
      simp only [ApplyFilters.livePoints, List.mem_singleton] at hp
      subst hp
      exact Or.inl rfl
    | cons next rest =>
      unfold ApplyFilters.livePoints at hp
      rcases ApplyFilters.pickBuffer_cases makeOk scale node st with
        ⟨fb, hfree, _, _, _, hpick⟩ | ⟨_, ⟨_, hpick⟩ | ⟨_, hpick⟩⟩
      · rw [hpick] at hp
        simp only [List.mem_cons] at hp
        rcases hp with hp | hp | hp
        · subst hp; exact Or.inl rfl
        · subst hp; exact Or.inr (Or.inl ⟨rfl, hfree.symm⟩)
        · exact ih _ p hp
      · rw [hpick] at hp
        simp only [List.mem_cons] at hp
        rcases hp with hp | hp | hp
        · subst hp; exact Or.inl rfl
        · subst hp; exact Or.inr (Or.inr ⟨rfl, by simp⟩)
        · exact ih _ p hp
      · rw [hpick] at hp
        simp only [List.mem_cons, List.mem_singleton, List.not_mem_nil, or_false] at hp
        rcases hp with hp | hp
        · subst hp; exact Or.inl rfl
        · subst hp; exact Or.inl rfl

theorem LivePoint.alive_length_le (p : LivePoint) : p.alive.length ≤ 3 := by
  unfold LivePoint.alive
  refine le_trans (List.Sublist.length_le (List.dedup_sublist _)) ?_
  rcases p with ⟨_ | f, _ | l, _ | c, m⟩ <;> simp

theorem LivePoint.alive_length_of_none (p : LivePoint) (h : p.currentBuffer = none) :
    p.alive.length ≤ 2 := by
  unfold LivePoint.alive
  refine le_trans (List.Sublist.length_le (List.dedup_sublist _)) ?_
  rw [h]
  rcases p with ⟨_ | f, _ | l, c, m⟩ <;> simp

theorem LivePoint.alive_length_of_missing (p : LivePoint)
    (h : p.freeBuffer = none ∨ p.lastBuffer = none) : p.alive.length ≤ 2 := by
  unfold LivePoint.alive
  refine le_trans (List.Sublist.length_le (List.dedup_sublist _)) ?_
  rcases p with ⟨_ | f, _ | l, _ | c, m⟩ <;> simp at h ⊢

theorem LivePoint.alive_length_of_reuse (p : LivePoint) (h : p.currentBuffer = p.freeBuffer) :
    p.alive.length ≤ 2 := by
  rcases p with ⟨_ | f, _ | l, _ | c, m⟩
  all_goals first
    | exact LivePoint.alive_length_of_none _ rfl
    | exact LivePoint.alive_length_of_missing _ (Or.inl rfl)
    | exact LivePoint.alive_length_of_missing _ (Or.inr rfl)
    | skip
  simp only [Option.some.injEq] at h
  subst h
  unfold LivePoint.alive
  simp only [Option.toList, List.cons_append, List.nil_append]
  rw [List.dedup_cons_of_mem (by simp)]
  exact le_trans (List.Sublist.length_le (List.dedup_sublist _)) (by simp)

/-! ## Lemmas on a filter list without active filters -/

theorem MakeFilterNodes_nil (ext : Externals) (filterList : FilterList) (cache : RenderCache)
    (contentBounds clipRect : Rect) (heff : filterList.effects = [])
    (hmb : filterList.layer.motionBlur = false) (hls : filterList.layerStyles = []) :
    (MakeFilterNodes ext filterList cache contentBounds clipRect).nodes = [] := by
  rcases hc : contentBounds.intersect clipRect with _ | clipped
  · simp [MakeFilterNodes, MakeFilterNodes.clipBounds, findClipIndex, heff, hmb, hc]
  · simp [MakeFilterNodes, MakeFilterNodes.clipBounds, MakeFilterNodes.build, MakeEffectNode,
      MakeEffectNode.loop, MakeMotionBlurNode, MakeLayerStyleNode, findClipIndex, heff, hmb,
      hls, hc]

theorem MakeFilterList_effects_nil (ext : Externals) (modifier : FilterModifier)
    (heff : ∀ e ∈ modifier.layer.effects, e.visibleAt modifier.layerFrame = false) :
    (MakeFilterList ext modifier).effects = [] := by
  show pushVisibleEffects modifier.layerFrame modifier.layer.effects [] = []
  rw [pushVisibleEffects_eq, List.nil_append, List.filter_eq_nil_iff]
  intro e he
  simp [heff e he]

theorem MakeFilterList_layerStyles_nil (ext : Externals) (modifier : FilterModifier)
    (hls : ∀ s ∈ modifier.layer.layerStyles, s.visibleAt modifier.layerFrame = false) :
    (MakeFilterList ext modifier).layerStyles = [] := by
  show pushVisibleLayerStyles modifier.layerFrame modifier.layer.layerStyles [] = []
  rw [pushVisibleLayerStyles_eq, List.nil_append, List.filter_eq_nil_iff]
  intro s hs
  simp [hls s hs]

/-! ## Lemmas on the updates made by the node makers -/

theorem updatesOf_append (a b : List Call) : updatesOf (a ++ b) = updatesOf a ++ updatesOf b := by
  unfold updatesOf
  exact List.filterMap_append _ _ _

theorem updatesOf_effect_calls (calls : List Call) (filter : Filter) (o n m : Rect) (s : Point)
    (c : Prop) [Decidable c] :
    updatesOf (if c then calls ++ [Call.update filter o n s] ++ [Call.updateMapTexture filter m]
      else calls ++ [Call.update filter o n s]) = updatesOf calls ++ [⟨filter, o, n⟩] := by
  split <;> simp [updatesOf_append, updatesOf, Call.asUpdate]

theorem UpdateChain.length_eq (clip : Rect) :
    ∀ (us : List UpdateRecord) (prev : Rect) (ns : List FilterNode),
      UpdateChain clip prev us ns → us.length = ns.length := by
  intro us
  induction us with
  | nil =>
    intro prev ns h
    cases ns with
    | nil => rfl
    | cons _ _ => simp [UpdateChain] at h
  | cons u us ih =>
    intro prev ns h
    cases ns with
    | nil => simp [UpdateChain] at h
    | cons node ns =>
      obtain ⟨_, _, _, h⟩ := h
      simp [ih _ _ h]

theorem UpdateChain.snoc (clip : Rect) :
    ∀ (us : List UpdateRecord) (prev : Rect) (ns : List FilterNode) (f : Filter) (n b : Rect),
      UpdateChain clip prev us ns → (b = n ∨ n.intersect clip = some b) →
      UpdateChain clip prev (us ++ [⟨f, boundsBefore prev ns ns.length, n⟩]) (ns ++ [⟨f, b⟩]) := by
  intro us
  induction us with
  | nil =>
    intro prev ns f n b h hb
    cases ns with
    | nil => exact ⟨rfl, rfl, hb, trivial⟩
    | cons _ _ => simp [UpdateChain] at h
  | cons u us ih =>
    intro prev ns f n b h hb
    cases ns with
    | nil => simp [UpdateChain] at h
    | cons node ns =>
      obtain ⟨h1, h2, h3, h4⟩ := h
      refine ⟨h1, h2, h3, ?_⟩
      have := ih node.bounds ns f n b h4 hb
      rw [List.length_cons, boundsBefore_cons _ _ _ _ (le_refl _)]
      exact this

theorem UpdateChain.linked (clip : Rect) :
    ∀ (us : List UpdateRecord) (prev : Rect) (ns : List FilterNode),
      UpdateChain clip prev us ns →
      UpdateLinked clip prev us ∧
      ∀ (f : Filter) (n : Rect),
        UpdateLinked clip prev (us ++ [⟨f, boundsBefore prev ns ns.length, n⟩]) := by
  intro us
  induction us with
  | nil =>
    intro prev ns h
    cases ns with
    | nil => exact ⟨trivial, fun f n => ⟨rfl, n, Or.inl rfl, trivial⟩⟩
    | cons _ _ => simp [UpdateChain] at h
  | cons u us ih =>
    intro prev ns h
    cases ns with
    | nil => simp [UpdateChain] at h
    | cons node ns =>
      obtain ⟨_, h2, h3, h4⟩ := h
      obtain ⟨ih1, ih2⟩ := ih node.bounds ns h4
      refine ⟨⟨h2, node.bounds, h3, ih1⟩, ?_⟩
      intro f n
      refine ⟨h2, node.bounds, h3, ?_⟩
      rw [List.length_cons, boundsBefore_cons _ _ _ _ (le_refl _)]
      exact ih2 f n

theorem UpdateChain.node_index (clip : Rect) :
    ∀ (us : List UpdateRecord) (prev : Rect) (ns : List FilterNode),
      UpdateChain clip prev us ns →
      ∀ (k : Nat) (node : FilterNode), ns[k]? = some node →
        ∃ u, us[k]? = some u ∧ u.filter = node.filter ∧
          u.oldBounds = boundsBefore prev ns k ∧
          (node.bounds = u.newBounds ∨ u.newBounds.intersect clip = some node.bounds) := by
  intro us
  induction us with
  | nil =>
    intro prev ns h k node hk
    cases ns with
    | nil => simp at hk
    | cons _ _ => simp [UpdateChain] at h
  | cons u us ih =>
    intro prev ns h k node hk
    cases ns with
    | nil => simp [UpdateChain] at h
    | cons n0 ns =>
      obtain ⟨h1, h2, h3, h4⟩ := h
      cases k with
      | zero =>
        simp only [List.getElem?_cons_zero, Option.some.injEq] at hk
        subst hk
        exact ⟨u, List.getElem?_cons_zero, h1, h2, h3⟩
      | succ j =>
        simp only [List.getElem?_cons_succ] at hk
        obtain ⟨u', hu', hf, ho, hb⟩ := ih _ _ h4 j node hk
        have hj : j < ns.length := (List.getElem?_eq_some_iff.mp hk).1
        refine ⟨u', by simpa using hu', hf, ?_, hb⟩
        rw [boundsBefore_cons _ _ _ _ (Nat.le_of_lt hj)]
        exact ho

theorem UpdateLinked.link_index (clip : Rect) :
    ∀ (us : List UpdateRecord) (prev : Rect), UpdateLinked clip prev us →
      (∀ u, us.head? = some u → u.oldBounds = prev) ∧
      ∀ (k : Nat) (u u' : UpdateRecord), us[k]? = some u → us[k + 1]? = some u' →
        (u'.oldBounds = u.newBounds ∨ u.newBounds.intersect clip = some u'.oldBounds) := by
  intro us
  induction us with
  | nil =>
    intro prev _
    exact ⟨fun u hu => by simp at hu, fun k u u' hk => by simp at hk⟩
  | cons u0 us ih =>
    intro prev h
    obtain ⟨h1, b, hb, hrest⟩ := h
    obtain ⟨ihhead, ihlink⟩ := ih b hrest
    refine ⟨?_, ?_⟩
    · intro u hu
      simp only [List.head?_cons, Option.some.injEq] at hu
      subst hu
      exact h1
    · intro k u u' hk hk'
      cases k with
      | zero =>
        simp only [List.getElem?_cons_zero, Option.some.injEq] at hk
        subst hk
        simp only [Nat.zero_add, List.getElem?_cons_succ] at hk'
        have hhead : us.head? = some u' := by
          cases us with
          | nil => simp at hk'
          | cons x xs => simpa using hk'
        have := ihhead u' hhead
        rw [this]
        rcases hb with hb | hb
        · exact Or.inl hb
        · exact Or.inr hb
      | succ j =>
        simp only [List.getElem?_cons_succ] at hk hk'
        exact ihlink j u u' hk hk'

theorem NodeState.Chained.callsLinked {ext : Externals} {cache : RenderCache}
    {filterList : FilterList} {contentBounds clip : Rect} {st : NodeState}
    (h : st.Chained ext cache filterList contentBounds clip) :
    CallsLinked ext cache filterList contentBounds clip st.calls :=
  ⟨(UpdateChain.linked clip _ _ _ h.1).1, h.2.2⟩

/-- A maker that stops after one more update, made from the current filter
bounds, leaves linked calls. -/
theorem NodeState.Chained.abort {ext : Externals} {cache : RenderCache}
    {filterList : FilterList} {contentBounds clip : Rect} {st : NodeState}
    (h : st.Chained ext cache filterList contentBounds clip) (calls : List Call) (f : Filter)
    (n : Rect) (hcalls : updatesOf calls = updatesOf st.calls ++ [⟨f, st.filterBounds, n⟩])
    (hstage : StageOutput ext cache filterList ⟨f, st.filterBounds, n⟩) :
    CallsLinked ext cache filterList contentBounds clip calls := by
  refine ⟨?_, ?_⟩
  · rw [hcalls, h.2.1]
    exact (UpdateChain.linked clip _ _ _ h.1).2 f n
  · intro u hu
    rw [hcalls] at hu
    rcases List.mem_append.mp hu with hu | hu
    · exact h.2.2 u hu
    · rw [List.mem_singleton.mp hu]; exact hstage

/-- A maker that emits a node after one more update, made from the current
filter bounds, keeps the invariant. -/
theorem NodeState.Chained.emit {ext : Externals} {cache : RenderCache}
    {filterList : FilterList} {contentBounds clip : Rect} {st : NodeState}
    (h : st.Chained ext cache filterList contentBounds clip) (calls : List Call) (f : Filter)
    (n b : Rect) (hcalls : updatesOf calls = updatesOf st.calls ++ [⟨f, st.filterBounds, n⟩])
    (hb : b = n ∨ n.intersect clip = some b)
    (hstage : StageOutput ext cache filterList ⟨f, st.filterBounds, n⟩) :
    NodeState.Chained ext cache filterList contentBounds clip
      ⟨st.filterNodes ++ [⟨f, b⟩], b, calls⟩ := by
  refine ⟨?_, ?_, ?_⟩
  · show UpdateChain clip contentBounds (updatesOf calls) (st.filterNodes ++ [⟨f, b⟩])
    rw [hcalls, h.2.1]
    exact UpdateChain.snoc clip _ _ _ f n b h.1 hb
  · show b = boundsBefore contentBounds (st.filterNodes ++ [(⟨f, b⟩ : FilterNode)])
      (st.filterNodes ++ [(⟨f, b⟩ : FilterNode)]).length
    rw [List.length_append, List.length_singleton, boundsBefore_snoc]
  · intro u hu
    change u ∈ updatesOf calls at hu
    rw [hcalls] at hu
    rcases List.mem_append.mp hu with hu | hu
    · exact h.2.2 u hu
    · rw [List.mem_singleton.mp hu]; exact hstage

theorem MakeEffectNode.loop_chained (ext : Externals) (cache : RenderCache)
    (filterList : FilterList) (contentBounds clip : Rect) (clipIndex : Int) :
    ∀ (effects : List Effect) (k : Int) (st : NodeState) (b : Bool) (st' : NodeState),
      (∀ e ∈ effects, e ∈ filterList.effects) →
      st.Chained ext cache filterList contentBounds clip →
      MakeEffectNode.loop cache clip filterList.layerFrame filterList.effectScale clipIndex
        effects k st = (b, st') →
      (b = true → st'.Chained ext cache filterList contentBounds clip) ∧
      (b = false → CallsLinked ext cache filterList contentBounds clip st'.calls) := by
  intro effects
  induction effects with
  | nil =>
    intro k st b st' _ hst h
    simp only [MakeEffectNode.loop, Prod.mk.injEq] at h
    obtain ⟨hb, hs⟩ := h
    subst hb hs
    exact ⟨fun _ => hst, fun hf => by cases hf⟩
  | cons e rest ih =>
    intro k st b st' hsub hst h
    have hrest : ∀ e' ∈ rest, e' ∈ filterList.effects :=
      fun e' he' => hsub e' (List.mem_cons_of_mem _ he')
    unfold MakeEffectNode.loop at h
    split at h
    · rename_i filter hf
      have hstage : StageOutput ext cache filterList
          ⟨filter, st.filterBounds,
            (e.transformBounds st.filterBounds filterList.effectScale
              filterList.layerFrame).roundOut⟩ :=
        Or.inl ⟨e, hsub e (List.mem_cons_self _ _), hf, rfl⟩
      simp only at h
      split at h
      · split at h
        · rename_i hc
          simp only [Prod.mk.injEq] at h
          obtain ⟨hb, hs⟩ := h
          subst hb hs
          refine ⟨fun hf' => (by cases hf'), fun _ => ?_⟩
          refine hst.abort _ filter _ ?_ hstage
          rw [updatesOf_append, updatesOf_effect_calls]
          simp [updatesOf, Call.asUpdate]
        · rename_i clipped hc
          refine ih _ _ _ _ hrest ?_ h
          refine hst.emit _ filter _ clipped ?_ (Or.inr hc) hstage
          rw [updatesOf_append, updatesOf_effect_calls]
          simp [updatesOf, Call.asUpdate]
      · refine ih _ _ _ _ hrest ?_ h
        exact hst.emit _ filter _ _ (updatesOf_effect_calls _ _ _ _ _ _ _) (Or.inl rfl) hstage
    · exact ih _ _ _ _ hrest hst h

theorem MakeMotionBlurNode_chained (ext : Externals) (cache : RenderCache)
    (filterList : FilterList) (contentBounds clip : Rect) (st : NodeState) (b : Bool)
    (st' : NodeState) (hst : st.Chained ext cache filterList contentBounds clip)
    (h : MakeMotionBlurNode ext cache clip filterList filterList.effectScale st = (b, st')) :
    (b = true → st'.Chained ext cache filterList contentBounds clip) ∧
    (b = false → CallsLinked ext cache filterList contentBounds clip st'.calls) := by
  unfold MakeMotionBlurNode at h
  split at h
  · split at h
    · rename_i filter hf
      have hstage : StageOutput ext cache filterList
          ⟨filter, st.filterBounds,
            (ext.MotionBlurTransformBounds st.filterBounds filterList.effectScale
              filterList.layer filterList.layerFrame).roundOut⟩ :=
        Or.inr (Or.inl ⟨hf, rfl⟩)
      split at h
      · simp only at h
        split at h
        · simp only [Prod.mk.injEq] at h
          obtain ⟨hb, hs⟩ := h
          subst hb hs
          refine ⟨fun hf' => (by cases hf'), fun _ => ?_⟩
          refine hst.abort _ filter _ ?_ hstage
          simp [updatesOf_append, updatesOf, Call.asUpdate]
        · rename_i clipped hc
          simp only [Prod.mk.injEq] at h
          obtain ⟨hb, hs⟩ := h
          subst hb hs
          refine ⟨fun _ => ?_, fun hf' => (by cases hf')⟩
          refine hst.emit _ filter _ clipped ?_ (Or.inr hc) hstage
          simp [updatesOf_append, updatesOf, Call.asUpdate]
      · simp only [Prod.mk.injEq] at h
        obtain ⟨hb, hs⟩ := h
        subst hb hs
        refine ⟨fun _ => ?_, fun hf' => (by cases hf')⟩
        have hu : updatesOf (st.calls ++ [Call.updateLayer filter]) = updatesOf st.calls := by
          simp [updatesOf_append, updatesOf, Call.asUpdate]
        exact ⟨by show UpdateChain _ _ (updatesOf (st.calls ++ _)) _; rw [hu]; exact hst.1,
          hst.2.1, fun u hu' => hst.2.2 u (by
            change u ∈ updatesOf (st.calls ++ [Call.updateLayer filter]) at hu'
            rw [hu] at hu'; exact hu')⟩
    · simp only [Prod.mk.injEq] at h
      obtain ⟨hb, hs⟩ := h
      subst hb hs
      exact ⟨fun _ => hst, fun hf' => (by cases hf')⟩
  · simp only [Prod.mk.injEq] at h
    obtain ⟨hb, hs⟩ := h
    subst hb hs
    exact ⟨fun _ => hst, fun hf' => (by cases hf')⟩

theorem MakeLayerStyleNode_chained (ext : Externals) (cache : RenderCache)
    (filterList : FilterList) (contentBounds clip : Rect) (st : NodeState) (b : Bool)
    (st' : NodeState) (hst : st.Chained ext cache filterList contentBounds clip)
    (h : MakeLayerStyleNode ext cache clip filterList st = (b, st')) :
    (b = true → st'.Chained ext cache filterList contentBounds clip) ∧
    (b = false → CallsLinked ext cache filterList contentBounds clip st'.calls) := by
  unfold MakeLayerStyleNode at h
  split at h
  · split at h
    · simp only [Prod.mk.injEq] at h
      obtain ⟨hb, hs⟩ := h
      subst hb hs
      exact ⟨fun hf' => (by cases hf'), fun _ => hst.callsLinked⟩
    · rename_i filter hf
      have hstage : StageOutput ext cache filterList
          ⟨filter, st.filterBounds,
            (ext.LayerStylesTransformBounds st.filterBounds filterList).roundOut⟩ :=
        Or.inr (Or.inr ⟨hf, rfl⟩)
      simp only at h
      split at h
      · simp only [Prod.mk.injEq] at h
        obtain ⟨hb, hs⟩ := h
        subst hb hs
        refine ⟨fun hf' => (by cases hf'), fun _ => ?_⟩
        refine hst.abort _ filter _ ?_ hstage
        simp [updatesOf_append, updatesOf, Call.asUpdate]
      · rename_i clipped hc
        simp only [Prod.mk.injEq] at h
        obtain ⟨hb, hs⟩ := h
        subst hb hs
        refine ⟨fun _ => ?_, fun hf' => (by cases hf')⟩
        refine hst.emit _ filter _ clipped ?_ (Or.inr hc) hstage
        simp [updatesOf_append, updatesOf, Call.asUpdate]
  · simp only [Prod.mk.injEq] at h
    obtain ⟨hb, hs⟩ := h
    subst hb hs
    exact ⟨fun _ => hst, fun hf' => (by cases hf')⟩

/-- What the three makers in sequence leave, started from a state that
satisfies the invariant. -/
theorem MakeFilterNodes.build_chained (ext : Externals) (cache : RenderCache)
    (filterList : FilterList) (clip : Rect) (clipIndex : Int) (entryBounds contentBounds : Rect)
    (st : NodeState) (hst : st.Chained ext cache filterList entryBounds clip) :
    CallsLinked ext cache filterList entryBounds clip
      (MakeFilterNodes.build ext cache filterList clip filterList.effectScale clipIndex
        contentBounds st).calls ∧
    ∀ (k : Nat) (node : FilterNode),
      (MakeFilterNodes.build ext cache filterList clip filterList.effectScale clipIndex
        contentBounds st).nodes[k]? = some node →
      ∃ u, (updatesOf (MakeFilterNodes.build ext cache filterList clip filterList.effectScale
          clipIndex contentBounds st).calls)[k]? = some u ∧
        u.filter = node.filter ∧
        u.oldBounds = boundsBefore entryBounds
          (MakeFilterNodes.build ext cache filterList clip filterList.effectScale clipIndex
            contentBounds st).nodes k ∧
        (node.bounds = u.newBounds ∨ u.newBounds.intersect clip = some node.bounds) := by
  rcases MakeFilterNodes.build_cases ext cache filterList clip filterList.effectScale clipIndex
    contentBounds st with ⟨st1, h1, hb⟩ | ⟨st1, st2, h1, h2, hb⟩ |
    ⟨st1, st2, st3, h1, h2, h3, hb⟩ | ⟨st1, st2, st3, h1, h2, h3, hb⟩
  · rw [hb]
    have c1 := MakeEffectNode.loop_chained ext cache filterList entryBounds clip clipIndex
      filterList.effects 0 st false st1 (fun _ he => he) hst h1
    exact ⟨c1.2 rfl, fun k node hk => by simp at hk⟩
  · rw [hb]
    have c1 := MakeEffectNode.loop_chained ext cache filterList entryBounds clip clipIndex
      filterList.effects 0 st true st1 (fun _ he => he) hst h1
    have c2 := MakeMotionBlurNode_chained ext cache filterList entryBounds clip st1 false st2
      (c1.1 rfl) h2
    exact ⟨c2.2 rfl, fun k node hk => by simp at hk⟩
  · rw [hb]
    have c1 := MakeEffectNode.loop_chained ext cache filterList entryBounds clip clipIndex
      filterList.effects 0 st true st1 (fun _ he => he) hst h1
    have c2 := MakeMotionBlurNode_chained ext cache filterList entryBounds clip st1 true st2
      (c1.1 rfl) h2
    have c3 := MakeLayerStyleNode_chained ext cache filterList entryBounds clip st2 false st3
      (c2.1 rfl) h3
    exact ⟨c3.2 rfl, fun k node hk => by simp at hk⟩
  · rw [hb]
    have c1 := MakeEffectNode.loop_chained ext cache filterList entryBounds clip clipIndex
      filterList.effects 0 st true st1 (fun _ he => he) hst h1
    have c2 := MakeMotionBlurNode_chained ext cache filterList entryBounds clip st1 true st2
      (c1.1 rfl) h2
    have c3 := MakeLayerStyleNode_chained ext cache filterList entryBounds clip st2 true st3
      (c2.1 rfl) h3
    have hch := c3.1 rfl
    exact ⟨hch.callsLinked, UpdateChain.node_index clip _ _ _ hch.1⟩

/-! ## Lemmas on the buffers a draw reads and writes -/

theorem ApplyState.Fresh.advance {st : ApplyState} (h : st.Fresh) (scale : Point)
    (node : FilterNode) (madeNew : Bool) (cur : FilterBuffer)
    (hcur : (madeNew = false ∧ st.freeBuffer = some cur) ∨
      (madeNew = true ∧ cur.uid = st.makeCount)) :
    (ApplyFilters.advance scale node st madeNew cur).Fresh := by
  rcases hcur with ⟨hm, hfree⟩ | ⟨hm, huid⟩
  · subst hm
    refine ⟨?_, ?_, ?_, ?_⟩
    · intro b hb
      exact h.2.1 b hb
    · intro b hb
      simp only [ApplyFilters.advance, Option.some.injEq] at hb
      subst hb
      exact h.1 cur hfree
    · intro fb lb hfb hlb
      simp only [ApplyFilters.advance, Option.some.injEq] at hlb
      subst hlb
      exact fun heq => h.2.2.1 cur fb hfree hfb heq.symm
    · intro b s hb
      simp only [ApplyFilters.advance, Option.some.injEq, FilterSource.ofBuffer.injEq] at hb
      simp [ApplyFilters.advance, hb.1]
  · subst hm
    refine ⟨?_, ?_, ?_, ?_⟩
    · intro b hb
      have := h.2.1 b hb
      simp only [ApplyFilters.advance, if_true]
      omega
    · intro b hb
      simp only [ApplyFilters.advance, Option.some.injEq] at hb
      subst hb
      simp only [ApplyFilters.advance, if_true]
      omega
    · intro fb lb hfb hlb
      simp only [ApplyFilters.advance, Option.some.injEq] at hlb
      subst hlb
      have := h.2.1 fb hfb
      omega
    · intro b s hb
      simp only [ApplyFilters.advance, Option.some.injEq, FilterSource.ofBuffer.injEq] at hb
      simp [ApplyFilters.advance, hb.1]

/-- C1: when the render cache resolves every filter of the list and no clip
intersection recorded by `MakeFilterNodes` is empty, the returned nodes carry,
in this order, the filter of every visible effect in the effects' order, then
the motion-blur filter (layer has motion blur and `updateLayer` succeeds), then
the layer-styles filter (some layer style is visible). -/
theorem MakeFilterNodes_order (ext : Externals) (filterList : FilterList) (cache : RenderCache)
    (contentBounds clipRect : Rect) (hres : AllResolved cache filterList)
    (hclip : NoEmptyClip (MakeFilterNodes ext filterList cache contentBounds clipRect).calls) :
    (MakeFilterNodes ext filterList cache contentBounds clipRect).nodes.map (fun n => n.filter) =
      filterList.effects.filterMap cache.getFilterCache ++
      motionBlurFilters cache filterList ++
      (if filterList.layerStyles.isEmpty then []
       else (cache.getLayerStylesFilter filterList.layer).toList) := by
  show _ = expectedFilters cache filterList
  rcases MakeFilterNodes_cases ext filterList cache contentBounds clipRect with
    ⟨_, hc, hm⟩ | ⟨_, clipped, hc, hm⟩ | ⟨_, hm⟩
  · rw [hm] at hclip
    have := hclip (Call.intersect _ _) (List.mem_singleton.mpr rfl)
    simp [Call.clipOk, hc] at this
  · rw [hm] at hclip ⊢
    exact MakeFilterNodes.build_filters _ _ _ _ _ _ _ _ hres rfl hclip
  · rw [hm] at hclip ⊢
    exact MakeFilterNodes.build_filters _ _ _ _ _ _ _ _ hres rfl hclip

/-- C1 at effects [E1, E2], motion blur enabled, layer style [S1]: the filters
of the returned nodes are exactly E1, E2, motion blur, layer styles. -/
theorem MakeFilterNodes_order_witness :
    AllResolved sampleCache orderExample ∧
    NoEmptyClip (MakeFilterNodes sampleExternals orderExample sampleCache ⟨0, 0, 100, 100⟩
      ⟨0, 0, 500, 500⟩).calls ∧
    (MakeFilterNodes sampleExternals orderExample sampleCache ⟨0, 0, 100, 100⟩
      ⟨0, 0, 500, 500⟩).nodes.map (fun n => n.filter) =
      [⟨1, false⟩, ⟨2, false⟩, ⟨100, false⟩, ⟨200, false⟩] :=
  ⟨by decide!, by decide!,
    (MakeFilterNodes_order sampleExternals orderExample sampleCache ⟨0, 0, 100, 100⟩
      ⟨0, 0, 500, 500⟩ (by decide!) (by decide!)).trans (by decide!)⟩

/-- C2: `clipIndex` is the index, in the visible-effects list, of the last effect
that is not visible-area-only, or -1 when there is none.  When nodes are
returned, the node of every effect the cache resolves, found after the nodes of
the resolved effects before it, carries the rounded-out transform of the bounds
before it, intersected with the clip rectangle when `clipIndex ≤ i` and not
intersected when `i < clipIndex`, where `i` is the index of the effect in the
visible-effects list (effects the cache does not resolve count for `i`); every
node after the effect nodes (motion blur, layer styles) is intersected with the
clip rectangle. -/
theorem MakeFilterNodes_clipIndex_rule (ext : Externals) (filterList : FilterList)
    (cache : RenderCache) (contentBounds clipRect : Rect)
    (hne : (MakeFilterNodes ext filterList cache contentBounds clipRect).nodes ≠ []) :
    ((findClipIndex filterList.effects filterList.effects.length = -1 ∧
        ∀ e ∈ filterList.effects, e.processVisibleAreaOnly = true) ∨
      ∃ i : Nat, findClipIndex filterList.effects filterList.effects.length = (i : Int) ∧
        (∃ e, filterList.effects[i]? = some e ∧ e.processVisibleAreaOnly = false) ∧
        ∀ (j : Nat) (e : Effect), i < j → filterList.effects[j]? = some e →
          e.processVisibleAreaOnly = true) ∧
    (∀ (i : Nat) (e : Effect) (f : Filter), filterList.effects[i]? = some e →
      cache.getFilterCache e = some f →
      ∃ b,
        (MakeFilterNodes ext filterList cache contentBounds clipRect).nodes[
          effectNodeIndex cache filterList.effects i]? = some ⟨f, b⟩ ∧
        (findClipIndex filterList.effects filterList.effects.length ≤ (i : Int) →
          (e.transformBounds
            (boundsBefore contentBounds
              (MakeFilterNodes ext filterList cache contentBounds clipRect).nodes
              (effectNodeIndex cache filterList.effects i))
            filterList.effectScale filterList.layerFrame).roundOut.intersect
              (MakeFilterNodes.clipBounds ext filterList clipRect) = some b) ∧
        ((i : Int) < findClipIndex filterList.effects filterList.effects.length →
          b = (e.transformBounds
            (boundsBefore contentBounds
              (MakeFilterNodes ext filterList cache contentBounds clipRect).nodes
              (effectNodeIndex cache filterList.effects i))
            filterList.effectScale filterList.layerFrame).roundOut)) ∧
    (∀ (j : Nat) (node : FilterNode),
      (filterList.effects.filterMap cache.getFilterCache).length ≤ j →
      (MakeFilterNodes ext filterList cache contentBounds clipRect).nodes[j]? = some node →
      (ext.MotionBlurTransformBounds
          (boundsBefore contentBounds
            (MakeFilterNodes ext filterList cache contentBounds clipRect).nodes j)
          filterList.effectScale filterList.layer filterList.layerFrame).roundOut.intersect
            (MakeFilterNodes.clipBounds ext filterList clipRect) = some node.bounds ∨
      (ext.LayerStylesTransformBounds
          (boundsBefore contentBounds
            (MakeFilterNodes ext filterList cache contentBounds clipRect).nodes j)
          filterList).roundOut.intersect
            (MakeFilterNodes.clipBounds ext filterList clipRect) = some node.bounds) := by
  obtain ⟨ns, mb, ls, hnodes, hchain, hmb, hls⟩ :=
    MakeFilterNodes_shape ext filterList cache contentBounds clipRect hne
  obtain ⟨hlen, hidx⟩ := EffectChain.index _ _ _ _ _ _ _ _ _ hchain
  rw [hnodes]
  refine ⟨?_, ?_, ?_⟩
  · rcases findClipIndex_spec filterList.effects filterList.effects.length (le_refl _) with
      ⟨h1, h2⟩ | ⟨i, hi, h1, h2, h3⟩
    · refine Or.inl ⟨h1, ?_⟩
      intro e he
      obtain ⟨j, hj⟩ := List.mem_iff_getElem?.mp he
      exact h2 j e (List.getElem?_eq_some_iff.mp hj).1 hj
    · exact Or.inr ⟨i, h1, h2, fun j e hij hj =>
        h3 j e hij (List.getElem?_eq_some_iff.mp hj).1 hj⟩
  · intro i e f he hf
    obtain ⟨b, hn, hc, hno⟩ := hidx i e f he hf
    have hi : effectNodeIndex cache filterList.effects i < ns.length :=
      (List.getElem?_eq_some_iff.mp hn).1
    have hbb : boundsBefore contentBounds (ns ++ mb ++ ls)
        (effectNodeIndex cache filterList.effects i) =
        boundsBefore contentBounds ns (effectNodeIndex cache filterList.effects i) := by
      rw [List.append_assoc]
      exact boundsBefore_append _ _ _ _ (Nat.le_of_lt hi)
    refine ⟨b, ?_, ?_, ?_⟩
    · rw [List.append_assoc, List.getElem?_append_left hi]; exact hn
    · intro h; rw [hbb]; exact hc (by simpa using h)
    · intro h; rw [hbb]; exact hno (by simpa using h)
  · intro i node hi hnode
    rw [← hlen] at hi
    have hmbCase : ∀ f b, mb = [⟨f, b⟩] → i = ns.length →
        boundsBefore contentBounds (ns ++ mb ++ ls) i = boundsBefore contentBounds ns ns.length ∧
          node = ⟨f, b⟩ := by
      intro f b hmbeq hieq
      subst hmbeq hieq
      refine ⟨?_, ?_⟩
      · rw [List.append_assoc]
        exact boundsBefore_append _ _ _ _ (le_refl _)
      · rw [List.append_assoc, List.getElem?_append_right (le_refl _)] at hnode
        simpa using hnode.symm
    rcases hmb with hmb0 | ⟨f, b, hmb1, hcm⟩
    · subst hmb0
      rcases hls with hls0 | ⟨g, c, hls1, hcl⟩
      · subst hls0
        rw [List.append_nil, List.append_nil, List.getElem?_eq_none hi] at hnode
        cases hnode
      · subst hls1
        simp only [List.append_nil] at hnode hcl ⊢
        rw [List.getElem?_append_right hi] at hnode
        have hieq : i = ns.length := by
          by_contra hne'
          have : 1 ≤ i - ns.length := by omega
          rw [List.getElem?_eq_none (by simpa using this)] at hnode
          cases hnode
        subst hieq
        simp only [Nat.sub_self, List.getElem?_cons_zero, Option.some.injEq] at hnode
        subst hnode
        right
        rw [boundsBefore_append _ _ _ _ (le_refl _)]
        exact hcl
    · by_cases hieq : i = ns.length
      · obtain ⟨hbb, hnd⟩ := hmbCase f b hmb1 hieq
        left
        rw [hbb, hnd]
        exact hcm
      · rcases hls with hls0 | ⟨g, c, hls1, hcl⟩
        · subst hls0 hmb1
          rw [List.append_nil, List.getElem?_eq_none (by simp; omega)] at hnode
          cases hnode
        · subst hls1 hmb1
          have hi2 : (ns ++ [(⟨f, b⟩ : FilterNode)]).length ≤ i := by simp; omega
          rw [List.getElem?_append_right hi2] at hnode
          have hieq2 : i = (ns ++ [(⟨f, b⟩ : FilterNode)]).length := by
            by_contra hne'
            have : 1 ≤ i - (ns ++ [(⟨f, b⟩ : FilterNode)]).length := by omega
            rw [List.getElem?_eq_none (by simpa using this)] at hnode
            cases hnode
          subst hieq2
          simp only [Nat.sub_self, List.getElem?_cons_zero, Option.some.injEq] at hnode
          subst hnode
          right
          rw [boundsBefore_append _ _ _ _ (le_refl _)]
          exact hcl

/-- C2 at effects [A (visible-area-only), B (not), C (visible-area-only)] with
content (0,0,100,100) and clip (0,0,50,50): `clipIndex` is 1, the node of A has
its rounded-out transformed bounds unclipped, the nodes of B and C are clipped.
With an unresolved effect S put before A, B and C, `clipIndex` is 2 and A,
whose effect index is 1 and whose node is the first, is still unclipped. -/
theorem MakeFilterNodes_clipIndex_rule_witness :
    findClipIndex clipIndexExample.effects clipIndexExample.effects.length = 1 ∧
    (MakeFilterNodes sampleExternals clipIndexExample sampleCache ⟨0, 0, 100, 100⟩
      ⟨0, 0, 50, 50⟩).nodes =
      [⟨⟨1, false⟩, ⟨-10, -10, 110, 110⟩⟩, ⟨⟨2, false⟩, ⟨0, 0, 50, 50⟩⟩,
       ⟨⟨3, false⟩, ⟨0, 0, 50, 50⟩⟩] ∧
    (outsetBounds 10 ⟨0, 0, 100, 100⟩).roundOut = ⟨-10, -10, 110, 110⟩ ∧
    findClipIndex skippedExample.effects skippedExample.effects.length = 2 ∧
    effectNodeIndex sampleCacheSkip skippedExample.effects 1 = 0 ∧
    (MakeFilterNodes sampleExternals skippedExample sampleCacheSkip ⟨0, 0, 100, 100⟩
      ⟨0, 0, 50, 50⟩).nodes =
      [⟨⟨2, false⟩, ⟨-10, -10, 110, 110⟩⟩, ⟨⟨3, false⟩, ⟨0, 0, 50, 50⟩⟩,
       ⟨⟨4, false⟩, ⟨0, 0, 50, 50⟩⟩] ∧
    (∃ b,
      (MakeFilterNodes sampleExternals skippedExample sampleCacheSkip ⟨0, 0, 100, 100⟩
        ⟨0, 0, 50, 50⟩).nodes[effectNodeIndex sampleCacheSkip skippedExample.effects 1]? =
          some ⟨⟨2, false⟩, b⟩ ∧
      (findClipIndex skippedExample.effects skippedExample.effects.length ≤ ((1 : Nat) : Int) →
        ((sampleEffect 2 true (outsetBounds 10)).transformBounds
          (boundsBefore ⟨0, 0, 100, 100⟩
            (MakeFilterNodes sampleExternals skippedExample sampleCacheSkip ⟨0, 0, 100, 100⟩
              ⟨0, 0, 50, 50⟩).nodes (effectNodeIndex sampleCacheSkip skippedExample.effects 1))
          skippedExample.effectScale skippedExample.layerFrame).roundOut.intersect
            (MakeFilterNodes.clipBounds sampleExternals skippedExample ⟨0, 0, 50, 50⟩)
              = some b) ∧
      (((1 : Nat) : Int) < findClipIndex skippedExample.effects skippedExample.effects.length →
        b = ((sampleEffect 2 true (outsetBounds 10)).transformBounds
          (boundsBefore ⟨0, 0, 100, 100⟩
            (MakeFilterNodes sampleExternals skippedExample sampleCacheSkip ⟨0, 0, 100, 100⟩
              ⟨0, 0, 50, 50⟩).nodes (effectNodeIndex sampleCacheSkip skippedExample.effects 1))
          skippedExample.effectScale skippedExample.layerFrame).roundOut)) :=
  ⟨by decide!, by decide!, by decide!, by decide!, by decide!, by decide!,
    (MakeFilterNodes_clipIndex_rule sampleExternals skippedExample sampleCacheSkip
      ⟨0, 0, 100, 100⟩ ⟨0, 0, 50, 50⟩ (by decide!)).2.1 1
      (sampleEffect 2 true (outsetBounds 10)) ⟨2, false⟩ rfl rfl⟩

/-- C3: if any clip intersection recorded by `MakeFilterNodes` (the receiver is
the bounds of an effect node with index at least `clipIndex`, of the motion-blur
node, of the layer-styles node, or the content bounds) is empty, the function
returns the empty sequence, whatever nodes were built before. -/
theorem MakeFilterNodes_empty_clip (ext : Externals) (filterList : FilterList)
    (cache : RenderCache) (contentBounds clipRect bounds clip : Rect)
    (hcall : Call.intersect bounds clip ∈
      (MakeFilterNodes ext filterList cache contentBounds clipRect).calls)
    (hempty : bounds.intersect clip = none) :
    (MakeFilterNodes ext filterList cache contentBounds clipRect).nodes = [] := by
  by_contra hne
  have hok : NoEmptyClip (MakeFilterNodes ext filterList cache contentBounds clipRect).calls := by
    rcases MakeFilterNodes_cases ext filterList cache contentBounds clipRect with
      ⟨_, _, hm⟩ | ⟨_, clipped, hc, hm⟩ | ⟨_, hm⟩
    · rw [hm] at hne; exact absurd rfl hne
    · rw [hm] at hne ⊢
      refine MakeFilterNodes.build_noEmptyClip _ _ _ _ _ _ _ _ ?_ hne
      intro c hc'
      rw [List.mem_singleton.mp hc']
      simp [Call.clipOk, hc]
    · rw [hm] at hne ⊢
      exact MakeFilterNodes.build_noEmptyClip _ _ _ _ _ _ _ _ NoEmptyClip.nil hne
  have := hok _ hcall
  simp [Call.clipOk, hempty] at this

/-- C3 at two effects with `clipIndex = 1`: the first effect's node is built
unclipped, the second effect's bounds miss the clip, and nothing is returned. -/
theorem MakeFilterNodes_empty_clip_witness :
    (MakeEffectNode sampleCache ⟨0, 0, 50, 50⟩ abortExample ⟨1, 1⟩ 1
      ⟨[], ⟨0, 0, 100, 100⟩, []⟩).2.filterNodes = [⟨⟨1, false⟩, ⟨-10, -10, 110, 110⟩⟩] ∧
    Call.intersect ⟨190, 190, 310, 310⟩ ⟨0, 0, 50, 50⟩ ∈
      (MakeFilterNodes sampleExternals abortExample sampleCache ⟨0, 0, 100, 100⟩
        ⟨0, 0, 50, 50⟩).calls ∧
    Rect.intersect ⟨190, 190, 310, 310⟩ ⟨0, 0, 50, 50⟩ = none ∧
    (MakeFilterNodes sampleExternals abortExample sampleCache ⟨0, 0, 100, 100⟩
      ⟨0, 0, 50, 50⟩).nodes = [] :=
  ⟨by decide!, by decide!, by decide!,
    MakeFilterNodes_empty_clip sampleExternals abortExample sampleCache ⟨0, 0, 100, 100⟩
      ⟨0, 0, 50, 50⟩ ⟨190, 190, 310, 310⟩ ⟨0, 0, 50, 50⟩ (by decide!) (by decide!)⟩

/-- C4, evaluated where the cache resolves the effect but not the layer styles:
no clip intersection is empty, yet `MakeFilterNodes` returns the empty sequence
instead of the effect's node; with the layer styles resolved the same input
gives the effect's node followed by the layer-styles node. -/
theorem MakeFilterNodes_unresolved_layerStyles :
    (MakeFilterNodes sampleExternals styleExample sampleCacheNoStyles ⟨0, 0, 100, 100⟩
      ⟨0, 0, 500, 500⟩).nodes = [] ∧
    NoEmptyClip (MakeFilterNodes sampleExternals styleExample sampleCacheNoStyles
      ⟨0, 0, 100, 100⟩ ⟨0, 0, 500, 500⟩).calls ∧
    (MakeEffectNode sampleCacheNoStyles ⟨0, 0, 500, 500⟩ styleExample ⟨1, 1⟩ (-1)
      ⟨[], ⟨0, 0, 100, 100⟩, []⟩) =
      (true, ⟨[⟨⟨1, false⟩, ⟨0, 0, 110, 110⟩⟩], ⟨0, 0, 110, 110⟩,
        [Call.update ⟨1, false⟩ ⟨0, 0, 100, 100⟩ ⟨-10, -10, 110, 110⟩ ⟨1, 1⟩,
         Call.intersect ⟨-10, -10, 110, 110⟩ ⟨0, 0, 500, 500⟩]⟩) ∧
    (MakeFilterNodes sampleExternals styleExample sampleCache ⟨0, 0, 100, 100⟩
      ⟨0, 0, 500, 500⟩).nodes =
      [⟨⟨1, false⟩, ⟨0, 0, 110, 110⟩⟩, ⟨⟨200, false⟩, ⟨0, 0, 112, 112⟩⟩] := by
  refine ⟨by decide!, by decide!, by decide!, by decide!⟩

/-- C5: content bounds (0,0,100,100), a single resolved effect whose bounds
transform grows the rectangle by ten on every side, no motion blur, no layer
styles, clip (0,0,50,50): `MakeFilterNodes` returns exactly one node, with
bounds (0,0,50,50). -/
theorem MakeFilterNodes_clip_example (ext : Externals) (filterList : FilterList)
    (cache : RenderCache) (e : Effect) (f : Filter)
    (heff : filterList.effects = [e])
    (hexp : ∀ r s t, e.transformBounds r s t = outsetBounds 10 r)
    (hres : cache.getFilterCache e = some f)
    (hmb : filterList.layer.motionBlur = false)
    (hls : filterList.layerStyles = []) :
    (MakeFilterNodes ext filterList cache ⟨0, 0, 100, 100⟩ ⟨0, 0, 50, 50⟩).nodes =
      [⟨f, ⟨0, 0, 50, 50⟩⟩] := by
  have hround : (outsetBounds 10 ⟨0, 0, 100, 100⟩).roundOut = ⟨-10, -10, 110, 110⟩ := by decide!
  have hclip : Rect.intersect ⟨-10, -10, 110, 110⟩ ⟨0, 0, 50, 50⟩ = some ⟨0, 0, 50, 50⟩ := by
    decide!
  have hcontent : Rect.intersect ⟨0, 0, 100, 100⟩ ⟨0, 0, 50, 50⟩ = some ⟨0, 0, 50, 50⟩ := by
    decide!
  cases hp : e.processVisibleAreaOnly
  · simp [MakeFilterNodes, MakeFilterNodes.clipBounds, MakeFilterNodes.build, MakeEffectNode,
      MakeEffectNode.loop, MakeMotionBlurNode, MakeLayerStyleNode, findClipIndex, heff, hexp,
      hres, hmb, hls, hp, hround, hclip]
  · simp [MakeFilterNodes, MakeFilterNodes.clipBounds, MakeFilterNodes.build, MakeEffectNode,
      MakeEffectNode.loop, MakeMotionBlurNode, MakeLayerStyleNode, findClipIndex, heff, hexp,
      hres, hmb, hls, hp, hround, hclip, hcontent]

/-- C5 at the sample effect, resolved to filter 1, both when it is and when it
is not visible-area-only. -/
theorem MakeFilterNodes_clip_example_witness :
    (MakeFilterNodes sampleExternals (clipExample true) sampleCache ⟨0, 0, 100, 100⟩
      ⟨0, 0, 50, 50⟩).nodes = [⟨⟨1, false⟩, ⟨0, 0, 50, 50⟩⟩] ∧
    (MakeFilterNodes sampleExternals (clipExample false) sampleCache ⟨0, 0, 100, 100⟩
      ⟨0, 0, 50, 50⟩).nodes = [⟨⟨1, false⟩, ⟨0, 0, 50, 50⟩⟩] :=
  ⟨MakeFilterNodes_clip_example sampleExternals (clipExample true) sampleCache
      (sampleEffect 1 true (outsetBounds 10)) ⟨1, false⟩ rfl (fun _ _ _ => rfl) rfl rfl rfl,
    MakeFilterNodes_clip_example sampleExternals (clipExample false) sampleCache
      (sampleEffect 1 false (outsetBounds 10)) ⟨1, false⟩ rfl (fun _ _ _ => rfl) rfl rfl rfl⟩

/-! ## Properties of the filter-list builder -/

/-- C6 as stated fails: a solid layer whose only effect is hidden at the frame
and is not visible-area-only gets `processVisibleAreaOnly = false`, although
every effect visible at the frame (there is none) is visible-area-only. -/
theorem MakeFilterList_processVisibleAreaOnly_hidden :
    ¬ ((MakeFilterList sampleExternals hiddenEffectSolid).processVisibleAreaOnly = true ↔
        ∀ e ∈ hiddenEffectSolid.layer.effects,
          e.visibleAt hiddenEffectSolid.layerFrame = true → e.processVisibleAreaOnly = true) := by
  decide!

/-- C6, amended: the `processVisibleAreaOnly` flag of the built list is true
exactly when every effect of the layer, visible at the frame or not, reports
`processVisibleAreaOnly() = true`. -/
theorem MakeFilterList_processVisibleAreaOnly (ext : Externals) (modifier : FilterModifier) :
    (MakeFilterList ext modifier).processVisibleAreaOnly = true ↔
      ∀ e ∈ modifier.layer.effects, e.processVisibleAreaOnly = true := by
  show DoesProcessVisibleAreaOnly modifier.layer = true ↔ _
  exact DoesProcessVisibleAreaOnly.loop_eq_true modifier.layer.effects

/-- C7 as stated fails: a shape layer whose only effect is hidden at the frame
and is not visible-area-only gets `useParentSizeInput = true`, although no
effect visible at the frame is other than visible-area-only. -/
theorem MakeFilterList_useParentSizeInput_hidden :
    ¬ ((MakeFilterList sampleExternals hiddenEffectShape).useParentSizeInput = true ↔
        ((∃ e ∈ hiddenEffectShape.layer.effects,
            e.visibleAt hiddenEffectShape.layerFrame = true ∧ e.processVisibleAreaOnly = false) ∧
          (hiddenEffectShape.layer.type = LayerType.Shape ∨
            hiddenEffectShape.layer.type = LayerType.Text))) := by
  decide!

/-- C7, amended: the `useParentSizeInput` flag of the built list is true exactly
when some effect of the layer, visible at the frame or not, is not
visible-area-only and the layer's type is Shape or Text. -/
theorem MakeFilterList_useParentSizeInput (ext : Externals) (modifier : FilterModifier) :
    (MakeFilterList ext modifier).useParentSizeInput = true ↔
      ((∃ e ∈ modifier.layer.effects, e.processVisibleAreaOnly = false) ∧
        (modifier.layer.type = LayerType.Shape ∨ modifier.layer.type = LayerType.Text)) := by
  show (!DoesProcessVisibleAreaOnly modifier.layer &&
    (!modifier.layer.effects.isEmpty &&
      (modifier.layer.type == LayerType.Shape || modifier.layer.type == LayerType.Text))) = true ↔ _
  have hloop := DoesProcessVisibleAreaOnly.loop_eq_true modifier.layer.effects
  simp only [Bool.and_eq_true, Bool.not_eq_true', Bool.or_eq_true, beq_iff_eq]
  constructor
  · rintro ⟨hp, _, hty⟩
    refine ⟨?_, hty⟩
    by_contra hall
    have : DoesProcessVisibleAreaOnly.loop modifier.layer.effects = true := by
      rw [hloop]
      intro e he
      by_contra hne
      exact hall ⟨e, he, by simpa using hne⟩
    have hp' : DoesProcessVisibleAreaOnly.loop modifier.layer.effects = false := hp
    rw [this] at hp'
    exact Bool.noConfusion hp'
  · rintro ⟨⟨e, he, hpe⟩, hty⟩
    refine ⟨?_, ?_, hty⟩
    · show DoesProcessVisibleAreaOnly.loop modifier.layer.effects = false
      by_contra hne
      have := hloop.mp (by simpa using hne) e he
      rw [hpe] at this
      exact Bool.noConfusion this
    · cases hl : modifier.layer.effects with
      | nil => rw [hl] at he; cases he
      | cons _ _ => rfl

/-- C8: the effects of the built list are exactly the effects of the layer that
are visible at the frame, in their original order, and its layer styles are
exactly the layer styles of the layer visible at the frame, in their original
order; both are sub-sequences of the layer's lists. -/
theorem MakeFilterList_visible (ext : Externals) (modifier : FilterModifier) :
    (MakeFilterList ext modifier).effects =
        modifier.layer.effects.filter (fun e => e.visibleAt modifier.layerFrame) ∧
      (MakeFilterList ext modifier).layerStyles =
        modifier.layer.layerStyles.filter (fun s => s.visibleAt modifier.layerFrame) ∧
      List.Sublist (MakeFilterList ext modifier).effects modifier.layer.effects ∧
      List.Sublist (MakeFilterList ext modifier).layerStyles modifier.layer.layerStyles := by
  have he : (MakeFilterList ext modifier).effects =
      modifier.layer.effects.filter (fun e => e.visibleAt modifier.layerFrame) := by
    show pushVisibleEffects modifier.layerFrame modifier.layer.effects [] = _
    rw [pushVisibleEffects_eq]; rfl
  have hs : (MakeFilterList ext modifier).layerStyles =
      modifier.layer.layerStyles.filter (fun s => s.visibleAt modifier.layerFrame) := by
    show pushVisibleLayerStyles modifier.layerFrame modifier.layer.layerStyles [] = _
    rw [pushVisibleLayerStyles_eq]; rfl
  refine ⟨he, hs, ?_, ?_⟩
  · rw [he]; exact List.filter_sublist _
  · rw [hs]; exact List.filter_sublist _

/-! ## Properties of the bounds propagation -/

/-- C9, evaluated on a layer with motion blur, no effect and no layer style:
`TransformFilterBounds` returns the motion-blur transform of (0,0,1,1) as it
is, with fractional edges, while `MakeFilterNodes` rounds the same stage out to
(-1,-1,2,2). -/
theorem TransformFilterBounds_motionBlur_fractional :
    TransformFilterBounds sampleExternals ⟨0, 0, 1, 1⟩ motionBlurOnly =
      ⟨-1 / 10, -1 / 10, 11 / 10, 11 / 10⟩ ∧
    ¬ (TransformFilterBounds sampleExternals ⟨0, 0, 1, 1⟩ motionBlurOnly).IsIntegral ∧
    (MakeFilterNodes sampleExternals motionBlurOnly sampleCache ⟨0, 0, 1, 1⟩
      ⟨-100, -100, 100, 100⟩).nodes = [⟨⟨100, false⟩, ⟨-1, -1, 2, 2⟩⟩] := by
  have h : TransformFilterBounds sampleExternals ⟨0, 0, 1, 1⟩ motionBlurOnly =
      ⟨-1 / 10, -1 / 10, 11 / 10, 11 / 10⟩ := by decide!
  refine ⟨h, ?_, by decide!⟩
  rw [h]
  rintro ⟨⟨n, hn⟩, _⟩
  have h10 : ((n * 10 : ℤ) : ℚ) = ((-1 : ℤ) : ℚ) := by
    push_cast
    rw [← hn]
    norm_num
  have : n * 10 = -1 := by exact_mod_cast h10
  omega

/-! ## Properties of the compositor -/

/-- C10, evaluated on four nodes of sizes 10x10, 20x20, 20x20, 20x20 at scale
one: the third node needs a 20 by 20 buffer, yet it is drawn into the reused
buffer 0, which was created 10 by 10 for the first node. -/
theorem ApplyFilters_reuse_mismatch :
    (ApplyFilters (fun _ => true) reuseExample ⟨0, 0, 10, 10⟩ ⟨1, 1⟩).calls =
      [DrawCall.make 10 10 false true,
       DrawCall.clearColor ⟨0, 10, 10, false⟩,
       DrawCall.draw ⟨1, false⟩ FilterSource.content
         (FilterTarget.ofBuffer ⟨0, 10, 10, false⟩ 0 0),
       DrawCall.resolve ⟨0, 10, 10, false⟩,
       DrawCall.make 20 20 false true,
       DrawCall.clearColor ⟨1, 20, 20, false⟩,
       DrawCall.draw ⟨2, false⟩ (FilterSource.ofBuffer ⟨0, 10, 10, false⟩ ⟨1, 1⟩)
         (FilterTarget.ofBuffer ⟨1, 20, 20, false⟩ 0 0),
       DrawCall.resolve ⟨1, 20, 20, false⟩,
       DrawCall.clearColor ⟨0, 10, 10, false⟩,
       DrawCall.draw ⟨3, false⟩ (FilterSource.ofBuffer ⟨1, 20, 20, false⟩ ⟨1, 1⟩)
         (FilterTarget.ofBuffer ⟨0, 10, 10, false⟩ 0 0),
       DrawCall.resolve ⟨0, 10, 10, false⟩,
       DrawCall.draw ⟨4, false⟩ (FilterSource.ofBuffer ⟨0, 10, 10, false⟩ ⟨1, 1⟩)
         FilterTarget.final] ∧
    (⌈(Rect.width ⟨0, 0, 20, 20⟩) * 1⌉ = 20 ∧ ⌈(Rect.height ⟨0, 0, 20, 20⟩) * 1⌉ = 20) := by
  refine ⟨by decide!, by decide!, by decide!⟩

/-! ## Properties of the target selection and of the fast-blur policy -/

/-- C14: for a non-empty node sequence `GetDirectFilterTarget` returns null
exactly when the last visible effect is a FastBlur effect, or the last node's
filter needs MSAA, or the canvas reports a complex paint for the content bounds
propagated through `TransformFilterBounds`, or the canvas matrix has a non-zero
skew; otherwise it returns a target on the surface of the destination canvas. -/
theorem GetDirectFilterTarget_null_iff (ext : Externals) (parentCanvas : Canvas)
    (filterList : FilterList) (filterNodes : List FilterNode) (contentBounds : Rect)
    (sourceScale : Point) (hne : filterNodes ≠ []) :
    (GetDirectFilterTarget ext parentCanvas filterList filterNodes contentBounds sourceScale
        = none ↔
      ((∃ e, filterList.effects.getLast? = some e ∧ e.type = EffectType.FastBlur) ∨
        (filterNodes.getLast hne).filter.needsMSAA = true ∨
        parentCanvas.hasComplexPaint (TransformFilterBounds ext contentBounds filterList)
          ≠ PaintKind.None ∨
        parentCanvas.matrix.skewX ≠ 0 ∨ parentCanvas.matrix.skewY ≠ 0)) ∧
    (GetDirectFilterTarget ext parentCanvas filterList filterNodes contentBounds sourceScale
        ≠ none →
      ∃ matrix, GetDirectFilterTarget ext parentCanvas filterList filterNodes contentBounds
        sourceScale = some ⟨parentCanvas.surface, matrix⟩) := by
  have hlast : filterNodes.getLast? = some (filterNodes.getLast hne) :=
    List.getLast?_eq_getLast _ hne
  have hafter :
      (GetDirectFilterTarget.afterBlur ext parentCanvas filterList filterNodes contentBounds
          sourceScale = none ↔
        ((filterNodes.getLast hne).filter.needsMSAA = true ∨
          parentCanvas.hasComplexPaint (TransformFilterBounds ext contentBounds filterList)
            ≠ PaintKind.None ∨
          parentCanvas.matrix.skewX ≠ 0 ∨ parentCanvas.matrix.skewY ≠ 0)) ∧
      (GetDirectFilterTarget.afterBlur ext parentCanvas filterList filterNodes contentBounds
          sourceScale ≠ none →
        ∃ matrix, GetDirectFilterTarget.afterBlur ext parentCanvas filterList filterNodes
          contentBounds sourceScale = some ⟨parentCanvas.surface, matrix⟩) := by
    unfold GetDirectFilterTarget.afterBlur
    rw [hlast]
    simp only
    by_cases h1 : (filterNodes.getLast hne).filter.needsMSAA = true
    · simp [h1]
    · by_cases h2 : parentCanvas.hasComplexPaint
          (TransformFilterBounds ext contentBounds filterList) = PaintKind.None
      · by_cases h3 : parentCanvas.matrix.skewX ≠ 0 ∨ parentCanvas.matrix.skewY ≠ 0
        · simp [h1, h2, h3]
        · simp only [h1, h2, h3, ToFilterTarget]
          simp
      · simp [h1, h2]
  unfold GetDirectFilterTarget
  rcases he : filterList.effects.getLast? with _ | e
  · simp only
    constructor
    · rw [hafter.1]
      constructor
      · intro h; exact Or.inr h
      · rintro (⟨e, he', _⟩ | h)
        · cases he'
        · exact h
    · exact hafter.2
  · simp only
    by_cases ht : e.type = EffectType.FastBlur
    · simp [ht]
    · simp only [ht, if_false]
      constructor
      · rw [hafter.1]
        constructor
        · intro h; exact Or.inr h
        · rintro (⟨e', he', ht'⟩ | h)
          · cases he'
            exact absurd ht' ht
          · exact h
      · exact hafter.2

/-- C14 at one node without MSAA on the sample canvas: with a FastBlur effect
last the target is refused, and the stated equivalence holds. -/
theorem GetDirectFilterTarget_null_iff_witness :
    GetDirectFilterTarget sampleExternals sampleCanvas twoBlursExample
      [⟨⟨1, false⟩, ⟨0, 0, 10, 10⟩⟩] ⟨0, 0, 10, 10⟩ ⟨1, 1⟩ = none ∧
    GetDirectFilterTarget sampleExternals sampleCanvas orderExample
      [⟨⟨1, false⟩, ⟨0, 0, 10, 10⟩⟩] ⟨0, 0, 10, 10⟩ ⟨1, 1⟩ = some ⟨7, Matrix.I⟩ ∧
    (GetDirectFilterTarget sampleExternals sampleCanvas twoBlursExample
        [⟨⟨1, false⟩, ⟨0, 0, 10, 10⟩⟩] ⟨0, 0, 10, 10⟩ ⟨1, 1⟩ = none ↔
      ((∃ e, twoBlursExample.effects.getLast? = some e ∧ e.type = EffectType.FastBlur) ∨
        (([⟨⟨1, false⟩, ⟨0, 0, 10, 10⟩⟩] : List FilterNode).getLast
          (List.cons_ne_nil _ _)).filter.needsMSAA = true ∨
        sampleCanvas.hasComplexPaint
          (TransformFilterBounds sampleExternals ⟨0, 0, 10, 10⟩ twoBlursExample)
          ≠ PaintKind.None ∨
        sampleCanvas.matrix.skewX ≠ 0 ∨ sampleCanvas.matrix.skewY ≠ 0)) :=
  ⟨by decide!, by decide!,
    (GetDirectFilterTarget_null_iff sampleExternals sampleCanvas twoBlursExample
      [⟨⟨1, false⟩, ⟨0, 0, 10, 10⟩⟩] ⟨0, 0, 10, 10⟩ ⟨1, 1⟩ (List.cons_ne_nil _ _)).1⟩

/-- C15 as stated fails: with an animated FastBlur effect first and a FastBlur
effect that is not animated after it, `ProcessFastBlur` leaves
`scaleFactorLimit` as it was, not at one tenth. -/
theorem ProcessFastBlur_second_blur_ignored :
    (twoBlursExample.effects.map (fun e => (e.type, e.blurrinessAnimatable)) =
      [(EffectType.FastBlur, true), (EffectType.FastBlur, false)]) ∧
    (ProcessFastBlur twoBlursExample).scaleFactorLimit = twoBlursExample.scaleFactorLimit ∧
    (ProcessFastBlur twoBlursExample).scaleFactorLimit ≠ 1 / 10 := by
  refine ⟨by decide!, by decide!, by decide!⟩

/-- C15, amended: `ProcessFastBlur` looks at the first FastBlur effect of the
list only; when its blurriness is not animatable `scaleFactorLimit` becomes one
tenth, and when there is no FastBlur effect or the first one is animatable
`scaleFactorLimit` is left unchanged.  In particular a list without a FastBlur
effect that is not animated keeps its `scaleFactorLimit`. -/
theorem ProcessFastBlur_first_blur (filterList : FilterList) :
    (ProcessFastBlur filterList).scaleFactorLimit =
      (match filterList.effects.find? (fun e => decide (e.type = EffectType.FastBlur)) with
       | some e => if e.blurrinessAnimatable then filterList.scaleFactorLimit else 1 / 10
       | none => filterList.scaleFactorLimit) ∧
    ((∀ e ∈ filterList.effects, e.type = EffectType.FastBlur → e.blurrinessAnimatable = true) →
      (ProcessFastBlur filterList).scaleFactorLimit = filterList.scaleFactorLimit) := by
  have h := ProcessFastBlur.loop_eq filterList.scaleFactorLimit filterList.effects
  refine ⟨h, ?_⟩
  intro hall
  show ProcessFastBlur.loop filterList.scaleFactorLimit filterList.effects = _
  rw [h]
  rcases hf : filterList.effects.find? (fun e => decide (e.type = EffectType.FastBlur))
    with _ | e
  · rw [hf]
  · have hmem := List.mem_of_find?_eq_some hf
    have hty : e.type = EffectType.FastBlur := by
      have := List.find?_some hf
      simpa using this
    rw [hf]
    simp [hall e hmem hty]

/-! ## Frame effect of the node sequencer on the content bounds -/

/-- C17 as stated fails: with one effect, no motion blur and the clip rectangle
(0.5, 0.5, 50.5, 50.5), the returned node has the clip rectangle as bounds,
whose edges are not integers. -/
theorem MakeFilterNodes_fractional_clip :
    (MakeFilterNodes sampleExternals (clipExample true) sampleCache ⟨0, 0, 100, 100⟩
      fractionalClip).nodes = [⟨⟨1, false⟩, ⟨1 / 2, 1 / 2, 101 / 2, 101 / 2⟩⟩] ∧
    ¬ (∀ node ∈ (MakeFilterNodes sampleExternals (clipExample true) sampleCache
        ⟨0, 0, 100, 100⟩ fractionalClip).nodes, node.bounds.IsIntegral) := by
  have h : (MakeFilterNodes sampleExternals (clipExample true) sampleCache ⟨0, 0, 100, 100⟩
      fractionalClip).nodes = [⟨⟨1, false⟩, ⟨1 / 2, 1 / 2, 101 / 2, 101 / 2⟩⟩] := by decide!
  refine ⟨h, ?_⟩
  rw [h]
  intro hall
  obtain ⟨⟨n, hn⟩, _⟩ := hall _ (List.mem_singleton.mpr rfl)
  have h2 : ((n * 2 : ℤ) : ℚ) = ((1 : ℤ) : ℚ) := by
    push_cast
    rw [← hn]
    norm_num
  have : n * 2 = 1 := by exact_mod_cast h2
  omega

/-- C17, amended: when the layer has motion blur (the working clip is then
rounded out) or the clip rectangle passed in has integer edges, every node
returned by `MakeFilterNodes` has integer-aligned bounds, for every content
bounds and every choice of bounds transforms. -/
theorem MakeFilterNodes_isIntegral (ext : Externals) (filterList : FilterList)
    (cache : RenderCache) (contentBounds clipRect : Rect)
    (hclip : filterList.layer.motionBlur = true ∨ clipRect.IsIntegral) :
    ∀ node ∈ (MakeFilterNodes ext filterList cache contentBounds clipRect).nodes,
      node.bounds.IsIntegral := by
  intro node hnode
  have hne : (MakeFilterNodes ext filterList cache contentBounds clipRect).nodes ≠ [] :=
    List.ne_nil_of_mem hnode
  have hci := MakeFilterNodes.clipBounds_isIntegral ext filterList clipRect hclip
  obtain ⟨calls0, st1, st2, st3, h1, h2, h3, hn⟩ :=
    MakeFilterNodes_run ext filterList cache contentBounds clipRect hne
  rw [hn] at hnode
  have i1 : ∀ n ∈ st1.filterNodes, n.bounds.IsIntegral :=
    MakeEffectNode.loop_isIntegral _ _ _ _ _ hci _ _ _ _ (fun n hn' => by cases hn') h1
  have i2 : ∀ n ∈ st2.filterNodes, n.bounds.IsIntegral := by
    rcases MakeMotionBlurNode_nodes _ _ _ _ _ _ _ h2 with ⟨hn2, _⟩ | ⟨f, b, hn2, _, hc⟩
    · rw [hn2]; exact i1
    · rw [hn2]
      intro n hn'
      rcases List.mem_append.mp hn' with hn' | hn'
      · exact i1 n hn'
      · rw [List.mem_singleton.mp hn']
        exact Rect.intersect_isIntegral _ _ _ (Rect.roundOut_isIntegral _) hci hc
  rcases MakeLayerStyleNode_nodes _ _ _ _ _ _ h3 with ⟨hn3, _⟩ | ⟨f, b, hn3, _, hc⟩
  · rw [hn3] at hnode; exact i2 node hnode
  · rw [hn3] at hnode
    rcases List.mem_append.mp hnode with hn' | hn'
    · exact i2 node hn'
    · rw [List.mem_singleton.mp hn']
      exact Rect.intersect_isIntegral _ _ _ (Rect.roundOut_isIntegral _) hci hc

/-- C17, amended, at one effect with content (0,0,100,100) and the integer
clip (0,0,50,50): the returned node (0,0,50,50) is integer-aligned. -/
theorem MakeFilterNodes_isIntegral_witness :
    (MakeFilterNodes sampleExternals (clipExample true) sampleCache ⟨0, 0, 100, 100⟩
      ⟨0, 0, 50, 50⟩).nodes = [⟨⟨1, false⟩, ⟨0, 0, 50, 50⟩⟩] ∧
    ∀ node ∈ (MakeFilterNodes sampleExternals (clipExample true) sampleCache ⟨0, 0, 100, 100⟩
      ⟨0, 0, 50, 50⟩).nodes, node.bounds.IsIntegral :=
  ⟨by decide!,
    MakeFilterNodes_isIntegral sampleExternals (clipExample true) sampleCache ⟨0, 0, 100, 100⟩
      ⟨0, 0, 50, 50⟩
      (Or.inr ⟨⟨0, by norm_num⟩, ⟨0, by norm_num⟩, ⟨50, by norm_num⟩, ⟨50, by norm_num⟩⟩)⟩

/-! ## Properties of the compositor run -/

/-- C12 as stated fails: with three nodes and the second `FilterBuffer::Make`
failing, the first node has already been drawn into its buffer when
`ApplyFilters` returns, so a filter draw call was issued. -/
theorem ApplyFilters_partial_draw :
    (ApplyFilters secondMakeFails threeEqualNodes ⟨0, 0, 10, 10⟩ ⟨1, 1⟩).calls =
      [DrawCall.make 10 10 false true,
       DrawCall.clearColor ⟨0, 10, 10, false⟩,
       DrawCall.draw ⟨1, false⟩ FilterSource.content
         (FilterTarget.ofBuffer ⟨0, 10, 10, false⟩ 0 0),
       DrawCall.resolve ⟨0, 10, 10, false⟩,
       DrawCall.make 10 10 false false] ∧
    drawsOf (ApplyFilters secondMakeFails threeEqualNodes ⟨0, 0, 10, 10⟩ ⟨1, 1⟩).calls ≠ [] := by
  refine ⟨by decide!, by decide!⟩

/-- C12, amended: if a `FilterBuffer::Make` call of `ApplyFilters` fails, that
call is the last thing `ApplyFilters` does, no earlier `Make` failed, and no
filter is ever drawn into the final target; the draws made before went into
intermediate buffers. -/
theorem ApplyFilters_failed_make (makeOk : Nat → Bool) (filterNodes : List FilterNode)
    (contentBounds : Rect) (scale : Point) (w h : Int) (m : Bool)
    (hfail : DrawCall.make w h m false ∈
      (ApplyFilters makeOk filterNodes contentBounds scale).calls) :
    (∃ pre, (ApplyFilters makeOk filterNodes contentBounds scale).calls =
        pre ++ [DrawCall.make w h m false] ∧
      ∀ w' h' m', DrawCall.make w' h' m' false ∉ pre) ∧
    (∀ f s, DrawCall.draw f s FilterTarget.final ∉
      (ApplyFilters makeOk filterNodes contentBounds scale).calls) ∧
    (∀ d ∈ drawsOf (ApplyFilters makeOk filterNodes contentBounds scale).calls,
      ∃ b x y, d.2.2 = FilterTarget.ofBuffer b x y) := by
  obtain ⟨extra, hcalls, hrest⟩ := ApplyFilters.loop_trace makeOk scale filterNodes
    { freeBuffer := none, lastBuffer := none, lastSource := none, lastBounds := contentBounds,
      lastUsesMSAA := false, makeCount := 0, calls := [] }
  have hc : (ApplyFilters makeOk filterNodes contentBounds scale).calls = extra := by
    unfold ApplyFilters
    rw [hcalls]
    simp
  rw [hc] at hfail ⊢
  rcases hrest with htrace | ⟨pre, w0, h0, m0, hpre, hnomake, hnofinal⟩
  · exact absurd hfail (ComposeTrace.no_failed_make _ _ _ _ _ htrace _ _ _)
  · subst hpre
    have heq : DrawCall.make w h m false = DrawCall.make w0 h0 m0 false := by
      rcases List.mem_append.mp hfail with hin | hin
      · exact absurd hin (hnomake _ _ _)
      · exact List.mem_singleton.mp hin
    have hfinal : ∀ f s, DrawCall.draw f s FilterTarget.final ∉
        pre ++ [DrawCall.make w0 h0 m0 false] := by
      intro f s hmem
      rcases List.mem_append.mp hmem with hin | hin
      · exact hnofinal _ _ hin
      · simp at hin
    refine ⟨⟨pre, by rw [heq], hnomake⟩, hfinal, ?_⟩
    intro d hd
    have key : ∀ (calls : List DrawCall),
        (∀ f s, DrawCall.draw f s FilterTarget.final ∉ calls) →
        ∀ d ∈ drawsOf calls, ∃ b x y, d.2.2 = FilterTarget.ofBuffer b x y := by
      intro calls
      induction calls with
      | nil => intro _ d hd; simp [drawsOf] at hd
      | cons c rest ih =>
        intro hno d hd
        have hrest : ∀ f s, DrawCall.draw f s FilterTarget.final ∉ rest :=
          fun f s hmem => hno f s (List.mem_cons_of_mem _ hmem)
        cases c with
        | draw f s t =>
          simp only [drawsOf, List.mem_cons] at hd
          rcases hd with hd | hd
          · subst hd
            cases t with
            | final => exact absurd (List.mem_cons_self _ _) (hno f s)
            | ofBuffer b x y => exact ⟨b, x, y, rfl⟩
          · exact ih hrest d hd
        | make _ _ _ _ => exact ih hrest d (by simpa [drawsOf] using hd)
        | clearColor _ => exact ih hrest d (by simpa [drawsOf] using hd)
        | resolve _ => exact ih hrest d (by simpa [drawsOf] using hd)
    exact key _ hfinal d hd

/-- C12, amended, at three nodes with the second `Make` failing: the failed
`Make` is the last call and the final target is never drawn to. -/
theorem ApplyFilters_failed_make_witness :
    DrawCall.make 10 10 false false ∈
      (ApplyFilters secondMakeFails threeEqualNodes ⟨0, 0, 10, 10⟩ ⟨1, 1⟩).calls ∧
    ((∃ pre, (ApplyFilters secondMakeFails threeEqualNodes ⟨0, 0, 10, 10⟩ ⟨1, 1⟩).calls =
        pre ++ [DrawCall.make 10 10 false false] ∧
      ∀ w' h' m', DrawCall.make w' h' m' false ∉ pre) ∧
    (∀ f s, DrawCall.draw f s FilterTarget.final ∉
      (ApplyFilters secondMakeFails threeEqualNodes ⟨0, 0, 10, 10⟩ ⟨1, 1⟩).calls) ∧
    (∀ d ∈ drawsOf (ApplyFilters secondMakeFails threeEqualNodes ⟨0, 0, 10, 10⟩ ⟨1, 1⟩).calls,
      ∃ b x y, d.2.2 = FilterTarget.ofBuffer b x y)) :=
  ⟨by decide!,
    ApplyFilters_failed_make secondMakeFails threeEqualNodes ⟨0, 0, 10, 10⟩ ⟨1, 1⟩ 10 10 false
      (by decide!)⟩

/-- C13: when no `FilterBuffer::Make` call fails, `ApplyFilters` issues one
filter draw per node, in node order; the draw of node 0 reads the content
source, the draw of node `k + 1` reads the source made, at the same scale, from
the buffer node `k` drew into; every node but the last draws into a buffer that
was cleared just before, with the offset of the previous bounds (content bounds
for node 0) against its own bounds at render scale; the last node, and only the
last, draws into the final target. -/
theorem ApplyFilters_draws (makeOk : Nat → Bool) (filterNodes : List FilterNode)
    (contentBounds : Rect) (scale : Point)
    (hok : ∀ w h m, DrawCall.make w h m false ∉
      (ApplyFilters makeOk filterNodes contentBounds scale).calls) :
    ComposeTrace scale FilterSource.content contentBounds filterNodes
      (ApplyFilters makeOk filterNodes contentBounds scale).calls ∧
    (drawsOf (ApplyFilters makeOk filterNodes contentBounds scale).calls).map (fun d => d.1) =
      filterNodes.map (fun n => n.filter) ∧
    ∀ (k : Nat) (node : FilterNode), filterNodes[k]? = some node →
      ∃ src tgt,
        (drawsOf (ApplyFilters makeOk filterNodes contentBounds scale).calls)[k]? =
          some (node.filter, src, tgt) ∧
        (k = 0 → src = FilterSource.content) ∧
        (∀ j, k = j + 1 → ∃ f' s' b x y,
          (drawsOf (ApplyFilters makeOk filterNodes contentBounds scale).calls)[j]? =
            some (f', s', FilterTarget.ofBuffer b x y) ∧
          src = FilterSource.ofBuffer b scale) ∧
        (k + 1 = filterNodes.length → tgt = FilterTarget.final) ∧
        (k + 1 < filterNodes.length → ∃ b,
          tgt = FilterTarget.ofBuffer b
            (((boundsBefore contentBounds filterNodes k).left - node.bounds.left) * scale.x)
            (((boundsBefore contentBounds filterNodes k).top - node.bounds.top) * scale.y)) := by
  obtain ⟨extra, hcalls, hrest⟩ := ApplyFilters.loop_trace makeOk scale filterNodes
    { freeBuffer := none, lastBuffer := none, lastSource := none, lastBounds := contentBounds,
      lastUsesMSAA := false, makeCount := 0, calls := [] }
  have hc : (ApplyFilters makeOk filterNodes contentBounds scale).calls = extra := by
    unfold ApplyFilters
    rw [hcalls]
    simp
  rw [hc] at hok ⊢
  rcases hrest with htrace | ⟨pre, w0, h0, m0, hpre, _, _⟩
  · exact ⟨htrace, ComposeTrace.draw_filters _ _ _ _ _ htrace,
      ComposeTrace.draw_index _ _ _ _ _ htrace⟩
  · exact absurd (by rw [hpre]; simp) (hok w0 h0 m0)

/-- C13 at the four nodes of sizes 10, 20, 20, 20 with every `Make`
succeeding: four draws, in node order. -/
theorem ApplyFilters_draws_witness :
    (∀ w h m, DrawCall.make w h m false ∉
      (ApplyFilters (fun _ => true) reuseExample ⟨0, 0, 10, 10⟩ ⟨1, 1⟩).calls) ∧
    (drawsOf (ApplyFilters (fun _ => true) reuseExample ⟨0, 0, 10, 10⟩ ⟨1, 1⟩).calls).map
      (fun d => d.1) = [⟨1, false⟩, ⟨2, false⟩, ⟨3, false⟩, ⟨4, false⟩] :=
  have hok : ∀ w h m, DrawCall.make w h m false ∉
      (ApplyFilters (fun _ => true) reuseExample ⟨0, 0, 10, 10⟩ ⟨1, 1⟩).calls := by
    intro w h m hmem
    have hall : ∀ c ∈ (ApplyFilters (fun _ => true) reuseExample ⟨0, 0, 10, 10⟩ ⟨1, 1⟩).calls,
        (match c with | DrawCall.make _ _ _ false => false | _ => true) = true := by decide!
    have := hall _ hmem
    simp at this
  ⟨hok, (ApplyFilters_draws (fun _ => true) reuseExample ⟨0, 0, 10, 10⟩ ⟨1, 1⟩ hok).2.1⟩

/-- C18 as stated fails: with four nodes of sizes 10, 20, 30, 30, right after the
buffer for the third node has been allocated the free buffer 0, the last
buffer 1 and the new buffer 2 are all alive. -/
theorem ApplyFilters_three_alive :
    threeAlivePoint ∈
      ApplyFilters.livePoints (fun _ => true) ⟨1, 1⟩ growingNodes
        (ApplyFilters.init ⟨0, 0, 10, 10⟩) ∧
    threeAlivePoint.alive.length = 3 ∧
    ¬ (∀ p ∈ ApplyFilters.livePoints (fun _ => true) ⟨1, 1⟩ growingNodes
        (ApplyFilters.init ⟨0, 0, 10, 10⟩), p.alive.length ≤ 2) := by
  refine ⟨by decide!, by decide!, by decide!⟩

/-- C18, amended: at every point of an `ApplyFilters` run at most three
distinct intermediate buffers are alive; three are alive only right after
`FilterBuffer::Make` has returned a new buffer while `freeBuffer` and
`lastBuffer` were both set (the old free buffer is dropped by the slot rotation
that follows); at the start of every iteration, and when the free buffer is
reused, at most two are alive. -/
theorem ApplyFilters_alive_bound (makeOk : Nat → Bool) (filterNodes : List FilterNode)
    (contentBounds : Rect) (scale : Point) (p : LivePoint)
    (hp : p ∈ ApplyFilters.livePoints makeOk scale filterNodes
      (ApplyFilters.init contentBounds)) :
    p.alive.length ≤ 3 ∧
    (p.alive.length = 3 →
      p.madeNew = true ∧ p.currentBuffer ≠ none ∧ p.freeBuffer ≠ none ∧ p.lastBuffer ≠ none) ∧
    (p.currentBuffer = none ∨ p.madeNew = false → p.alive.length ≤ 2) := by
  have hkind := ApplyFilters.livePoints_kind makeOk scale filterNodes _ p hp
  have hsmall : p.currentBuffer = none ∨ p.madeNew = false → p.alive.length ≤ 2 := by
    rintro (h | h)
    · exact LivePoint.alive_length_of_none p h
    · rcases hkind with hk | ⟨_, hk⟩ | ⟨hk, _⟩
      · exact LivePoint.alive_length_of_none p hk
      · exact LivePoint.alive_length_of_reuse p hk
      · rw [h] at hk; cases hk
  refine ⟨LivePoint.alive_length_le p, ?_, hsmall⟩
  intro h3
  rcases hkind with hk | ⟨hm, _⟩ | ⟨hm, hc⟩
  · have := hsmall (Or.inl hk); omega
  · have := hsmall (Or.inr hm); omega
  · refine ⟨hm, hc, ?_, ?_⟩
    · intro hf
      have := LivePoint.alive_length_of_missing p (Or.inl hf); omega
    · intro hl
      have := LivePoint.alive_length_of_missing p (Or.inr hl); omega

/-- C18, amended, at the point of the four-node run where three buffers are
alive: it is right after a `Make` call, with both slots set. -/
theorem ApplyFilters_alive_bound_witness :
    threeAlivePoint.alive.length ≤ 3 ∧
    (threeAlivePoint.alive.length = 3 →
      threeAlivePoint.madeNew = true ∧
      threeAlivePoint.currentBuffer ≠ none ∧
      threeAlivePoint.freeBuffer ≠ none ∧
      threeAlivePoint.lastBuffer ≠ none) ∧
    (threeAlivePoint.currentBuffer = none ∨
      threeAlivePoint.madeNew = false →
      threeAlivePoint.alive.length ≤ 2) :=
  ApplyFilters_alive_bound (fun _ => true) growingNodes ⟨0, 0, 10, 10⟩ ⟨1, 1⟩
    threeAlivePoint (by decide!)

/-! ## The orchestrator without active filters -/

/-- C16: for a layer with no effect visible at the frame, no motion blur and no
layer style visible at the frame, `MakeFilterNodes` returns the empty sequence
for every content bounds and clip rectangle, and `DrawWithFilter` does exactly
one thing, `content->draw` on the destination canvas, whose matrix is left as
it was: no surface is created, nothing is flushed, the compositor does not
run. -/
theorem DrawWithFilter_no_filters (env : RenderEnv) (parentCanvas : Canvas)
    (cache : RenderCache) (modifier : FilterModifier) (content : Graphic)
    (heff : ∀ e ∈ modifier.layer.effects, e.visibleAt modifier.layerFrame = false)
    (hmb : modifier.layer.motionBlur = false)
    (hls : ∀ s ∈ modifier.layer.layerStyles, s.visibleAt modifier.layerFrame = false) :
    (∀ contentBounds clipRect,
      (MakeFilterNodes env.ext (MakeFilterList env.ext modifier) cache contentBounds
        clipRect).nodes = []) ∧
    DrawWithFilter env parentCanvas cache modifier content =
      { actions :=
          [RenderAction.drawContent content.uid parentCanvas.surface parentCanvas.matrix]
        parentMatrix := parentCanvas.matrix } := by
  have hnil : ∀ contentBounds clipRect,
      (MakeFilterNodes env.ext (MakeFilterList env.ext modifier) cache contentBounds
        clipRect).nodes = [] :=
    fun contentBounds clipRect =>
      MakeFilterNodes_nil _ _ _ _ _ (MakeFilterList_effects_nil env.ext modifier heff) hmb
        (MakeFilterList_layerStyles_nil env.ext modifier hls)
  refine ⟨hnil, ?_⟩
  unfold DrawWithFilter
  simp only [hnil, List.isEmpty_nil, if_true]

/-- C16 at a solid layer whose only effect is hidden at the frame: the single
action is the content drawn on the destination canvas. -/
theorem DrawWithFilter_no_filters_witness :
    (∀ contentBounds clipRect,
      (MakeFilterNodes sampleEnv.ext (MakeFilterList sampleEnv.ext hiddenEffectSolid)
        sampleCache contentBounds clipRect).nodes = []) ∧
    DrawWithFilter sampleEnv sampleCanvas sampleCache hiddenEffectSolid sampleContent =
      { actions := [RenderAction.drawContent 42 7 Matrix.I], parentMatrix := Matrix.I } :=
  DrawWithFilter_no_filters sampleEnv sampleCanvas sampleCache hiddenEffectSolid sampleContent
    (by decide!) rfl (by decide!)

/-! ## The bounds a filter chain starts from -/

/-- C20: among the `update` calls made by `MakeFilterNodes`, the first has the
content bounds as passed in for old bounds (also when `clipIndex = -1` and
`*contentBounds` is replaced); the new bounds of every update are the
rounded-out bounds transform of its stage applied to its old bounds; the old
bounds of every later update are the new bounds of the update before, clipped
or not, and for the returned nodes they are exactly the bounds of the node
emitted just before. -/
theorem MakeFilterNodes_update_chain (ext : Externals) (filterList : FilterList)
    (cache : RenderCache) (contentBounds clipRect : Rect) :
    (∀ u, (updatesOf (MakeFilterNodes ext filterList cache contentBounds clipRect).calls).head?
        = some u → u.oldBounds = contentBounds) ∧
    (∀ u ∈ updatesOf (MakeFilterNodes ext filterList cache contentBounds clipRect).calls,
      StageOutput ext cache filterList u) ∧
    (∀ (k : Nat) (u u' : UpdateRecord),
      (updatesOf (MakeFilterNodes ext filterList cache contentBounds clipRect).calls)[k]?
        = some u →
      (updatesOf (MakeFilterNodes ext filterList cache contentBounds clipRect).calls)[k + 1]?
        = some u' →
      (u'.oldBounds = u.newBounds ∨
        u.newBounds.intersect (MakeFilterNodes.clipBounds ext filterList clipRect)
          = some u'.oldBounds)) ∧
    (∀ (k : Nat) (node : FilterNode),
      (MakeFilterNodes ext filterList cache contentBounds clipRect).nodes[k]? = some node →
      ∃ u, (updatesOf (MakeFilterNodes ext filterList cache contentBounds clipRect).calls)[k]?
          = some u ∧
        u.filter = node.filter ∧
        u.oldBounds = boundsBefore contentBounds
          (MakeFilterNodes ext filterList cache contentBounds clipRect).nodes k ∧
        (node.bounds = u.newBounds ∨
          u.newBounds.intersect (MakeFilterNodes.clipBounds ext filterList clipRect)
            = some node.bounds)) := by
  have key : CallsLinked ext cache filterList contentBounds
        (MakeFilterNodes.clipBounds ext filterList clipRect)
        (MakeFilterNodes ext filterList cache contentBounds clipRect).calls ∧
      ∀ (k : Nat) (node : FilterNode),
        (MakeFilterNodes ext filterList cache contentBounds clipRect).nodes[k]? = some node →
        ∃ u, (updatesOf (MakeFilterNodes ext filterList cache contentBounds clipRect).calls)[k]?
            = some u ∧
          u.filter = node.filter ∧
          u.oldBounds = boundsBefore contentBounds
            (MakeFilterNodes ext filterList cache contentBounds clipRect).nodes k ∧
          (node.bounds = u.newBounds ∨
            u.newBounds.intersect (MakeFilterNodes.clipBounds ext filterList clipRect)
              = some node.bounds) := by
    rcases MakeFilterNodes_cases ext filterList cache contentBounds clipRect with
      ⟨_, _, hm⟩ | ⟨_, clipped, _, hm⟩ | ⟨_, hm⟩
    · rw [hm]
      exact ⟨⟨trivial, fun u hu => by simp [updatesOf, Call.asUpdate] at hu⟩,
        fun k node hk => by simp at hk⟩
    · rw [hm]
      exact MakeFilterNodes.build_chained ext cache filterList _ _ contentBounds clipped _
        ⟨trivial, rfl, fun u hu => by simp [updatesOf, Call.asUpdate] at hu⟩
    · rw [hm]
      exact MakeFilterNodes.build_chained ext cache filterList _ _ contentBounds contentBounds _
        ⟨trivial, rfl, fun u hu => by simp [updatesOf] at hu⟩
  obtain ⟨⟨hlinked, hstage⟩, hnodes⟩ := key
  obtain ⟨hhead, hlink⟩ := UpdateLinked.link_index _ _ _ hlinked
  exact ⟨hhead, hstage, hlink, hnodes⟩

/-- C20 on one visible-area-only effect with content (0,0,100,100) and clip
(0,0,50,50): `*contentBounds` becomes (0,0,50,50), yet the effect's update has
the bounds at entry, (0,0,100,100), for old bounds. -/
theorem MakeFilterNodes_update_chain_example :
    (MakeFilterNodes sampleExternals (clipExample true) sampleCache ⟨0, 0, 100, 100⟩
      ⟨0, 0, 50, 50⟩).contentBounds = ⟨0, 0, 50, 50⟩ ∧
    updatesOf (MakeFilterNodes sampleExternals (clipExample true) sampleCache ⟨0, 0, 100, 100⟩
      ⟨0, 0, 50, 50⟩).calls = [⟨⟨1, false⟩, ⟨0, 0, 100, 100⟩, ⟨-10, -10, 110, 110⟩⟩] := by
  refine ⟨by decide!, by decide!⟩

end pag
